import Mathlib

/-!
# A verification development for the `persistent` package

A shallow embedding of `persistent.go` (and of the map-backed `testStorager` of
`persistent_test.go`) followed by theorems about it.

Conventions of the embedding

* A byte string (`[]byte`, and a Go `string`) is a list of naturals; bytes
  produced by the code are always below 256.
* A stateful `Storager` is a pair of functions over an explicit store state.
* A method with a pointer receiver that writes through the receiver takes the
  receiver's old value and returns the new one.
* Integer payloads are `Int`/`Nat` with explicit reduction modulo `2 ^ w`;
  a float payload is its IEEE-754 bit pattern.
* A run-time panic is the outcome `Result.crash`.
-/

namespace persistent

/-- A byte string. -/
abbrev Bytes := List Nat

/-- Go `error` values that can come out of the package. -/
inductive Error where
  /-- an error value produced by the `Storager` implementation -/
  | storager (msg : String)
  /-- the value `io.EOF`, from `binary.Read` on an empty buffer -/
  | EOF
  /-- the value `io.ErrUnexpectedEOF`, from `binary.Read` on a short buffer -/
  | ErrUnexpectedEOF
  /-- the value `fmt.Errorf("%s is not a byte", key)` -/
  | notAByte (key : Bytes)
  deriving DecidableEq, Repr

/-- Outcome of a call that writes through its receiver: either it returns, with
the receiver's new value and the returned `error` (`none` is `nil`), or the
program panics, or the model ran out of recursion fuel. -/
inductive Result (α : Type) where
  | done (p : α) (err : Option Error)
  | crash
  | fuelOut
  deriving DecidableEq, Repr

/-- Transport the receiver through a constructor of the interface type. -/
def Result.map {α β : Type} (f : α → β) : Result α → Result β
  | .done p e => .done (f p) e
  | .crash => .crash
  | .fuelOut => .fuelOut

/-! ## Type tags (the `const` block) -/

def PersistentUndefinedPrefix : Nat := 0
def PersistentBoolPrefix : Nat := 1
def PersistentInt8Prefix : Nat := 2
def PersistentInt16Prefix : Nat := 3
def PersistentInt32Prefix : Nat := 4
def PersistentInt64Prefix : Nat := 5
def PersistentUint8Prefix : Nat := 6
def PersistentUint16Prefix : Nat := 7
def PersistentUint32Prefix : Nat := 8
def PersistentUint64Prefix : Nat := 9
def PersistentFloat32Prefix : Nat := 10
def PersistentFloat64Prefix : Nat := 11
def PersistentStringPrefix : Nat := 12
def PersistentSlicePrefix : Nat := 13
def PersistentBytePrefix : Nat := 14

/-! ## The `Storager` interface and the test implementation -/

/-- The interface `Storager`, over an explicit store state `σ`. `Save` returns
the new state and the `error`; `Load` returns the bytes or the `error`. -/
structure Storager (σ : Type) where
  Save : σ → Bytes → Bytes → σ × Option Error
  Load : σ → Bytes → Except Error Bytes

/-- The store of `testStorager`: the map `db`, as an association list in which
the first binding of a key is the current one. -/
abbrev testDB := List (Bytes × Bytes)

/-- The method `testStorager.Save`: `ts.db[string(k)] = v; return nil`. -/
def testStorager.Save (db : testDB) (k v : Bytes) : testDB × Option Error :=
  ((k, v) :: db, none)

/-- The method `testStorager.Load`: the bound value, or the error
`"value is not stored"`. -/
def testStorager.Load (db : testDB) (k : Bytes) : Except Error Bytes :=
  match db.lookup k with
  | some val => .ok val
  | none => .error (.storager "value is not stored")

/-- The type `testStorager` as a `Storager`. -/
def testStorager : Storager testDB where
  Save := testStorager.Save
  Load := testStorager.Load

/-- A recording `Storager`: its state is the sequence of `Save` calls made so
far, oldest first; nothing can be loaded from it. -/
def logStorager : Storager (List (Bytes × Bytes)) where
  Save := fun log k v => (log ++ [(k, v)], none)
  Load := fun _ _ => .error (.storager "value is not stored")

/-- The store contract of the specification: `Save` reports no error, and a
`Load` returns what the latest `Save` under that key stored. -/
def Storager.ReadAfterWrite {σ : Type} (S : Storager σ) : Prop :=
  ∀ (s : σ) (k v : Bytes),
    (S.Save s k v).2 = none ∧
    ∀ k2 : Bytes, S.Load (S.Save s k v).1 k2 = if k2 = k then .ok v else S.Load s k2

/-! ## `encoding/binary` with `binary.LittleEndian` and `fmt.Sprintf` -/

/-- The `w` little-endian bytes of `u`, as `binary.Write` emits them for a
fixed-size value of `w` bytes whose bit pattern is `u`. -/
def putLE : Nat → Nat → Bytes
  | 0, _ => []
  | w + 1, u => (u % 256) :: putLE w (u / 256)

/-- The number whose little-endian bytes are `bs`. -/
def getLE : Bytes → Nat
  | [] => 0
  | b :: bs => b + 256 * getLE bs

/-- The call `binary.Read(bytes.NewBuffer(dt), binary.LittleEndian, p)` for a
receiver of `w > 0` bytes: `io.ReadFull` takes the first `w` bytes of `dt`,
failing with `io.EOF` on an empty buffer and `io.ErrUnexpectedEOF` on a short
one; bytes after the first `w` are left unread. The result is the bit pattern
read. -/
def binaryRead (w : Nat) (dt : Bytes) : Except Error Nat :=
  if dt.length = 0 then .error .EOF
  else if dt.length < w then .error .ErrUnexpectedEOF
  else .ok (getLE (dt.take w))

/-- The bit pattern of a `float32` is a signalling NaN: the exponent bits 23 to
30 are all set, the quiet bit 22 is clear and the lower 22 bits are not all
zero. -/
def isSignallingNaN32 (u : Nat) : Bool :=
  decide (u / 2 ^ 23 % 256 = 255 ∧ u / 2 ^ 22 % 2 = 0 ∧ u % 2 ^ 22 ≠ 0)

/-- What `binary.Read` leaves in a receiver of kind `float32` for the bit
pattern `u` read. A pointer to a named type is decoded through `reflect`:
`v.SetFloat(float64(math.Float32frombits(u)))`, which stores `float32(x)`. The
conversion to `float64` and back keeps every value, and the sign and payload of
a NaN, but it sets the quiet bit of a signalling NaN. -/
def quietNaN32 (u : Nat) : Nat :=
  if isSignallingNaN32 u then u + 2 ^ 22 else u

/-- The two's-complement reading of a `bits`-wide bit pattern. -/
def toSigned (bits : Nat) (u : Nat) : Int :=
  if u < 2 ^ (bits - 1) then (u : Int) else (u : Int) - 2 ^ bits

/-- The bit pattern of a signed integer at width `bits`. -/
def ofSigned (bits : Nat) (v : Int) : Nat :=
  (v % 2 ^ bits).toNat

/-- The verb `%c` applied to a byte: the UTF-8 encoding of the code point. -/
def fmtC (c : Nat) : Bytes :=
  if c < 128 then [c] else [192 + c / 64, 128 + c % 64]

/-- Decimal digits of `n`, most significant first, with recursion fuel. -/
def fmtDFuel : Nat → Nat → Bytes
  | 0, _ => []
  | fuel + 1, n => if n < 10 then [48 + n] else fmtDFuel fuel (n / 10) ++ [48 + n % 10]

/-- The verb `%d` applied to a non-negative `int`. -/
def fmtD (n : Nat) : Bytes := fmtDFuel (n + 1) n

/-- The element key `fmt.Sprintf("%s:%c%d", key, iPrefix, index)`. -/
def elemKey (key : Bytes) (iPrefix index : Nat) : Bytes :=
  key ++ [58] ++ fmtC iPrefix ++ fmtD index

/-- The field key `fmt.Sprintf("%s/%s", id, name)`. -/
def fieldKey (id name : Bytes) : Bytes :=
  id ++ [47] ++ name

/-! ## Scalar kinds

Every `Persist` below builds `key := append([]byte{Prefix}, k...)` and saves the
encoded payload under it; `binary.Write` into a `bytes.Buffer` cannot fail for a
fixed-size value, so its error branch is not reachable. Every `Restore` loads
the same composed key and decodes. -/

variable {σ : Type}

/-- The method `(*PersistentBool).Persist`. -/
def PersistentBool.Persist (S : Storager σ) (p : Bool) (s : σ) (k : Bytes) : σ × Option Error :=
  let key := PersistentBoolPrefix :: k
  if p then S.Save s key [1] else S.Save s key [0]

/-- The method `(*PersistentBool).Restore`; `dt[0]` panics on an empty value. -/
def PersistentBool.Restore (S : Storager σ) (p : Bool) (s : σ) (k : Bytes) : Result Bool :=
  let key := PersistentBoolPrefix :: k
  match S.Load s key with
  | .error err => .done p (some err)
  | .ok dt =>
    match dt with
    | [] => .crash
    | b :: _ => .done (decide (b = 1)) none

/-- The method `(*PersistentInt8).Persist`. It saves under `key`, the argument
itself: the source builds no prefixed key here. -/
def PersistentInt8.Persist (S : Storager σ) (p : Int) (s : σ) (key : Bytes) : σ × Option Error :=
  S.Save s key (putLE 1 (ofSigned 8 p))

/-- The method `(*PersistentInt8).Restore`. -/
def PersistentInt8.Restore (S : Storager σ) (p : Int) (s : σ) (k : Bytes) : Result Int :=
  let key := PersistentInt8Prefix :: k
  match S.Load s key with
  | .error err => .done p (some err)
  | .ok dt =>
    match binaryRead 1 dt with
    | .error err => .done p (some err)
    | .ok u => .done (toSigned 8 u) none

/-- The method `(*PersistentInt16).Persist`. -/
def PersistentInt16.Persist (S : Storager σ) (p : Int) (s : σ) (k : Bytes) : σ × Option Error :=
  let key := PersistentInt16Prefix :: k
  S.Save s key (putLE 2 (ofSigned 16 p))

/-- The method `(*PersistentInt16).Restore`. -/
def PersistentInt16.Restore (S : Storager σ) (p : Int) (s : σ) (k : Bytes) : Result Int :=
  let key := PersistentInt16Prefix :: k
  match S.Load s key with
  | .error err => .done p (some err)
  | .ok dt =>
    match binaryRead 2 dt with
    | .error err => .done p (some err)
    | .ok u => .done (toSigned 16 u) none

/-- The method `(*PersistentInt32).Persist`. -/
def PersistentInt32.Persist (S : Storager σ) (p : Int) (s : σ) (k : Bytes) : σ × Option Error :=
  let key := PersistentInt32Prefix :: k
  S.Save s key (putLE 4 (ofSigned 32 p))

/-- The method `(*PersistentInt32).Restore`. -/
def PersistentInt32.Restore (S : Storager σ) (p : Int) (s : σ) (k : Bytes) : Result Int :=
  let key := PersistentInt32Prefix :: k
  match S.Load s key with
  | .error err => .done p (some err)
  | .ok dt =>
    match binaryRead 4 dt with
    | .error err => .done p (some err)
    | .ok u => .done (toSigned 32 u) none

/-- The method `(*PersistentInt64).Persist`. -/
def PersistentInt64.Persist (S : Storager σ) (p : Int) (s : σ) (k : Bytes) : σ × Option Error :=
  let key := PersistentInt64Prefix :: k
  S.Save s key (putLE 8 (ofSigned 64 p))

/-- The method `(*PersistentInt64).Restore`. -/
def PersistentInt64.Restore (S : Storager σ) (p : Int) (s : σ) (k : Bytes) : Result Int :=
  let key := PersistentInt64Prefix :: k
  match S.Load s key with
  | .error err => .done p (some err)
  | .ok dt =>
    match binaryRead 8 dt with
    | .error err => .done p (some err)
    | .ok u => .done (toSigned 64 u) none

/-- The method `(*PersistentUint8).Persist`. -/
def PersistentUint8.Persist (S : Storager σ) (p : Nat) (s : σ) (k : Bytes) : σ × Option Error :=
  let key := PersistentUint8Prefix :: k
  S.Save s key (putLE 1 (p % 2 ^ 8))

/-- The method `(*PersistentUint8).Restore`. -/
def PersistentUint8.Restore (S : Storager σ) (p : Nat) (s : σ) (k : Bytes) : Result Nat :=
  let key := PersistentUint8Prefix :: k
  match S.Load s key with
  | .error err => .done p (some err)
  | .ok dt =>
    match binaryRead 1 dt with
    | .error err => .done p (some err)
    | .ok u => .done u none

/-- The method `(*PersistentUint16).Persist`. -/
def PersistentUint16.Persist (S : Storager σ) (p : Nat) (s : σ) (k : Bytes) : σ × Option Error :=
  let key := PersistentUint16Prefix :: k
  S.Save s key (putLE 2 (p % 2 ^ 16))

/-- The method `(*PersistentUint16).Restore`. -/
def PersistentUint16.Restore (S : Storager σ) (p : Nat) (s : σ) (k : Bytes) : Result Nat :=
  let key := PersistentUint16Prefix :: k
  match S.Load s key with
  | .error err => .done p (some err)
  | .ok dt =>
    match binaryRead 2 dt with
    | .error err => .done p (some err)
    | .ok u => .done u none

/-- The method `(*PersistentUint32).Persist`. -/
def PersistentUint32.Persist (S : Storager σ) (p : Nat) (s : σ) (k : Bytes) : σ × Option Error :=
  let key := PersistentUint32Prefix :: k
  S.Save s key (putLE 4 (p % 2 ^ 32))

/-- The method `(*PersistentUint32).Restore`. -/
def PersistentUint32.Restore (S : Storager σ) (p : Nat) (s : σ) (k : Bytes) : Result Nat :=
  let key := PersistentUint32Prefix :: k
  match S.Load s key with
  | .error err => .done p (some err)
  | .ok dt =>
    match binaryRead 4 dt with
    | .error err => .done p (some err)
    | .ok u => .done u none

/-- The method `(*PersistentUint64).Persist`. -/
def PersistentUint64.Persist (S : Storager σ) (p : Nat) (s : σ) (k : Bytes) : σ × Option Error :=
  let key := PersistentUint64Prefix :: k
  S.Save s key (putLE 8 (p % 2 ^ 64))

/-- The method `(*PersistentUint64).Restore`. -/
def PersistentUint64.Restore (S : Storager σ) (p : Nat) (s : σ) (k : Bytes) : Result Nat :=
  let key := PersistentUint64Prefix :: k
  match S.Load s key with
  | .error err => .done p (some err)
  | .ok dt =>
    match binaryRead 8 dt with
    | .error err => .done p (some err)
    | .ok u => .done u none

/-- The method `(*PersistentFloat32).Persist`; the payload is the bit pattern of
the float. The value handed to `binary.Write` has the unnamed type `float32`,
which is encoded as `math.Float32bits` of it. -/
def PersistentFloat32.Persist (S : Storager σ) (p : Nat) (s : σ) (k : Bytes) : σ × Option Error :=
  let key := PersistentFloat32Prefix :: k
  S.Save s key (putLE 4 (p % 2 ^ 32))

/-- The method `(*PersistentFloat32).Restore`; the payload is the bit pattern of
the float. The pattern read reaches the receiver through a conversion to
`float64` and back, which quiets a signalling NaN. -/
def PersistentFloat32.Restore (S : Storager σ) (p : Nat) (s : σ) (k : Bytes) : Result Nat :=
  let key := PersistentFloat32Prefix :: k
  match S.Load s key with
  | .error err => .done p (some err)
  | .ok dt =>
    match binaryRead 4 dt with
    | .error err => .done p (some err)
    | .ok u => .done (quietNaN32 u) none

/-- The method `(*PersistentFloat64).Persist`; the payload is the bit pattern of the float. -/
def PersistentFloat64.Persist (S : Storager σ) (p : Nat) (s : σ) (k : Bytes) : σ × Option Error :=
  let key := PersistentFloat64Prefix :: k
  S.Save s key (putLE 8 (p % 2 ^ 64))

/-- The method `(*PersistentFloat64).Restore`; the payload is the bit pattern of
the float, which `SetFloat` stores in a `float64` receiver without conversion. -/
def PersistentFloat64.Restore (S : Storager σ) (p : Nat) (s : σ) (k : Bytes) : Result Nat :=
  let key := PersistentFloat64Prefix :: k
  match S.Load s key with
  | .error err => .done p (some err)
  | .ok dt =>
    match binaryRead 8 dt with
    | .error err => .done p (some err)
    | .ok u => .done u none

/-- The method `(*PersistentByte).Persist`. -/
def PersistentByte.Persist (S : Storager σ) (p : Nat) (s : σ) (k : Bytes) : σ × Option Error :=
  let key := PersistentBytePrefix :: k
  S.Save s key [p % 256]

/-- The method `(*PersistentByte).Restore`. -/
def PersistentByte.Restore (S : Storager σ) (p : Nat) (s : σ) (k : Bytes) : Result Nat :=
  let key := PersistentBytePrefix :: k
  match S.Load s key with
  | .error err => .done p (some err)
  | .ok dt =>
    if dt.length ≠ 1 then .done p (some (.notAByte key))
    else .done (dt.headD 0) none

/-- The method `(*PersistentString).Persist`. -/
def PersistentString.Persist (S : Storager σ) (p : Bytes) (s : σ) (k : Bytes) : σ × Option Error :=
  let key := PersistentStringPrefix :: k
  S.Save s key p

/-- The method `(*PersistentString).Restore`. -/
def PersistentString.Restore (S : Storager σ) (p : Bytes) (s : σ) (k : Bytes) : Result Bytes :=
  let key := PersistentStringPrefix :: k
  match S.Load s key with
  | .error err => .done p (some err)
  | .ok dt => .done dt none

/-! ## The interface `Persistent` and `PersistentSlice`

The values that implement `Persistent` are the fourteen pointer types of the
package; an interface value is modelled by the sum of their payloads. A slice
holds no nil element. -/

/-- A non-nil value of interface type `Persistent`. -/
inductive Persistent where
  | bool (v : Bool)
  | int8 (v : Int)
  | int16 (v : Int)
  | int32 (v : Int)
  | int64 (v : Int)
  | uint8 (v : Nat)
  | uint16 (v : Nat)
  | uint32 (v : Nat)
  | uint64 (v : Nat)
  | float32 (bits : Nat)
  | float64 (bits : Nat)
  | string (v : Bytes)
  | slice (ps : List Persistent)
  | byte (v : Nat)

/-- The type switch at the head of `(*PersistentSlice).Persist`, on element 0.
There is no case for `*PersistentSlice`, which therefore takes the `default`
branch. -/
def elemPrefix : List Persistent → Nat
  | [] => PersistentUndefinedPrefix
  | .bool _ :: _ => PersistentBoolPrefix
  | .int8 _ :: _ => PersistentInt8Prefix
  | .int16 _ :: _ => PersistentInt16Prefix
  | .int32 _ :: _ => PersistentInt32Prefix
  | .int64 _ :: _ => PersistentInt64Prefix
  | .uint8 _ :: _ => PersistentUint8Prefix
  | .uint16 _ :: _ => PersistentUint16Prefix
  | .uint32 _ :: _ => PersistentUint32Prefix
  | .uint64 _ :: _ => PersistentUint64Prefix
  | .float32 _ :: _ => PersistentFloat32Prefix
  | .float64 _ :: _ => PersistentFloat64Prefix
  | .string _ :: _ => PersistentStringPrefix
  | .slice _ :: _ => PersistentUndefinedPrefix
  | .byte _ :: _ => PersistentBytePrefix

/-- The result of `g.Wait()` after two tasks: the first non-nil error. -/
def firstErr (e1 e2 : Option Error) : Option Error :=
  match e1 with
  | some err => some err
  | none => e2

/-- The part of `(*PersistentSlice).Persist` that follows the loop, in the
schedule in which the element tasks have all finished, with the outcome `g`,
before the length write is made: the two metadata writes, either of which
returns at once when it fails, and then the result of `g.Wait()`. -/
def PersistentSlice.Persist.finish (S : Storager σ) (g : σ × Option Error) (len iPrefix : Nat)
    (key : Bytes) : σ × Option Error :=
  let length := PersistentUint64.Persist S len g.1 (108 :: key)
  match length.2 with
  | some err => (length.1, some err)
  | none =>
    let pfx := PersistentByte.Persist S iPrefix length.1 (116 :: key)
    match pfx.2 with
    | some err => (pfx.1, some err)
    | none => (pfx.1, g.2)

mutual
/-- A call `p.Persist(s, k)` through the interface; the case of a slice is the
body of `(*PersistentSlice).Persist`. -/
def Persistent.Persist (S : Storager σ) : Persistent → σ → Bytes → σ × Option Error
  | .bool v, s, k => PersistentBool.Persist S v s k
  | .int8 v, s, k => PersistentInt8.Persist S v s k
  | .int16 v, s, k => PersistentInt16.Persist S v s k
  | .int32 v, s, k => PersistentInt32.Persist S v s k
  | .int64 v, s, k => PersistentInt64.Persist S v s k
  | .uint8 v, s, k => PersistentUint8.Persist S v s k
  | .uint16 v, s, k => PersistentUint16.Persist S v s k
  | .uint32 v, s, k => PersistentUint32.Persist S v s k
  | .uint64 v, s, k => PersistentUint64.Persist S v s k
  | .float32 v, s, k => PersistentFloat32.Persist S v s k
  | .float64 v, s, k => PersistentFloat64.Persist S v s k
  | .string v, s, k => PersistentString.Persist S v s k
  | .slice ps, s, k =>
    let iPrefix := elemPrefix ps
    let key := PersistentSlicePrefix :: k
    PersistentSlice.Persist.finish S (PersistentSlice.Persist.tasks S ps s key iPrefix 0)
      ps.length iPrefix key
  | .byte v, s, k => PersistentByte.Persist S v s k
/-- The goroutines started by the loop of `(*PersistentSlice).Persist`, for the
elements from `index` on, run one per index in index order: each persists its
element under `fmt.Sprintf("%s:%c%d", key, iPrefix, index)`; the error is the
first non-nil one. -/
def PersistentSlice.Persist.tasks (S : Storager σ) :
    List Persistent → σ → Bytes → Nat → Nat → σ × Option Error
  | [], s, _, _, _ => (s, none)
  | p :: rest, s, key, iPrefix, index =>
    let r := Persistent.Persist S p s (elemKey key iPrefix index)
    let g := PersistentSlice.Persist.tasks S rest r.1 key iPrefix (index + 1)
    (g.1, firstErr r.2 g.2)
end

/-- The method `(*PersistentSlice).Persist` in the schedule in which the element
tasks have all finished ahead of the two metadata writes, so that no task is
left to run when a failed metadata write returns. The method under the other
schedules, where such a return leaves tasks still to run, is
`PersistentSlice.PersistSched`. -/
def PersistentSlice.Persist (S : Storager σ) (ps : List Persistent) (s : σ) (k : Bytes) :
    σ × Option Error :=
  let iPrefix := elemPrefix ps
  let key := PersistentSlicePrefix :: k
  PersistentSlice.Persist.finish S (PersistentSlice.Persist.tasks S ps s key iPrefix 0)
    ps.length iPrefix key

/-- A value to persist, with a schedule of the goroutines of the lists in it. -/
inductive Scheduled where
  /-- a value whose lists, if it has any, have every element task finished
  ahead of their metadata writes -/
  | value (p : Persistent)
  /-- a list with its elements in index order, split into those whose task has
  finished when the length write is made (`ps1`), those whose task finishes
  between the length write and the element-tag write (`ps2`), and those whose
  task finishes afterwards, while `g.Wait()` is awaited (`ps3`) -/
  | slice (ps1 ps2 ps3 : List Scheduled)

mutual
/-- The value that is persisted. -/
def Scheduled.toPersistent : Scheduled → Persistent
  | .value p => p
  | .slice ps1 ps2 ps3 =>
    .slice (Scheduled.toList ps1 ++ Scheduled.toList ps2 ++ Scheduled.toList ps3)
/-- The values that are persisted, in index order. -/
def Scheduled.toList : List Scheduled → List Persistent
  | [] => []
  | p :: rest => Scheduled.toPersistent p :: Scheduled.toList rest
end

mutual
/-- A call `p.Persist(s, k)` through the interface under a schedule; the case
of a slice is the body of `(*PersistentSlice).Persist`. A metadata write that
fails returns its error at once, `g.Wait()` not being called: the store is then
the one left by the tasks finished so far and by the writes made, and the other
tasks have not saved anything yet. Otherwise `g.Wait()` returns the first
non-nil error of the tasks. -/
def Scheduled.Persist (S : Storager σ) : Scheduled → σ → Bytes → σ × Option Error
  | .value p, s, k => p.Persist S s k
  | .slice ps1 ps2 ps3, s, k =>
    let iPrefix :=
      elemPrefix (Scheduled.toList ps1 ++ Scheduled.toList ps2 ++ Scheduled.toList ps3)
    let key := PersistentSlicePrefix :: k
    let g1 := Scheduled.tasks S ps1 s key iPrefix 0
    let length := PersistentUint64.Persist S
      (Scheduled.toList ps1 ++ Scheduled.toList ps2 ++ Scheduled.toList ps3).length g1.1
      (108 :: key)
    match length.2 with
    | some err => (length.1, some err)
    | none =>
      let g2 := Scheduled.tasks S ps2 length.1 key iPrefix ps1.length
      let pfx := PersistentByte.Persist S iPrefix g2.1 (116 :: key)
      match pfx.2 with
      | some err => (pfx.1, some err)
      | none =>
        let g3 := Scheduled.tasks S ps3 pfx.1 key iPrefix (ps1.length + ps2.length)
        (g3.1, firstErr g1.2 (firstErr g2.2 g3.2))
/-- The goroutines of the elements from `index` on that finish in one part of
the schedule, run in index order. -/
def Scheduled.tasks (S : Storager σ) :
    List Scheduled → σ → Bytes → Nat → Nat → σ × Option Error
  | [], s, _, _, _ => (s, none)
  | p :: rest, s, key, iPrefix, index =>
    let r := Scheduled.Persist S p s (elemKey key iPrefix index)
    let g := Scheduled.tasks S rest r.1 key iPrefix (index + 1)
    (g.1, firstErr r.2 g.2)
end

/-- The method `(*PersistentSlice).Persist` under a schedule of its goroutines,
and of those of the lists nested in it. The list persisted is
`Scheduled.toList ps1 ++ Scheduled.toList ps2 ++ Scheduled.toList ps3`. -/
def PersistentSlice.PersistSched (S : Storager σ) (ps1 ps2 ps3 : List Scheduled) (s : σ)
    (k : Bytes) : σ × Option Error :=
  Scheduled.Persist S (.slice ps1 ps2 ps3) s k

/-- The switch of `(*PersistentSlice).Restore` that allocates `slc[index]`
from the recorded tag; with no matching case the slot stays nil. -/
def newElem (pfx : Nat) : Option Persistent :=
  if pfx = PersistentBoolPrefix then some (.bool false)
  else if pfx = PersistentInt8Prefix then some (.int8 0)
  else if pfx = PersistentInt16Prefix then some (.int16 0)
  else if pfx = PersistentInt32Prefix then some (.int32 0)
  else if pfx = PersistentInt64Prefix then some (.int64 0)
  else if pfx = PersistentUint8Prefix then some (.uint8 0)
  else if pfx = PersistentUint16Prefix then some (.uint16 0)
  else if pfx = PersistentUint32Prefix then some (.uint32 0)
  else if pfx = PersistentUint64Prefix then some (.uint64 0)
  else if pfx = PersistentFloat32Prefix then some (.float32 0)
  else if pfx = PersistentFloat64Prefix then some (.float64 0)
  else if pfx = PersistentStringPrefix then some (.string [])
  else if pfx = PersistentSlicePrefix then some (.slice [])
  else if pfx = PersistentBytePrefix then some (.byte 0)
  else none

/-- The outcome of `g.Wait()` over the element tasks of a restore, with the
slots they filled: a panic in any task ends the program; otherwise the error is
the first non-nil one. -/
def waitAll : List (Result Persistent) → Result (List Persistent)
  | [] => .done [] none
  | r :: rs =>
    match r with
    | .crash => .crash
    | .fuelOut => .fuelOut
    | .done p e =>
      match waitAll rs with
      | .crash => .crash
      | .fuelOut => .fuelOut
      | .done slc e2 => .done (p :: slc) (firstErr e e2)

/-- The body of `(*PersistentSlice).Restore`, given how an element is restored
through the interface. The element tasks are run one per index; calling
`Restore` on a nil slot panics. The allocation `make([]Persistent, *length)` is
taken to succeed. -/
def PersistentSlice.restoreBody (S : Storager σ)
    (elemRestore : Persistent → σ → Bytes → Result Persistent)
    (ps : List Persistent) (s : σ) (k : Bytes) : Result (List Persistent) :=
  let key := PersistentSlicePrefix :: k
  match PersistentUint64.Restore S 0 s (108 :: key) with
  | .crash => .crash
  | .fuelOut => .fuelOut
  | .done _ (some err) => .done ps (some err)
  | .done length none =>
    match PersistentByte.Restore S 0 s (116 :: key) with
    | .crash => .crash
    | .fuelOut => .fuelOut
    | .done _ (some err) => .done ps (some err)
    | .done pfx none =>
      let g := waitAll ((List.range length).map fun index =>
        let iK := elemKey key pfx index
        match newElem pfx with
        | none => .crash
        | some slot => elemRestore slot s iK)
      match g with
      | .crash => .crash
      | .fuelOut => .fuelOut
      | .done _ (some err) => .done ps (some err)
      | .done slc none => .done slc none

/-- A call `p.Restore(s, k)` through the interface. The fuel bounds the nesting
depth of the slices that are read back. -/
def Persistent.Restore (S : Storager σ) : Nat → Persistent → σ → Bytes → Result Persistent
  | _, .bool v, s, k => (PersistentBool.Restore S v s k).map .bool
  | _, .int8 v, s, k => (PersistentInt8.Restore S v s k).map .int8
  | _, .int16 v, s, k => (PersistentInt16.Restore S v s k).map .int16
  | _, .int32 v, s, k => (PersistentInt32.Restore S v s k).map .int32
  | _, .int64 v, s, k => (PersistentInt64.Restore S v s k).map .int64
  | _, .uint8 v, s, k => (PersistentUint8.Restore S v s k).map .uint8
  | _, .uint16 v, s, k => (PersistentUint16.Restore S v s k).map .uint16
  | _, .uint32 v, s, k => (PersistentUint32.Restore S v s k).map .uint32
  | _, .uint64 v, s, k => (PersistentUint64.Restore S v s k).map .uint64
  | _, .float32 v, s, k => (PersistentFloat32.Restore S v s k).map .float32
  | _, .float64 v, s, k => (PersistentFloat64.Restore S v s k).map .float64
  | _, .string v, s, k => (PersistentString.Restore S v s k).map .string
  | _, .byte v, s, k => (PersistentByte.Restore S v s k).map .byte
  | 0, .slice _, _, _ => .fuelOut
  | fuel + 1, .slice ps, s, k =>
    (PersistentSlice.restoreBody S (Persistent.Restore S fuel) ps s k).map .slice

/-- The method `(*PersistentSlice).Restore`, for elements nested at most `fuel`
slices deep. -/
def PersistentSlice.Restore (S : Storager σ) (fuel : Nat) (ps : List Persistent) (s : σ)
    (k : Bytes) : Result (List Persistent) :=
  PersistentSlice.restoreBody S (Persistent.Restore S fuel) ps s k

/-! ## Records: `PersistStruct` and `RestoreStruct`

A record is the list of its fields in declaration order. A persistable field
has a pointer type `*PersistentT` (its kind) and holds nil or a value of that
kind; any other field is opaque to the walk. The error handler is modelled by
the sequence of arguments it is called with. -/

/-- The fourteen types that implement `Persistent`. -/
inductive Kind where
  | bool | int8 | int16 | int32 | int64 | uint8 | uint16 | uint32 | uint64
  | float32 | float64 | string | slice | byte
  deriving DecidableEq, Repr

/-- The dynamic type of an interface value. -/
def Persistent.kind : Persistent → Kind
  | .bool _ => .bool
  | .int8 _ => .int8
  | .int16 _ => .int16
  | .int32 _ => .int32
  | .int64 _ => .int64
  | .uint8 _ => .uint8
  | .uint16 _ => .uint16
  | .uint32 _ => .uint32
  | .uint64 _ => .uint64
  | .float32 _ => .float32
  | .float64 _ => .float64
  | .string _ => .string
  | .slice _ => .slice
  | .byte _ => .byte

/-- The value `new(PersistentT)`, as returned by `EmptyPersistentT()` and by
`reflect.New` in `RestoreStruct`: a pointer to the zero value. -/
def Kind.empty : Kind → Persistent
  | .bool => .bool false
  | .int8 => .int8 0
  | .int16 => .int16 0
  | .int32 => .int32 0
  | .int64 => .int64 0
  | .uint8 => .uint8 0
  | .uint16 => .uint16 0
  | .uint32 => .uint32 0
  | .uint64 => .uint64 0
  | .float32 => .float32 0
  | .float64 => .float64 0
  | .string => .string []
  | .slice => .slice []
  | .byte => .byte 0

mutual
/-- The payload fits the Go type: integers within their width, a float bit
pattern within its width, a string made of bytes, a slice of `int` length. -/
def Persistent.inRange : Persistent → Prop
  | .bool _ => True
  | .int8 v => -2 ^ 7 ≤ v ∧ v < 2 ^ 7
  | .int16 v => -2 ^ 15 ≤ v ∧ v < 2 ^ 15
  | .int32 v => -2 ^ 31 ≤ v ∧ v < 2 ^ 31
  | .int64 v => -2 ^ 63 ≤ v ∧ v < 2 ^ 63
  | .uint8 v => v < 2 ^ 8
  | .uint16 v => v < 2 ^ 16
  | .uint32 v => v < 2 ^ 32
  | .uint64 v => v < 2 ^ 64
  | .float32 v => v < 2 ^ 32
  | .float64 v => v < 2 ^ 64
  | .string _ => True
  | .slice ps => ps.length < 2 ^ 63 ∧ Persistent.inRangeAll ps
  | .byte v => v < 2 ^ 8
/-- Every element of the list fits its Go type. -/
def Persistent.inRangeAll : List Persistent → Prop
  | [] => True
  | p :: ps => Persistent.inRange p ∧ Persistent.inRangeAll ps
end

/-- A field of a record. -/
inductive Field where
  /-- a field of type `*PersistentT` for the kind `T`, holding nil or a value -/
  | persistable (name : Bytes) (kind : Kind) (ref : Option Persistent)
  /-- a field whose type does not implement `Persistent`, with its content -/
  | plain (name : Bytes) (val : Nat)

/-- The field name is exported: it starts with an upper-case letter (names are
taken to be ASCII). On a value obtained through an unexported field,
`reflect.Value.Call` and `reflect.Value.Set` panic. -/
def isExported (name : Bytes) : Bool :=
  match name with
  | b :: _ => decide (65 ≤ b ∧ b ≤ 90)
  | [] => false

/-- Outcome of `PersistStruct`: the store and the arguments passed to
`errHandler`, in call order, at the point where the walk ended, and whether it
ended in a panic instead of returning. -/
structure PersistStructResult (σ : Type) where
  store : σ
  handled : List (Option Error)
  panicked : Bool

/-- The function `PersistStruct`. A nil persistable field is skipped by
`IsNil`, ahead of any call; for a non-nil one, `MethodByName("Persist").Call`
panics when the field is unexported, before the method runs. -/
def PersistStruct (S : Storager σ) (id : Bytes) : List Field → σ → PersistStructResult σ
  | [], s => ⟨s, [], false⟩
  | .plain _ _ :: rest, s => PersistStruct S id rest s
  | .persistable _ _ none :: rest, s => PersistStruct S id rest s
  | .persistable name _ (some p) :: rest, s =>
    if isExported name then
      let cRet := p.Persist S s (fieldKey id name)
      let r := PersistStruct S id rest cRet.1
      ⟨r.store, cRet.2 :: r.handled, r.panicked⟩
    else ⟨s, [], true⟩

/-- Outcome of `RestoreStruct`: it returns, leaving the record `dt` and having
called `errHandler` with `handled`, or it panics, in `reflect` or in a field's
`Restore`. -/
inductive StructResult where
  | returned (dt : List Field) (handled : List (Option Error))
  | crash
  | fuelOut

/-- The function `RestoreStruct`. On an unexported persistable field it panics
before the field's `Restore` runs: in `Set` when the field is nil, in
`MethodByName("Restore").Call` when it is not. -/
def RestoreStruct (S : Storager σ) (fuel : Nat) (id : Bytes) : List Field → σ → StructResult
  | [], _ => .returned [] []
  | .plain name val :: rest, s =>
    match RestoreStruct S fuel id rest s with
    | .returned dt handled => .returned (.plain name val :: dt) handled
    | .crash => .crash
    | .fuelOut => .fuelOut
  | .persistable name kind ref :: rest, s =>
    if isExported name then
      let target := match ref with
        | none => kind.empty
        | some p => p
      match target.Restore S fuel s (fieldKey id name) with
      | .crash => .crash
      | .fuelOut => .fuelOut
      | .done p cRet =>
        match RestoreStruct S fuel id rest s with
        | .returned dt handled =>
          .returned (.persistable name kind (some p) :: dt) (cRet :: handled)
        | .crash => .crash
        | .fuelOut => .fuelOut
    else .crash

/-! ## Vocabulary of the statements -/

/-- The key `"test"` of the test suite. -/
def testKey : Bytes := [116, 101, 115, 116]

/-- The twelve scalar kinds other than `Int8`. -/
def Kind.isPlainScalar : Kind → Bool
  | .int8 => false
  | .slice => false
  | _ => true

/-- Reading of a decimal numeral. -/
def parseD (bs : Bytes) : Nat := bs.foldl (fun a b => a * 10 + (b - 48)) 0

/-- The record type `pessoa` of `TestPersistStruct`: the persistable fields
`Nome`, `Idade` and `Altura` and the plain field `Mentira`. -/
def pessoa (nome idade altura : Option Persistent) (mentira : Nat) : List Field :=
  [.persistable [78, 111, 109, 101] .string nome,
   .persistable [73, 100, 97, 100, 101] .uint32 idade,
   .persistable [65, 108, 116, 117, 114, 97] .float32 altura,
   .plain [77, 101, 110, 116, 105, 114, 97] mentira]

/-- The tag constant of a kind: the byte that the kind's `Restore` puts ahead
of the raw key. -/
def Kind.tag : Kind → Nat
  | .bool => PersistentBoolPrefix
  | .int8 => PersistentInt8Prefix
  | .int16 => PersistentInt16Prefix
  | .int32 => PersistentInt32Prefix
  | .int64 => PersistentInt64Prefix
  | .uint8 => PersistentUint8Prefix
  | .uint16 => PersistentUint16Prefix
  | .uint32 => PersistentUint32Prefix
  | .uint64 => PersistentUint64Prefix
  | .float32 => PersistentFloat32Prefix
  | .float64 => PersistentFloat64Prefix
  | .string => PersistentStringPrefix
  | .slice => PersistentSlicePrefix
  | .byte => PersistentBytePrefix

/-- The store reports, with the error `e`, that what `Restore` of `p` under the
raw key `k` needs is missing: for a scalar its composed key; for a list its
length key, or its element-tag key while the length key holds a value of at
least 8 bytes. -/
def keyMissing (S : Storager σ) (s : σ) (k : Bytes) (e : Error) : Persistent → Prop
  | .slice _ =>
    S.Load s (PersistentUint64Prefix :: 108 :: PersistentSlicePrefix :: k) = .error e ∨
    (∃ dt, S.Load s (PersistentUint64Prefix :: 108 :: PersistentSlicePrefix :: k) = .ok dt ∧
      8 ≤ dt.length ∧
      S.Load s (PersistentBytePrefix :: 116 :: PersistentSlicePrefix :: k) = .error e)
  | p => S.Load s (p.kind.tag :: k) = .error e

/-- A test store in which the length key of the list `"test"` holds three bytes
and its element-tag key is missing. -/
def shortLengthDB : testDB := [([9, 108, 13, 116, 101, 115, 116], [1, 2, 3])]

/-- The keys of the `Save` calls made by `PersistentSlice.Persist` of `ps` under
the raw key `k`, in call order: one per element task when the elements are
scalars, then the length key and the element-tag key. -/
def savedKeys (ps : List Persistent) (k : Bytes) : List Bytes :=
  (PersistentSlice.Persist logStorager ps [] k).1.map Prod.fst

/-- The key under which `Persist` of a scalar of kind `c` saves, for the raw
key `r`: the tag followed by `r`, except for `Int8`, whose `Persist` saves
under `r` itself. -/
def storeKey (c : Kind) (r : Bytes) : Bytes :=
  match c with
  | .int8 => r
  | c => c.tag :: r

/-- The name of a field. -/
def Field.name : Field → Bytes
  | .persistable name _ _ => name
  | .plain name _ => name

/-- A field name is a Go identifier: letters, digits and underscores, so that
it holds neither the byte `'/'` nor the byte `':'`. -/
def isIdent (name : Bytes) : Prop :=
  ∀ b ∈ name, b ≠ 47 ∧ b ≠ 58

/-- The store key `K` lies under the raw key `r`: it is `r` between a prefix
and a suffix free of `'/'`, the suffix being empty or starting with `':'`. -/
def KeyUnder (r K : Bytes) : Prop :=
  ∃ pre suf, K = pre ++ r ++ suf ∧ (∀ b ∈ pre, b ≠ 47) ∧ (∀ b ∈ suf, b ≠ 47) ∧
    (suf = [] ∨ suf.head? = some 58)

/-- The keys of the `Save` calls that `p.Persist` makes under the raw key `r`. -/
def keysSavedBy (p : Persistent) (r : Bytes) : List Bytes :=
  (p.Persist logStorager [] r).1.map Prod.fst

/-- What `RestoreStruct` does to a field before the field's `Restore`: a nil
persistable reference is replaced by a pointer to the zero value. -/
def Field.allocate : Field → Field
  | .persistable name kind none => .persistable name kind (some kind.empty)
  | f => f

/-- The field has a type that implements `Persistent`. -/
def Field.isPersistable : Field → Bool
  | .persistable _ _ _ => true
  | .plain _ _ => false

/-- The `Restore` call that the walk of `RestoreStruct` makes for a field: for a
persistable field, on the value the field holds, or on a fresh zero value when
it is nil, with the raw key `id ++ "/" ++ name`; no call for a plain field. -/
def Field.restoreCall (S : Storager σ) (fuel : Nat) (id : Bytes) (s : σ) :
    Field → Option (Result Persistent)
  | .persistable name kind none => some (kind.empty.Restore S fuel s (fieldKey id name))
  | .persistable name _ (some p) => some (p.Restore S fuel s (fieldKey id name))
  | .plain _ _ => none

/-- The field's `Restore` call, if there is one, returns. -/
def Field.restoreReturns (S : Storager σ) (fuel : Nat) (id : Bytes) (s : σ) (f : Field) : Prop :=
  ∀ r, f.restoreCall S fuel id s = some r → ∃ p e, r = Result.done p e

/-- The result of the field's `Restore` call: the `error` it returned. -/
def Field.restoreResult (S : Storager σ) (fuel : Nat) (id : Bytes) (s : σ) (f : Field) :
    Option (Option Error) :=
  match f.restoreCall S fuel id s with
  | some (.done _ e) => some e
  | _ => none

/-- The field after its `Restore` call returned: a persistable field points to
the receiver as the call left it. -/
def Field.afterRestore (S : Storager σ) (fuel : Nat) (id : Bytes) (s : σ) (f : Field) : Field :=
  match f, f.restoreCall S fuel id s with
  | .persistable name kind _, some (.done p _) => .persistable name kind (some p)
  | f, _ => f

/-- A test store whose `Uint32`-tagged key of the field `B` under the id `"r"`
holds a short value, and in which the keys of the fields `A` and `C` are
missing. -/
def shortFieldDB : testDB := [([8, 114, 47, 66], [1, 2])]

/-- The width in bytes of the payload of a numeric kind. -/
def Kind.width : Kind → Nat
  | .int8 => 1
  | .uint8 => 1
  | .int16 => 2
  | .uint16 => 2
  | .int32 => 4
  | .uint32 => 4
  | .float32 => 4
  | .int64 => 8
  | .uint64 => 8
  | .float64 => 8
  | _ => 0

/-- The numeric kinds of width 2, 4 or 8 bytes. -/
def Kind.isMultiByte (c : Kind) : Bool := decide (2 ≤ c.width)

/-- The integer kinds. -/
def Kind.isInteger : Kind → Bool
  | .int8 => true
  | .int16 => true
  | .int32 => true
  | .int64 => true
  | .uint8 => true
  | .uint16 => true
  | .uint32 => true
  | .uint64 => true
  | _ => false

/-- The value that the `Restore` of a numeric kind leaves for the bit pattern
`u` read: the pattern itself, read in two's complement for a signed integer;
for a `Float32` a signalling NaN is quieted. -/
def Kind.ofBits : Kind → Nat → Persistent
  | .int8, u => .int8 (toSigned 8 u)
  | .int16, u => .int16 (toSigned 16 u)
  | .int32, u => .int32 (toSigned 32 u)
  | .int64, u => .int64 (toSigned 64 u)
  | .uint8, u => .uint8 u
  | .uint16, u => .uint16 u
  | .uint32, u => .uint32 u
  | .uint64, u => .uint64 u
  | .float32, u => .float32 (quietNaN32 u)
  | .float64, u => .float64 u
  | c, _ => c.empty

/-- The value is a `Float32` holding a signalling NaN. -/
def Persistent.isSignallingNaN : Persistent → Bool
  | .float32 b => isSignallingNaN32 b
  | _ => false

/-- The calls that the walk of `PersistStruct` is to make: the non-nil
persistable fields of the record in declaration order, each with its name. -/
def visited : List Field → List (Bytes × Persistent)
  | [] => []
  | .persistable name _ (some p) :: rest => (name, p) :: visited rest
  | _ :: rest => visited rest

/-- The walk over the visited fields in the words of the specification: each
value in turn is persisted under the raw key `id ++ "/" ++ name` in the store
left by the earlier calls, whatever they returned, and the call's result is
handed to the error handler. The outcome is the final store and the handler
arguments in call order. -/
def persistEach (S : Storager σ) (id : Bytes) :
    List (Bytes × Persistent) → σ → σ × List (Option Error)
  | [], s => (s, [])
  | c :: rest, s =>
    ((persistEach S id rest (c.2.Persist S s (fieldKey id c.1)).1).1,
      (c.2.Persist S s (fieldKey id c.1)).2
        :: (persistEach S id rest (c.2.Persist S s (fieldKey id c.1)).1).2)

/-- The integer that a value of an integer kind holds. -/
def Persistent.toInt : Persistent → Int
  | .int8 v => v
  | .int16 v => v
  | .int32 v => v
  | .int64 v => v
  | .uint8 v => v
  | .uint16 v => v
  | .uint32 v => v
  | .uint64 v => v
  | _ => 0

/-- A test store holding five bytes under the `Int32`-tagged key `"test"`. -/
def longInt32DB : testDB := [([4, 116, 101, 115, 116], [124, 254, 255, 255, 0])]

/-- A test store holding the byte `'a'` under the `Byte`-tagged key `"test"`. -/
def oneByteDB : testDB := [([14, 116, 101, 115, 116], [97])]

/-- The list `[Int64(-44), Int64(33), Int64(33)]` of `TestSlice`. -/
def testSlice : List Persistent := [.int64 (-44), .int64 33, .int64 33]

/-- A test store whose metadata for the list `"test"` records the length 1 and
the element tag `t`. -/
def oneElemDB (t : Nat) : testDB :=
  [([9, 108, 13, 116, 101, 115, 116], [1, 0, 0, 0, 0, 0, 0, 0]),
   ([14, 116, 13, 116, 101, 115, 116], [t])]

/-- The bytes that the `Persist` of a scalar passes to `Save`. -/
def Persistent.payload : Persistent → Bytes
  | .bool v => if v then [1] else [0]
  | .int8 v => putLE 1 (ofSigned 8 v)
  | .int16 v => putLE 2 (ofSigned 16 v)
  | .int32 v => putLE 4 (ofSigned 32 v)
  | .int64 v => putLE 8 (ofSigned 64 v)
  | .uint8 v => putLE 1 (v % 2 ^ 8)
  | .uint16 v => putLE 2 (v % 2 ^ 16)
  | .uint32 v => putLE 4 (v % 2 ^ 32)
  | .uint64 v => putLE 8 (v % 2 ^ 64)
  | .float32 v => putLE 4 (v % 2 ^ 32)
  | .float64 v => putLE 8 (v % 2 ^ 64)
  | .string v => v
  | .slice _ => []
  | .byte v => [v % 256]

/-- The `Storager` `S` with a record of the `Save` calls made, oldest first. -/
def recording (S : Storager σ) : Storager (σ × List (Bytes × Bytes)) where
  Save := fun st k v => (((S.Save st.1 k v).1, st.2 ++ [(k, v)]), (S.Save st.1 k v).2)
  Load := fun st k => S.Load st.1 k

/-- The store after the `Save` calls `calls` made in order from `s`, whatever
each call returned. -/
def replay (S : Storager σ) (s : σ) (calls : List (Bytes × Bytes)) : σ :=
  calls.foldl (fun st kv => (S.Save st kv.1 kv.2).1) s

/-- A test store whose `Save` fails, storing nothing, under the key `bad`. -/
def failingStorager (bad : Bytes) : Storager testDB where
  Save := fun db k v => if k = bad then (db, some (.storager "save failed"))
    else testStorager.Save db k v
  Load := testStorager.Load

/-- A test store holding the empty byte string under the `Bool`-tagged key
`"test"`. -/
def emptyBoolDB : testDB := [([1, 116, 101, 115, 116], [])]

/-- A test store whose metadata for the list `"test"` records the length 2 and
the element tag of `Int64`, and which holds element 0 but not element 1. -/
def missingElemDB : testDB :=
  [([9, 108, 13, 116, 101, 115, 116], [2, 0, 0, 0, 0, 0, 0, 0]),
   ([14, 116, 13, 116, 101, 115, 116], [5]),
   ([5, 13, 116, 101, 115, 116, 58, 5, 48], [7, 0, 0, 0, 0, 0, 0, 0])]

/-- The results of the element tasks of one part of a schedule, in index order:
what each element's `Persist` returned. -/
def Scheduled.taskErrs (S : Storager σ) :
    List Scheduled → σ → Bytes → Nat → Nat → List (Option Error)
  | [], _, _, _, _ => []
  | p :: rest, s, key, iPrefix, index =>
    (p.Persist S s (elemKey key iPrefix index)).2
      :: Scheduled.taskErrs S rest (p.Persist S s (elemKey key iPrefix index)).1 key iPrefix
          (index + 1)

/-- The element tag that `PersistentSlice.PersistSched` records. -/
def PersistentSlice.PersistSched.iPrefix (ps1 ps2 ps3 : List Scheduled) : Nat :=
  elemPrefix (Scheduled.toList ps1 ++ Scheduled.toList ps2 ++ Scheduled.toList ps3)

/-- The length write of `PersistentSlice.PersistSched`, made after the tasks of
`ps1`: its store and result. -/
def PersistentSlice.PersistSched.lenWrite (S : Storager σ) (ps1 ps2 ps3 : List Scheduled)
    (s : σ) (k : Bytes) : σ × Option Error :=
  PersistentUint64.Persist S
    (Scheduled.toList ps1 ++ Scheduled.toList ps2 ++ Scheduled.toList ps3).length
    (Scheduled.tasks S ps1 s (13 :: k) (PersistentSlice.PersistSched.iPrefix ps1 ps2 ps3) 0).1
    (108 :: 13 :: k)

/-- The element-tag write of `PersistentSlice.PersistSched`, made after the
tasks of `ps2`: its store and result. -/
def PersistentSlice.PersistSched.tagWrite (S : Storager σ) (ps1 ps2 ps3 : List Scheduled)
    (s : σ) (k : Bytes) : σ × Option Error :=
  PersistentByte.Persist S (PersistentSlice.PersistSched.iPrefix ps1 ps2 ps3)
    (Scheduled.tasks S ps2
      (PersistentSlice.PersistSched.lenWrite S ps1 ps2 ps3 s k).1 (13 :: k)
      (PersistentSlice.PersistSched.iPrefix ps1 ps2 ps3) ps1.length).1
    (116 :: 13 :: k)

/-- The results of the element tasks under the schedule, in index order: what
each element's `Persist` returns in the store it runs in. -/
def PersistentSlice.PersistSched.elemErrs (S : Storager σ) (ps1 ps2 ps3 : List Scheduled)
    (s : σ) (k : Bytes) : List (Option Error) :=
  Scheduled.taskErrs S ps1 s (13 :: k) (PersistentSlice.PersistSched.iPrefix ps1 ps2 ps3) 0
    ++ Scheduled.taskErrs S ps2 (PersistentSlice.PersistSched.lenWrite S ps1 ps2 ps3 s k).1
        (13 :: k) (PersistentSlice.PersistSched.iPrefix ps1 ps2 ps3) ps1.length
    ++ Scheduled.taskErrs S ps3 (PersistentSlice.PersistSched.tagWrite S ps1 ps2 ps3 s k).1
        (13 :: k) (PersistentSlice.PersistSched.iPrefix ps1 ps2 ps3) (ps1.length + ps2.length)

/-- The `Save` calls made by the time `PersistentSlice.PersistSched` returns,
oldest first, as the recording store lists them. -/
def PersistentSlice.PersistSched.saves (S : Storager σ) (ps1 ps2 ps3 : List Scheduled)
    (s : σ) (k : Bytes) : List (Bytes × Bytes) :=
  (PersistentSlice.PersistSched (recording S) ps1 ps2 ps3 (s, []) k).1.2

/-- The contract of a store whose `Save` may fail: a `Save` that reports no
error has stored the value, and a `Save`, failed or not, changes nothing that
is loaded under another key. -/
def Storager.SaveKeeps {σ : Type} (S : Storager σ) : Prop :=
  ∀ (s : σ) (k v : Bytes),
    ((S.Save s k v).2 = none → S.Load (S.Save s k v).1 k = .ok v) ∧
    ∀ k2 : Bytes, k2 ≠ k → S.Load (S.Save s k v).1 k2 = S.Load s k2

/-- What a `Persist` puts ahead of the list tags and the raw key in a store
key: nothing (`Int8`), the tag of a scalar, or the tag and letter of a metadata
entry. -/
def isKeyHead (hd : Bytes) : Prop :=
  hd = [] ∨ (∃ c, hd = [c] ∧ c ≠ 13) ∨ hd = [9, 108] ∨ hd = [14, 116]

/-- The store key `K` has the shape of a key saved by a `Persist` under the raw
key `r`: a head, list tags, `r`, and a path of element suffixes, which is empty
or starts with `':'`. -/
def KeyShape (r K : Bytes) : Prop :=
  ∃ hd a Q, K = hd ++ (List.replicate a 13 ++ (r ++ Q)) ∧ isKeyHead hd ∧
    (Q = [] ∨ Q.head? = some 58)

/-! ## Arithmetic of the encodings -/

theorem putLE_length (w u : Nat) : (putLE w u).length = w := by
  induction w generalizing u with
  | zero => rfl
  | succ w ih => simp [putLE, ih]

theorem getLE_putLE (w u : Nat) : getLE (putLE w u) = u % 256 ^ w := by
  induction w generalizing u with
  | zero => simp [putLE, getLE, Nat.mod_one]
  | succ w ih =>
    simp only [putLE, getLE, ih]
    rw [pow_succ', Nat.mod_mul]

theorem binaryRead_putLE (w u : Nat) (hw : 0 < w) :
    binaryRead w (putLE w u) = .ok (u % 256 ^ w) := by
  have hl := putLE_length w u
  unfold binaryRead
  rw [if_neg (by omega), if_neg (by omega), List.take_of_length_le (by omega), getLE_putLE]

theorem toSigned_ofSigned8 (v : Int) (h : -2 ^ 7 ≤ v ∧ v < 2 ^ 7) :
    toSigned 8 (ofSigned 8 v % 256 ^ 1) = v := by
  simp only [toSigned, ofSigned]
  norm_num at h ⊢
  split <;> omega

theorem toSigned_ofSigned16 (v : Int) (h : -2 ^ 15 ≤ v ∧ v < 2 ^ 15) :
    toSigned 16 (ofSigned 16 v % 256 ^ 2) = v := by
  simp only [toSigned, ofSigned]
  norm_num at h ⊢
  split <;> omega

theorem toSigned_ofSigned32 (v : Int) (h : -2 ^ 31 ≤ v ∧ v < 2 ^ 31) :
    toSigned 32 (ofSigned 32 v % 256 ^ 4) = v := by
  simp only [toSigned, ofSigned]
  norm_num at h ⊢
  split <;> omega

theorem toSigned_ofSigned64 (v : Int) (h : -2 ^ 63 ≤ v ∧ v < 2 ^ 63) :
    toSigned 64 (ofSigned 64 v % 256 ^ 8) = v := by
  simp only [toSigned, ofSigned]
  norm_num at h ⊢
  split <;> omega

/-! ## Round trips of the scalar kinds over a read-after-write store -/

theorem PersistentBool_round_trip (S : Storager σ) (hS : S.ReadAfterWrite) (v q : Bool)
    (s : σ) (k : Bytes) :
    (PersistentBool.Persist S v s k).2 = none ∧
      PersistentBool.Restore S q (PersistentBool.Persist S v s k).1 k = .done v none := by
  cases v
  · obtain ⟨h1, h2⟩ := hS s (PersistentBoolPrefix :: k) [0]
    refine ⟨by simpa [PersistentBool.Persist] using h1, ?_⟩
    simp [PersistentBool.Restore, PersistentBool.Persist, h2]
  · obtain ⟨h1, h2⟩ := hS s (PersistentBoolPrefix :: k) [1]
    refine ⟨by simpa [PersistentBool.Persist] using h1, ?_⟩
    simp [PersistentBool.Restore, PersistentBool.Persist, h2]

theorem PersistentByte_round_trip (S : Storager σ) (hS : S.ReadAfterWrite) (v q : Nat)
    (hv : v < 2 ^ 8) (s : σ) (k : Bytes) :
    (PersistentByte.Persist S v s k).2 = none ∧
      PersistentByte.Restore S q (PersistentByte.Persist S v s k).1 k = .done v none := by
  obtain ⟨h1, h2⟩ := hS s (PersistentBytePrefix :: k) [v % 256]
  refine ⟨h1, ?_⟩
  have e : v % 256 = v := by norm_num at hv; omega
  rw [e] at h2
  simp [PersistentByte.Restore, PersistentByte.Persist, h2, e]

theorem PersistentString_round_trip (S : Storager σ) (hS : S.ReadAfterWrite) (v q : Bytes)
    (s : σ) (k : Bytes) :
    (PersistentString.Persist S v s k).2 = none ∧
      PersistentString.Restore S q (PersistentString.Persist S v s k).1 k = .done v none := by
  obtain ⟨h1, h2⟩ := hS s (PersistentStringPrefix :: k) v
  refine ⟨h1, ?_⟩
  simp [PersistentString.Restore, PersistentString.Persist, h2]

theorem PersistentInt16_round_trip (S : Storager σ) (hS : S.ReadAfterWrite) (v q : Int)
    (hv : -2 ^ 15 ≤ v ∧ v < 2 ^ 15) (s : σ) (k : Bytes) :
    (PersistentInt16.Persist S v s k).2 = none ∧
      PersistentInt16.Restore S q (PersistentInt16.Persist S v s k).1 k = .done v none := by
  obtain ⟨h1, h2⟩ := hS s (PersistentInt16Prefix :: k) (putLE 2 (ofSigned 16 v))
  refine ⟨h1, ?_⟩
  simp only [PersistentInt16.Restore, PersistentInt16.Persist, h2, if_true,
    binaryRead_putLE 2 _ (by decide), toSigned_ofSigned16 v hv]

theorem PersistentInt32_round_trip (S : Storager σ) (hS : S.ReadAfterWrite) (v q : Int)
    (hv : -2 ^ 31 ≤ v ∧ v < 2 ^ 31) (s : σ) (k : Bytes) :
    (PersistentInt32.Persist S v s k).2 = none ∧
      PersistentInt32.Restore S q (PersistentInt32.Persist S v s k).1 k = .done v none := by
  obtain ⟨h1, h2⟩ := hS s (PersistentInt32Prefix :: k) (putLE 4 (ofSigned 32 v))
  refine ⟨h1, ?_⟩
  simp only [PersistentInt32.Restore, PersistentInt32.Persist, h2, if_true,
    binaryRead_putLE 4 _ (by decide), toSigned_ofSigned32 v hv]

theorem PersistentInt64_round_trip (S : Storager σ) (hS : S.ReadAfterWrite) (v q : Int)
    (hv : -2 ^ 63 ≤ v ∧ v < 2 ^ 63) (s : σ) (k : Bytes) :
    (PersistentInt64.Persist S v s k).2 = none ∧
      PersistentInt64.Restore S q (PersistentInt64.Persist S v s k).1 k = .done v none := by
  obtain ⟨h1, h2⟩ := hS s (PersistentInt64Prefix :: k) (putLE 8 (ofSigned 64 v))
  refine ⟨h1, ?_⟩
  simp only [PersistentInt64.Restore, PersistentInt64.Persist, h2, if_true,
    binaryRead_putLE 8 _ (by decide), toSigned_ofSigned64 v hv]

theorem PersistentUint8_round_trip (S : Storager σ) (hS : S.ReadAfterWrite) (v q : Nat)
    (hv : v < 2 ^ 8) (s : σ) (k : Bytes) :
    (PersistentUint8.Persist S v s k).2 = none ∧
      PersistentUint8.Restore S q (PersistentUint8.Persist S v s k).1 k = .done v none := by
  obtain ⟨h1, h2⟩ := hS s (PersistentUint8Prefix :: k) (putLE 1 (v % 2 ^ 8))
  refine ⟨h1, ?_⟩
  have e : v % 2 ^ 8 % 256 ^ 1 = v := by norm_num at hv ⊢; omega
  simp only [PersistentUint8.Restore, PersistentUint8.Persist, h2, if_true,
    binaryRead_putLE 1 _ (by decide), e]

theorem PersistentUint16_round_trip (S : Storager σ) (hS : S.ReadAfterWrite) (v q : Nat)
    (hv : v < 2 ^ 16) (s : σ) (k : Bytes) :
    (PersistentUint16.Persist S v s k).2 = none ∧
      PersistentUint16.Restore S q (PersistentUint16.Persist S v s k).1 k = .done v none := by
  obtain ⟨h1, h2⟩ := hS s (PersistentUint16Prefix :: k) (putLE 2 (v % 2 ^ 16))
  refine ⟨h1, ?_⟩
  have e : v % 2 ^ 16 % 256 ^ 2 = v := by norm_num at hv ⊢; omega
  simp only [PersistentUint16.Restore, PersistentUint16.Persist, h2, if_true,
    binaryRead_putLE 2 _ (by decide), e]

theorem PersistentUint32_round_trip (S : Storager σ) (hS : S.ReadAfterWrite) (v q : Nat)
    (hv : v < 2 ^ 32) (s : σ) (k : Bytes) :
    (PersistentUint32.Persist S v s k).2 = none ∧
      PersistentUint32.Restore S q (PersistentUint32.Persist S v s k).1 k = .done v none := by
  obtain ⟨h1, h2⟩ := hS s (PersistentUint32Prefix :: k) (putLE 4 (v % 2 ^ 32))
  refine ⟨h1, ?_⟩
  have e : v % 2 ^ 32 % 256 ^ 4 = v := by norm_num at hv ⊢; omega
  simp only [PersistentUint32.Restore, PersistentUint32.Persist, h2, if_true,
    binaryRead_putLE 4 _ (by decide), e]

theorem PersistentUint64_round_trip (S : Storager σ) (hS : S.ReadAfterWrite) (v q : Nat)
    (hv : v < 2 ^ 64) (s : σ) (k : Bytes) :
    (PersistentUint64.Persist S v s k).2 = none ∧
      PersistentUint64.Restore S q (PersistentUint64.Persist S v s k).1 k = .done v none := by
  obtain ⟨h1, h2⟩ := hS s (PersistentUint64Prefix :: k) (putLE 8 (v % 2 ^ 64))
  refine ⟨h1, ?_⟩
  have e : v % 2 ^ 64 % 256 ^ 8 = v := by norm_num at hv ⊢; omega
  simp only [PersistentUint64.Restore, PersistentUint64.Persist, h2, if_true,
    binaryRead_putLE 8 _ (by decide), e]

theorem PersistentFloat32_round_trip (S : Storager σ) (hS : S.ReadAfterWrite) (v q : Nat)
    (hv : v < 2 ^ 32) (s : σ) (k : Bytes) :
    (PersistentFloat32.Persist S v s k).2 = none ∧
      PersistentFloat32.Restore S q (PersistentFloat32.Persist S v s k).1 k
        = .done (quietNaN32 v) none := by
  obtain ⟨h1, h2⟩ := hS s (PersistentFloat32Prefix :: k) (putLE 4 (v % 2 ^ 32))
  refine ⟨h1, ?_⟩
  have e : v % 2 ^ 32 % 256 ^ 4 = v := by norm_num at hv ⊢; omega
  simp only [PersistentFloat32.Restore, PersistentFloat32.Persist, h2, if_true,
    binaryRead_putLE 4 _ (by decide), e]

theorem PersistentFloat64_round_trip (S : Storager σ) (hS : S.ReadAfterWrite) (v q : Nat)
    (hv : v < 2 ^ 64) (s : σ) (k : Bytes) :
    (PersistentFloat64.Persist S v s k).2 = none ∧
      PersistentFloat64.Restore S q (PersistentFloat64.Persist S v s k).1 k = .done v none := by
  obtain ⟨h1, h2⟩ := hS s (PersistentFloat64Prefix :: k) (putLE 8 (v % 2 ^ 64))
  refine ⟨h1, ?_⟩
  have e : v % 2 ^ 64 % 256 ^ 8 = v := by norm_num at hv ⊢; omega
  simp only [PersistentFloat64.Restore, PersistentFloat64.Persist, h2, if_true,
    binaryRead_putLE 8 _ (by decide), e]

/-- The map-backed test store satisfies the store contract. -/
theorem testStorager_readAfterWrite : testStorager.ReadAfterWrite := by
  intro s k v
  refine ⟨rfl, fun k2 => ?_⟩
  by_cases h : k2 = k
  · subst h
    simp [testStorager, testStorager.Save, testStorager.Load, List.lookup]
  · have hb : (k2 == k) = false := by simpa using h
    simp [testStorager, testStorager.Save, testStorager.Load, List.lookup, hb, h]

/-- C1 as stated fails at a `Float32` signalling NaN: the bit pattern
`0x7FA00000` persisted under `"test"` into the empty test store is restored,
with no error, as the quiet NaN `0x7FE00000`. -/
theorem float32_signalling_nan_quieted :
    (Persistent.float32 0x7FA00000).inRange ∧
    ((Persistent.float32 0x7FA00000).Persist testStorager [] testKey).2 = none ∧
    (Persistent.float32 0).Restore testStorager 0
        ((Persistent.float32 0x7FA00000).Persist testStorager [] testKey).1 testKey
      = .done (.float32 0x7FE00000) none :=
  ⟨by simp [Persistent.inRange], rfl, rfl⟩

/-- C1, amended. Round trip of the scalar kinds Bool, Byte, String, Int16,
Int32, Int64, Uint8, Uint16, Uint32, Uint64, Float32 and Float64 (floats as bit
patterns): over a store with read-after-write semantics, for every value `v` of
such a kind that fits its Go type, every raw key and every initial store state,
`Persist` returns no error and a following `Restore` under the same key into
any receiver of the same kind returns no error; it leaves exactly `v`, unless
`v` is a `Float32` signalling NaN, which it leaves as the quiet NaN of the same
sign and payload (the bit pattern of `v` with bit 22 set). -/
theorem scalar_round_trip (S : Storager σ) (hS : S.ReadAfterWrite) (v fresh : Persistent)
    (hkind : v.kind.isPlainScalar = true) (hfresh : fresh.kind = v.kind) (hv : v.inRange)
    (s : σ) (k : Bytes) (fuel : Nat) :
    (v.Persist S s k).2 = none ∧
    (v.isSignallingNaN = false →
      fresh.Restore S fuel (v.Persist S s k).1 k = .done v none) ∧
    (∀ b, v = .float32 b → isSignallingNaN32 b = true →
      fresh.Restore S fuel (v.Persist S s k).1 k = .done (.float32 (b + 2 ^ 22)) none) := by
  cases v <;> cases fresh <;>
    simp only [Persistent.kind, Kind.isPlainScalar, reduceCtorEq] at hkind hfresh <;>
    simp only [Persistent.inRange] at hv <;>
    simp only [Persistent.Persist, Persistent.Restore]
  case bool.bool v q =>
    obtain ⟨h1, h2⟩ := PersistentBool_round_trip S hS v q s k
    exact ⟨h1, fun _ => by rw [h2]; rfl, fun b hb => by simp at hb⟩
  case int16.int16 v q =>
    obtain ⟨h1, h2⟩ := PersistentInt16_round_trip S hS v q hv s k
    exact ⟨h1, fun _ => by rw [h2]; rfl, fun b hb => by simp at hb⟩
  case int32.int32 v q =>
    obtain ⟨h1, h2⟩ := PersistentInt32_round_trip S hS v q hv s k
    exact ⟨h1, fun _ => by rw [h2]; rfl, fun b hb => by simp at hb⟩
  case int64.int64 v q =>
    obtain ⟨h1, h2⟩ := PersistentInt64_round_trip S hS v q hv s k
    exact ⟨h1, fun _ => by rw [h2]; rfl, fun b hb => by simp at hb⟩
  case uint8.uint8 v q =>
    obtain ⟨h1, h2⟩ := PersistentUint8_round_trip S hS v q hv s k
    exact ⟨h1, fun _ => by rw [h2]; rfl, fun b hb => by simp at hb⟩
  case uint16.uint16 v q =>
    obtain ⟨h1, h2⟩ := PersistentUint16_round_trip S hS v q hv s k
    exact ⟨h1, fun _ => by rw [h2]; rfl, fun b hb => by simp at hb⟩
  case uint32.uint32 v q =>
    obtain ⟨h1, h2⟩ := PersistentUint32_round_trip S hS v q hv s k
    exact ⟨h1, fun _ => by rw [h2]; rfl, fun b hb => by simp at hb⟩
  case uint64.uint64 v q =>
    obtain ⟨h1, h2⟩ := PersistentUint64_round_trip S hS v q hv s k
    exact ⟨h1, fun _ => by rw [h2]; rfl, fun b hb => by simp at hb⟩
  case float32.float32 v q =>
    obtain ⟨h1, h2⟩ := PersistentFloat32_round_trip S hS v q hv s k
    refine ⟨h1, fun hn => ?_, fun b hb hn => ?_⟩
    · simp only [Persistent.isSignallingNaN] at hn
      rw [h2]
      simp [Result.map, quietNaN32, hn]
    · simp only [Persistent.float32.injEq] at hb
      subst hb
      rw [h2]
      simp [Result.map, quietNaN32, hn]
  case float64.float64 v q =>
    obtain ⟨h1, h2⟩ := PersistentFloat64_round_trip S hS v q hv s k
    exact ⟨h1, fun _ => by rw [h2]; rfl, fun b hb => by simp at hb⟩
  case string.string v q =>
    obtain ⟨h1, h2⟩ := PersistentString_round_trip S hS v q s k
    exact ⟨h1, fun _ => by rw [h2]; rfl, fun b hb => by simp at hb⟩
  case byte.byte v q =>
    obtain ⟨h1, h2⟩ := PersistentByte_round_trip S hS v q hv s k
    exact ⟨h1, fun _ => by rw [h2]; rfl, fun b hb => by simp at hb⟩

/-- Instance of C1: `TestInt32`, the value -388 persisted under `"test"` into
the empty test store and restored into a zero receiver. -/
theorem scalar_round_trip_witness :
    ((Persistent.int32 (-388)).Persist testStorager [] testKey).2 = none ∧
      (Persistent.int32 0).Restore testStorager 0
        ((Persistent.int32 (-388)).Persist testStorager [] testKey).1 testKey
        = .done (Persistent.int32 (-388)) none :=
  have h := scalar_round_trip testStorager testStorager_readAfterWrite (.int32 (-388)) (.int32 0)
    rfl rfl (by simp [Persistent.inRange]) [] testKey 0
  ⟨h.1, h.2.1 rfl⟩

/-! ## Keys -/

theorem parseD_fmtDFuel (fuel n : Nat) (h : n < fuel) : parseD (fmtDFuel fuel n) = n := by
  induction fuel generalizing n with
  | zero => omega
  | succ fuel ih =>
    unfold fmtDFuel
    split
    · simp [parseD]
    · have := ih (n / 10) (by omega)
      simp only [parseD, List.foldl_append, List.foldl_cons, List.foldl_nil] at this ⊢
      rw [this]; omega

theorem fmtD_injective (i j : Nat) (h : fmtD i = fmtD j) : i = j := by
  have hi := parseD_fmtDFuel (i + 1) i (by omega)
  have hj := parseD_fmtDFuel (j + 1) j (by omega)
  unfold fmtD at h
  rw [h] at hi
  omega

theorem fmtDFuel_digits (fuel n : Nat) : ∀ b ∈ fmtDFuel fuel n, 48 ≤ b ∧ b ≤ 57 := by
  induction fuel generalizing n with
  | zero => intro b hb; simp [fmtDFuel] at hb
  | succ fuel ih =>
    intro b hb
    unfold fmtDFuel at hb
    split at hb
    · simp at hb; omega
    · rcases List.mem_append.1 hb with h | h
      · exact ih _ b h
      · simp at h; omega

theorem takeWhile_append_stop (p : Nat → Bool) (d rest : Bytes) (t : Nat)
    (hd : ∀ x ∈ d, p x = true) (ht : p t = false) :
    (d ++ t :: rest).takeWhile p = d := by
  induction d with
  | nil => simp [List.takeWhile, ht]
  | cons x d ih =>
    have hx := hd x (by simp)
    simp only [List.cons_append, List.takeWhile_cons, hx, if_true]
    rw [ih (fun y hy => hd y (by simp [hy]))]

/-- An element key determines the list key and the index, when the tag is not
a decimal digit. -/
theorem elemKey_injective (k1 k2 : Bytes) (t i j : Nat) (ht : t < 48)
    (h : elemKey k1 t i = elemKey k2 t j) : k1 = k2 ∧ i = j := by
  have hc : fmtC t = [t] := by unfold fmtC; rw [if_pos (by omega)]
  unfold elemKey at h
  rw [hc] at h
  have hr := congrArg List.reverse h
  simp only [List.reverse_append, List.reverse_cons, List.reverse_nil, List.nil_append,
    List.append_assoc, List.singleton_append] at hr
  let p : Nat → Bool := fun b => decide (48 ≤ b ∧ b ≤ 57)
  have hpt : p t = false := by simp [p]; omega
  have hpd : ∀ n, ∀ x ∈ (fmtD n).reverse, p x = true := by
    intro n x hx
    have := fmtDFuel_digits (n + 1) n x (by simpa [fmtD] using hx)
    simp [p]; omega
  have h1 := takeWhile_append_stop p _ (58 :: k1.reverse) t (hpd i) hpt
  have h2 := takeWhile_append_stop p _ (58 :: k2.reverse) t (hpd j) hpt
  have hr2 : (fmtD i).reverse ++ t :: 58 :: k1.reverse = (fmtD j).reverse ++ t :: 58 :: k2.reverse := by
    simpa using hr
  rw [hr2, h2] at h1
  have hd : fmtD j = fmtD i := List.reverse_injective h1
  have hij := fmtD_injective j i hd
  subst hij
  have := List.append_cancel_right h
  have := List.append_cancel_right this
  exact ⟨List.append_cancel_right this, rfl⟩

/-! ## Stores with read-after-write semantics -/

theorem save_err (S : Storager σ) (hS : S.ReadAfterWrite) (s : σ) (k v : Bytes) :
    (S.Save s k v).2 = none := (hS s k v).1

theorem load_save_same (S : Storager σ) (hS : S.ReadAfterWrite) (s : σ) (k v : Bytes) :
    S.Load (S.Save s k v).1 k = .ok v := by
  have := (hS s k v).2 k
  simpa using this

theorem load_save_other (S : Storager σ) (hS : S.ReadAfterWrite) (s : σ) (k v k2 : Bytes)
    (h : k2 ≠ k) : S.Load (S.Save s k v).1 k2 = S.Load s k2 := by
  have := (hS s k v).2 k2
  simpa [h] using this

/-- What a successful `Persist` of a slice leaves: the element writes, then the
length under `"l"` and the tag under `"t"`. -/
theorem PersistentSlice_Persist_eq (S : Storager σ) (hS : S.ReadAfterWrite)
    (ps : List Persistent) (s : σ) (k : Bytes) :
    PersistentSlice.Persist S ps s k =
      ((S.Save (S.Save (PersistentSlice.Persist.tasks S ps s (13 :: k) (elemPrefix ps) 0).1
          (9 :: 108 :: 13 :: k) (putLE 8 (ps.length % 2 ^ 64))).1
          (14 :: 116 :: 13 :: k) [elemPrefix ps % 256]).1,
        (PersistentSlice.Persist.tasks S ps s (13 :: k) (elemPrefix ps) 0).2) := by
  simp only [PersistentSlice.Persist, PersistentSlice.Persist.finish, PersistentUint64.Persist,
    PersistentByte.Persist, save_err S hS, PersistentSlicePrefix, PersistentUint64Prefix,
    PersistentBytePrefix]

theorem PersistentUint64_Restore_of_load (S : Storager σ) (s : σ) (k : Bytes) (v q : Nat)
    (hv : v < 2 ^ 64) (h : S.Load s (9 :: k) = .ok (putLE 8 (v % 2 ^ 64))) :
    PersistentUint64.Restore S q s k = .done v none := by
  have e : v % 2 ^ 64 % 256 ^ 8 = v := by norm_num at hv ⊢; omega
  simp only [PersistentUint64.Restore, PersistentUint64Prefix, h,
    binaryRead_putLE 8 _ (by decide), e]

theorem PersistentInt64_Restore_of_load (S : Storager σ) (s : σ) (k : Bytes) (v q : Int)
    (hv : -2 ^ 63 ≤ v ∧ v < 2 ^ 63) (h : S.Load s (5 :: k) = .ok (putLE 8 (ofSigned 64 v))) :
    PersistentInt64.Restore S q s k = .done v none := by
  simp only [PersistentInt64.Restore, PersistentInt64Prefix, h,
    binaryRead_putLE 8 _ (by decide), toSigned_ofSigned64 v hv]

theorem PersistentByte_Restore_of_load (S : Storager σ) (s : σ) (k : Bytes) (v q : Nat)
    (h : S.Load s (14 :: k) = .ok [v]) :
    PersistentByte.Restore S q s k = .done v none := by
  simp [PersistentByte.Restore, PersistentBytePrefix, h]

theorem waitAll_done (l : List Persistent) :
    waitAll (l.map fun p => Result.done p none) = .done l none := by
  induction l with
  | nil => rfl
  | cons p l ih => simp only [List.map_cons, waitAll, ih, firstErr]

theorem map_range_eq {α β : Type} (l : List α) (F : Nat → β) (G : α → β)
    (h : ∀ i (hi : i < l.length), F i = G l[i]) :
    (List.range l.length).map F = l.map G := by
  apply List.ext_getElem
  · simp
  · intro n h1 h2
    simp only [List.getElem_map, List.getElem_range]
    exact h n (by simpa using h2)

/-- The element tasks of a `Persist` of `Int64` values, from index `idx` on:
no error, nothing else touched, and each element readable under its key. -/
theorem tasks_int64 (S : Storager σ) (hS : S.ReadAfterWrite) (vs : List Int) (s : σ)
    (key : Bytes) (t idx : Nat) (ht : t < 48) :
    (PersistentSlice.Persist.tasks S (vs.map .int64) s key t idx).2 = none ∧
    (∀ k2, (∀ j, j < vs.length → k2 ≠ 5 :: elemKey key t (idx + j)) →
      S.Load (PersistentSlice.Persist.tasks S (vs.map .int64) s key t idx).1 k2 = S.Load s k2) ∧
    (∀ j (h : j < vs.length),
      S.Load (PersistentSlice.Persist.tasks S (vs.map .int64) s key t idx).1
        (5 :: elemKey key t (idx + j)) = .ok (putLE 8 (ofSigned 64 vs[j]))) := by
  induction vs generalizing s idx with
  | nil =>
    refine ⟨rfl, fun _ _ => rfl, fun j h => ?_⟩
    simp at h
  | cons v vs ih =>
    obtain ⟨ih1, ih2, ih3⟩ := ih (S.Save s (5 :: elemKey key t idx) (putLE 8 (ofSigned 64 v))).1
      (idx + 1)
    simp only [List.map_cons, PersistentSlice.Persist.tasks, Persistent.Persist,
      PersistentInt64.Persist, PersistentInt64Prefix, save_err S hS, firstErr]
    refine ⟨ih1, fun k2 hk2 => ?_, fun j h => ?_⟩
    · rw [ih2 k2 (fun j hj => by
        have := hk2 (j + 1) (by simpa using hj)
        rwa [show idx + (j + 1) = idx + 1 + j by omega] at this)]
      exact load_save_other S hS _ _ _ _ (by simpa using hk2 0 (by simp))
    · cases j with
      | zero =>
        rw [ih2 _ (fun j _ hjk => by
          have := (elemKey_injective key key t _ _ ht (List.cons_injective hjk)).2
          omega)]
        simpa using load_save_same S hS _ _ _
      | succ j =>
        have := ih3 j (by simpa using h)
        rw [show idx + 1 + j = idx + (j + 1) by omega] at this
        simpa using this

theorem elemPrefix_int64 (vs : List Int) : elemPrefix (vs.map .int64) < 48 ∧
    (vs ≠ [] → elemPrefix (vs.map .int64) = 5) := by
  cases vs with
  | nil => exact ⟨by decide, fun h => absurd rfl h⟩
  | cons v vs => exact ⟨by simp [elemPrefix, PersistentInt64Prefix], fun _ => rfl⟩

/-- C3. Round trip of a list of `Int64` values: over a store with
read-after-write semantics, for every list of `Int64` values of any length
(the empty list included), every raw key and every initial store state (stale
entries of an earlier list included), with one element task per index,
`PersistentSlice.Persist` returns no error and a following
`PersistentSlice.Restore` under the same key, into any receiver, returns no
error and leaves a list of the same length whose elements are the original
`Int64` values in the original order. -/
theorem int64_slice_round_trip (S : Storager σ) (hS : S.ReadAfterWrite) (vs : List Int)
    (hlen : vs.length < 2 ^ 63) (hvs : ∀ v ∈ vs, -2 ^ 63 ≤ v ∧ v < (2 : Int) ^ 63)
    (recv : List Persistent) (s : σ) (k : Bytes) (fuel : Nat) :
    (PersistentSlice.Persist S (vs.map .int64) s k).2 = none ∧
      PersistentSlice.Restore S fuel recv (PersistentSlice.Persist S (vs.map .int64) s k).1 k
        = .done (vs.map .int64) none := by
  obtain ⟨ht, ht5⟩ := elemPrefix_int64 vs
  obtain ⟨h1, -, h3⟩ := tasks_int64 S hS vs s (13 :: k) (elemPrefix (vs.map .int64)) 0 ht
  rw [PersistentSlice_Persist_eq S hS]
  refine ⟨h1, ?_⟩
  generalize PersistentSlice.Persist.tasks S (vs.map .int64) s (13 :: k)
    (elemPrefix (vs.map .int64)) 0 = g at h1 h3
  generalize elemPrefix (vs.map .int64) = t at *
  have hmod : t % 256 = t := by omega
  rw [hmod]
  have hlen64 : vs.length < 2 ^ 64 := by norm_num at hlen ⊢; omega
  rw [List.length_map]
  have hLenLoad : S.Load (S.Save (S.Save g.1 (9 :: 108 :: 13 :: k)
      (putLE 8 (vs.length % 2 ^ 64))).1 (14 :: 116 :: 13 :: k) [t]).1 (9 :: 108 :: 13 :: k)
      = .ok (putLE 8 (vs.length % 2 ^ 64)) := by
    rw [load_save_other S hS _ _ _ _ (by simp), load_save_same S hS]
  have hTagLoad : S.Load (S.Save (S.Save g.1 (9 :: 108 :: 13 :: k)
      (putLE 8 (vs.length % 2 ^ 64))).1 (14 :: 116 :: 13 :: k) [t]).1 (14 :: 116 :: 13 :: k)
      = .ok [t] := load_save_same S hS _ _ _
  have hElLoad : ∀ i (hi : i < vs.length), S.Load (S.Save (S.Save g.1 (9 :: 108 :: 13 :: k)
      (putLE 8 (vs.length % 2 ^ 64))).1 (14 :: 116 :: 13 :: k) [t]).1
      (5 :: elemKey (13 :: k) t i) = .ok (putLE 8 (ofSigned 64 vs[i])) := by
    intro i hi
    have hload := h3 i hi
    simp only [Nat.zero_add] at hload
    rw [load_save_other S hS _ _ _ _ (by simp), load_save_other S hS _ _ _ _ (by simp), hload]
  generalize (S.Save (S.Save g.1 (9 :: 108 :: 13 :: k)
      (putLE 8 (vs.length % 2 ^ 64))).1 (14 :: 116 :: 13 :: k) [t]).1 = s3 at *
  have hL := PersistentUint64_Restore_of_load S s3 (108 :: 13 :: k) vs.length 0 hlen64 hLenLoad
  have hT := PersistentByte_Restore_of_load S s3 (116 :: 13 :: k) t 0 hTagLoad
  simp only [PersistentSlice.Restore, PersistentSlice.restoreBody, PersistentSlicePrefix, hL, hT]
  rw [map_range_eq vs _ (fun v => Result.done (Persistent.int64 v) none)]
  · have := waitAll_done (vs.map Persistent.int64)
    rw [List.map_map] at this
    simp only [Function.comp_def] at this
    rw [this]
  · intro i hi
    have hne : vs ≠ [] := by intro h; subst h; simp at hi
    have h5 := ht5 hne
    subst h5
    have hE := PersistentInt64_Restore_of_load S s3 (elemKey (13 :: k) 5 i) vs[i] 0
      (hvs _ (List.getElem_mem _)) (hElLoad i hi)
    have hn : newElem 5 = some (.int64 0) := rfl
    simp only [hn, Persistent.Restore, hE, Result.map]

/-- Instance of C3: `TestSlice`, the list `[-44, 33, 33]` under `"test"` in the
empty test store. -/
theorem int64_slice_round_trip_witness :
    (PersistentSlice.Persist testStorager ([-44, 33, 33].map .int64) [] testKey).2 = none ∧
      PersistentSlice.Restore testStorager 0 []
        (PersistentSlice.Persist testStorager ([-44, 33, 33].map .int64) [] testKey).1 testKey
        = .done ([-44, 33, 33].map .int64) none :=
  int64_slice_round_trip testStorager testStorager_readAfterWrite [-44, 33, 33]
    (by norm_num)
    (by intro v hv; simp at hv; rcases hv with rfl | rfl | rfl <;> norm_num)
    [] [] testKey 0

/-! ## The defect of `PersistentInt8.Persist` and of the element type switch -/

/-- C2 fails on `TestInt8`: `PersistentInt8.Persist` of -38 under `"test"`
saves the byte under the key `"test"` itself, without the `Int8` tag, so the
following `PersistentInt8.Restore`, which loads the tagged key, returns the
store's error and leaves the receiver at 0. -/
theorem int8_round_trip_fails :
    PersistentInt8.Persist logStorager (-38) [] testKey = ([(testKey, [218])], none) ∧
    PersistentInt8.Restore testStorager 0
      (PersistentInt8.Persist testStorager (-38) [] testKey).1 testKey
      = .done 0 (some (.storager "value is not stored")) := by
  decide

/-- C4 fails on the list `[[1]]` of lists of `Int64`: `Persist` under `"test"`
records the element tag 0 (Undefined), the type switch having no case for a
slice element, and the following `Restore` panics on the nil slot. -/
theorem nested_slice_restore_crashes :
    PersistentSlice.Persist logStorager [.slice [.int64 1]] [] testKey
      = ([([5, 13, 13, 116, 101, 115, 116, 58, 0, 48, 58, 5, 48], [1, 0, 0, 0, 0, 0, 0, 0]),
          ([9, 108, 13, 13, 116, 101, 115, 116, 58, 0, 48], [1, 0, 0, 0, 0, 0, 0, 0]),
          ([14, 116, 13, 13, 116, 101, 115, 116, 58, 0, 48], [5]),
          ([9, 108, 13, 116, 101, 115, 116], [1, 0, 0, 0, 0, 0, 0, 0]),
          ([14, 116, 13, 116, 101, 115, 116], [0])], none) ∧
    PersistentSlice.Restore testStorager 1 []
      (PersistentSlice.Persist testStorager [.slice [.int64 1]] [] testKey).1 testKey
      = .crash :=
  ⟨rfl, rfl⟩

/-! ## Records -/

theorem PersistentString_Restore_of_load (S : Storager σ) (s : σ) (k v q : Bytes)
    (h : S.Load s (12 :: k) = .ok v) :
    PersistentString.Restore S q s k = .done v none := by
  simp [PersistentString.Restore, PersistentStringPrefix, h]

theorem PersistentUint32_Restore_of_load (S : Storager σ) (s : σ) (k : Bytes) (v q : Nat)
    (hv : v < 2 ^ 32) (h : S.Load s (8 :: k) = .ok (putLE 4 (v % 2 ^ 32))) :
    PersistentUint32.Restore S q s k = .done v none := by
  have e : v % 2 ^ 32 % 256 ^ 4 = v := by norm_num at hv ⊢; omega
  simp only [PersistentUint32.Restore, PersistentUint32Prefix, h,
    binaryRead_putLE 4 _ (by decide), e]

theorem PersistentFloat32_Restore_of_load (S : Storager σ) (s : σ) (k : Bytes) (v q : Nat)
    (hv : v < 2 ^ 32) (h : S.Load s (10 :: k) = .ok (putLE 4 (v % 2 ^ 32))) :
    PersistentFloat32.Restore S q s k = .done (quietNaN32 v) none := by
  have e : v % 2 ^ 32 % 256 ^ 4 = v := by norm_num at hv ⊢; omega
  simp only [PersistentFloat32.Restore, PersistentFloat32Prefix, h,
    binaryRead_putLE 4 _ (by decide), e]

/-- C5 as stated fails when the `Float32` field holds a signalling NaN:
`pCarlos` with `Altura` of bit pattern `0x7FA00000`, persisted under the id
`"pcarlos"` into the empty test store, is restored with no error and with
`Altura` holding `0x7FE00000`. -/
theorem pessoa_signalling_nan_quieted :
    (PersistStruct testStorager [112, 99, 97, 114, 108, 111, 115]
      (pessoa (some (.string [67, 97, 114, 108, 111, 115])) (some (.uint32 21))
        (some (.float32 0x7FA00000)) 0) []).handled = [none, none, none] ∧
    RestoreStruct testStorager 0 [112, 99, 97, 114, 108, 111, 115] (pessoa none none none 0)
      (PersistStruct testStorager [112, 99, 97, 114, 108, 111, 115]
        (pessoa (some (.string [67, 97, 114, 108, 111, 115])) (some (.uint32 21))
          (some (.float32 0x7FA00000)) 0) []).store
      = .returned
          (pessoa (some (.string [67, 97, 114, 108, 111, 115])) (some (.uint32 21))
            (some (.float32 0x7FE00000)) 0)
          [none, none, none] :=
  ⟨rfl, rfl⟩

/-- C5, amended. Round trip of a record of the shape of `TestPersistStruct`:
over a store with read-after-write semantics, for every id, every field values
(`Nome` a string, `Idade` a `Uint32`, `Altura` a `Float32` bit pattern) and
every content of the plain field, `PersistStruct` returns having passed only
nil to the error handler, and `RestoreStruct` into a record whose persistable
fields are nil passes only nil to the error handler and returns the record
whose persistable fields are non-nil and hold the persisted values, with its
own plain field unchanged; only an `Altura` that is a signalling NaN comes back
as the quiet NaN of the same sign and payload (bit 22 set). The persisted
record is an argument that the walk only reads. -/
theorem pessoa_round_trip (S : Storager σ) (hS : S.ReadAfterWrite) (id nome : Bytes)
    (idade altura : Nat) (hidade : idade < 2 ^ 32) (haltura : altura < 2 ^ 32)
    (mentira mentira2 : Nat) (s : σ) (fuel : Nat) :
    (PersistStruct S id
      (pessoa (some (.string nome)) (some (.uint32 idade)) (some (.float32 altura)) mentira)
      s).handled = [none, none, none] ∧
    (PersistStruct S id
      (pessoa (some (.string nome)) (some (.uint32 idade)) (some (.float32 altura)) mentira)
      s).panicked = false ∧
    (isSignallingNaN32 altura = false →
      RestoreStruct S fuel id (pessoa none none none mentira2)
        (PersistStruct S id
          (pessoa (some (.string nome)) (some (.uint32 idade)) (some (.float32 altura)) mentira)
          s).store
        = .returned
            (pessoa (some (.string nome)) (some (.uint32 idade)) (some (.float32 altura))
              mentira2)
            [none, none, none]) ∧
    (isSignallingNaN32 altura = true →
      RestoreStruct S fuel id (pessoa none none none mentira2)
        (PersistStruct S id
          (pessoa (some (.string nome)) (some (.uint32 idade)) (some (.float32 altura)) mentira)
          s).store
        = .returned
            (pessoa (some (.string nome)) (some (.uint32 idade))
              (some (.float32 (altura + 2 ^ 22))) mentira2)
            [none, none, none]) := by
  have hN : isExported [78, 111, 109, 101] = true := rfl
  have hI : isExported [73, 100, 97, 100, 101] = true := rfl
  have hA : isExported [65, 108, 116, 117, 114, 97] = true := rfl
  simp only [pessoa, PersistStruct, hN, hI, hA, if_true, Persistent.Persist,
    PersistentString.Persist,
    PersistentUint32.Persist, PersistentFloat32.Persist, save_err S hS,
    PersistentStringPrefix, PersistentUint32Prefix, PersistentFloat32Prefix, true_and]
  have h1 := PersistentString_Restore_of_load S
    (S.Save (S.Save (S.Save s (12 :: fieldKey id [78, 111, 109, 101]) nome).1
      (8 :: fieldKey id [73, 100, 97, 100, 101]) (putLE 4 (idade % 2 ^ 32))).1
      (10 :: fieldKey id [65, 108, 116, 117, 114, 97]) (putLE 4 (altura % 2 ^ 32))).1
    (fieldKey id [78, 111, 109, 101]) nome []
    (by rw [load_save_other S hS _ _ _ _ (by simp), load_save_other S hS _ _ _ _ (by simp),
      load_save_same S hS])
  have h2 := PersistentUint32_Restore_of_load S
    (S.Save (S.Save (S.Save s (12 :: fieldKey id [78, 111, 109, 101]) nome).1
      (8 :: fieldKey id [73, 100, 97, 100, 101]) (putLE 4 (idade % 2 ^ 32))).1
      (10 :: fieldKey id [65, 108, 116, 117, 114, 97]) (putLE 4 (altura % 2 ^ 32))).1
    (fieldKey id [73, 100, 97, 100, 101]) idade 0 hidade
    (by rw [load_save_other S hS _ _ _ _ (by simp), load_save_same S hS])
  have h3 := PersistentFloat32_Restore_of_load S
    (S.Save (S.Save (S.Save s (12 :: fieldKey id [78, 111, 109, 101]) nome).1
      (8 :: fieldKey id [73, 100, 97, 100, 101]) (putLE 4 (idade % 2 ^ 32))).1
      (10 :: fieldKey id [65, 108, 116, 117, 114, 97]) (putLE 4 (altura % 2 ^ 32))).1
    (fieldKey id [65, 108, 116, 117, 114, 97]) altura 0 haltura (load_save_same S hS _ _ _)
  refine ⟨fun hn => ?_, fun hn => ?_⟩
  · simp only [RestoreStruct, hN, hI, hA, if_true, Kind.empty, Persistent.Restore, h1, h2, h3,
      Result.map, quietNaN32, hn]
    simp
  · simp only [RestoreStruct, hN, hI, hA, if_true, Kind.empty, Persistent.Restore, h1, h2, h3,
      Result.map, quietNaN32, hn]

/-- Instance of C5: `TestPersistStruct`, the record `pCarlos` (name `"Carlos"`,
age 21, height 1.79 as the `float32` bit pattern `0x3FE51EB8`) under the id
`"pcarlos"` in the empty test store. -/
theorem pessoa_round_trip_witness :
    (PersistStruct testStorager [112, 99, 97, 114, 108, 111, 115]
      (pessoa (some (.string [67, 97, 114, 108, 111, 115])) (some (.uint32 21))
        (some (.float32 1071980216)) 0) []).handled = [none, none, none] ∧
    RestoreStruct testStorager 0 [112, 99, 97, 114, 108, 111, 115] (pessoa none none none 0)
      (PersistStruct testStorager [112, 99, 97, 114, 108, 111, 115]
        (pessoa (some (.string [67, 97, 114, 108, 111, 115])) (some (.uint32 21))
          (some (.float32 1071980216)) 0) []).store
      = .returned
          (pessoa (some (.string [67, 97, 114, 108, 111, 115])) (some (.uint32 21))
            (some (.float32 1071980216)) 0)
          [none, none, none] :=
  have h := pessoa_round_trip testStorager testStorager_readAfterWrite
    [112, 99, 97, 114, 108, 111, 115] [67, 97, 114, 108, 111, 115] 21 1071980216
    (by norm_num) (by norm_num) 0 0 [] 0
  ⟨h.1, h.2.2.1 (by decide)⟩

/-! ## Missing keys -/

/-- C6 as stated fails for a list whose element-tag key is missing while its
length key holds a short value: `Load` reports the tag key of the list `"test"`
as not stored, yet `PersistentSlice.Restore` returns `io.ErrUnexpectedEOF` from
decoding the length, not the store's error. -/
theorem restore_missing_tag_key_short_length :
    testStorager.Load shortLengthDB (14 :: 116 :: 13 :: testKey)
      = .error (.storager "value is not stored") ∧
    PersistentSlice.Restore testStorager 0 [] shortLengthDB testKey
      = .done [] (some .ErrUnexpectedEOF) ∧
    PersistentSlice.Restore testStorager 0 [] shortLengthDB testKey
      ≠ .done [] (some (.storager "value is not stored")) := by
  refine ⟨rfl, rfl, ?_⟩
  rw [show PersistentSlice.Restore testStorager 0 [] shortLengthDB testKey
    = .done [] (some .ErrUnexpectedEOF) from rfl]
  simp

/-- C6, amended. For every persistable value `p` (a scalar of any kind, or a
list), every raw key and every store state in which `Load` reports as missing,
with an error `e`, the composed key of `p` - for a list its length key, or its
element-tag key while the length key holds at least 8 bytes - `Restore` returns
`e` without panicking and leaves the receiver as it was. A store in which
nothing was ever written is the case where every `Load` fails. -/
theorem restore_missing_key (S : Storager σ) (s : σ) (k : Bytes) (e : Error) (fuel : Nat)
    (p : Persistent) (h : keyMissing S s k e p) :
    p.Restore S (fuel + 1) s k = .done p (some e) := by
  cases p
  case slice ps =>
    simp only [keyMissing, PersistentUint64Prefix, PersistentSlicePrefix,
      PersistentBytePrefix] at h
    rcases h with h | ⟨dt, h1, h2, h3⟩
    · simp only [Persistent.Restore, PersistentSlice.restoreBody, PersistentUint64.Restore,
        PersistentUint64Prefix, PersistentSlicePrefix, h, Result.map]
    · have hb : binaryRead 8 dt = .ok (getLE (dt.take 8)) := by
        unfold binaryRead
        rw [if_neg (by omega), if_neg (by omega)]
      simp only [Persistent.Restore, PersistentSlice.restoreBody, PersistentUint64.Restore,
        PersistentByte.Restore, PersistentUint64Prefix, PersistentSlicePrefix,
        PersistentBytePrefix, h1, hb, h3, Result.map]
  all_goals
    simp only [keyMissing, Persistent.kind, Kind.tag] at h
    simp only [Persistent.Restore, PersistentBool.Restore, PersistentInt8.Restore,
      PersistentInt16.Restore, PersistentInt32.Restore, PersistentInt64.Restore,
      PersistentUint8.Restore, PersistentUint16.Restore, PersistentUint32.Restore,
      PersistentUint64.Restore, PersistentFloat32.Restore, PersistentFloat64.Restore,
      PersistentString.Restore, PersistentByte.Restore, h, Result.map]

/-- Instance of C6: restoring the list `"test"` from the empty test store into
a receiver holding one element. -/
theorem restore_missing_key_witness :
    (Persistent.slice [.int64 7]).Restore testStorager 1 [] testKey
      = .done (.slice [.int64 7]) (some (.storager "value is not stored")) :=
  restore_missing_key testStorager [] testKey (.storager "value is not stored") 0
    (.slice [.int64 7]) (Or.inl rfl)

/-! ## Store keys -/

/-- C7 fails on the pairs (`Int8`, raw key `"\x01x"`) and (`Bool`, raw key
`"x"`): both `Persist` calls save under the store key `"\x01x"`, and persisting
the `Int8` value 0 after the `Bool` value true makes `Restore` of the `Bool`
yield false. -/
theorem int8_store_key_collides :
    (PersistentInt8.Persist logStorager 0 [] [1, 120]).1.map Prod.fst = [[1, 120]] ∧
    (PersistentBool.Persist logStorager true [] [120]).1.map Prod.fst = [[1, 120]] ∧
    PersistentBool.Restore testStorager false
      (PersistentInt8.Persist testStorager 0
        (PersistentBool.Persist testStorager true [] [120]).1 [1, 120]).1 [120]
      = .done false none := by
  decide

/-- A scalar `Persist` makes exactly one `Save`, under `storeKey`. -/
theorem scalar_persist_log (p : Persistent) (hp : p.kind ≠ .slice) (log : List (Bytes × Bytes))
    (r : Bytes) :
    ((p.Persist logStorager log r).1.map Prod.fst) = log.map Prod.fst ++ [storeKey p.kind r] := by
  cases p
  case slice ps => exact absurd rfl hp
  case bool v =>
    cases v <;>
      simp [Persistent.Persist, PersistentBool.Persist, logStorager, storeKey,
        Persistent.kind, Kind.tag]
  all_goals
    simp [Persistent.Persist, PersistentInt8.Persist, PersistentInt16.Persist,
      PersistentInt32.Persist, PersistentInt64.Persist, PersistentUint8.Persist,
      PersistentUint16.Persist, PersistentUint32.Persist, PersistentUint64.Persist,
      PersistentFloat32.Persist, PersistentFloat64.Persist, PersistentString.Persist,
      PersistentByte.Persist, logStorager, storeKey, Persistent.kind, Kind.tag]

theorem tasks_keys_scalar (c : Kind) (hc : c ≠ .slice) (ps : List Persistent)
    (h : ∀ p ∈ ps, p.kind = c) (log : List (Bytes × Bytes)) (key : Bytes) (t idx : Nat) :
    (PersistentSlice.Persist.tasks logStorager ps log key t idx).1.map Prod.fst
      = log.map Prod.fst ++ (List.range' idx ps.length).map fun i => storeKey c (elemKey key t i) := by
  induction ps generalizing log idx with
  | nil => simp [PersistentSlice.Persist.tasks]
  | cons p ps ih =>
    have hp : p.kind = c := h p (by simp)
    simp only [PersistentSlice.Persist.tasks, List.length_cons, List.range'_succ, List.map_cons]
    rw [ih (fun q hq => h q (by simp [hq])), scalar_persist_log p (by rw [hp]; exact hc), hp]
    simp

theorem savedKeys_scalar (c : Kind) (hc : c ≠ .slice) (ps : List Persistent)
    (h : ∀ p ∈ ps, p.kind = c) (k : Bytes) :
    savedKeys ps k
      = ((List.range ps.length).map fun i => storeKey c (elemKey (13 :: k) (elemPrefix ps) i))
        ++ [9 :: 108 :: 13 :: k, 14 :: 116 :: 13 :: k] := by
  have := tasks_keys_scalar c hc ps h [] (13 :: k) (elemPrefix ps) 0
  simp only [savedKeys, PersistentSlice.Persist, PersistentSlice.Persist.finish,
    PersistentUint64.Persist, PersistentByte.Persist, PersistentSlicePrefix,
    PersistentUint64Prefix, PersistentBytePrefix]
  simp only [logStorager, List.map_append, List.map_cons, List.map_nil] at this ⊢
  rw [this, List.range_eq_range']
  simp

theorem elemPrefix_scalar (c : Kind) (hc : c ≠ .slice) (ps : List Persistent)
    (h : ∀ p ∈ ps, p.kind = c) (hne : ps ≠ []) : elemPrefix ps = c.tag := by
  cases ps with
  | nil => exact absurd rfl hne
  | cons p ps =>
    have hp : p.kind = c := h p (by simp)
    subst hp
    cases p <;> first | rfl | exact absurd rfl hc

theorem Kind.tag_lt (c : Kind) : c.tag < 15 := by
  cases c <;> decide

theorem storeKey_elemKey_injective (c : Kind) (hc : c ≠ .slice) (k1 k2 : Bytes) (t i j : Nat)
    (ht : t < 48) (h : storeKey c (elemKey (13 :: k1) t i) = storeKey c (elemKey (13 :: k2) t j)) :
    k1 = k2 ∧ i = j := by
  have hk : elemKey (13 :: k1) t i = elemKey (13 :: k2) t j := by
    cases c <;> first | exact h | exact List.tail_eq_of_cons_eq h
  obtain ⟨h1, h2⟩ := elemKey_injective _ _ t i j ht hk
  exact ⟨List.tail_eq_of_cons_eq h1, h2⟩

theorem storeKey_elemKey_ne_meta (c : Kind) (hc : c ≠ .slice) (k1 k2 : Bytes) (t i : Nat) :
    storeKey c (elemKey (13 :: k1) t i) ≠ 9 :: 108 :: 13 :: k2 ∧
    storeKey c (elemKey (13 :: k1) t i) ≠ 14 :: 116 :: 13 :: k2 := by
  cases c <;> first | exact absurd rfl hc | simp [storeKey, elemKey, Kind.tag]

theorem keys_getElem?_elem (f : Nat → Bytes) (n i : Nat) (hi : i < n) (M : List Bytes) :
    (((List.range n).map f) ++ M)[i]? = some (f i) := by
  rw [List.getElem?_append_left (by simpa using hi)]
  simp [List.getElem?_range hi]

theorem keys_getElem?_meta (f : Nat → Bytes) (n : Nat) (a b : Bytes) :
    (((List.range n).map f) ++ [a, b])[n]? = some a ∧
    (((List.range n).map f) ++ [a, b])[n + 1]? = some b := by
  constructor
  · rw [List.getElem?_append_right (by simp)]; simp
  · rw [List.getElem?_append_right (by simp)]; simp

/-- C8. Keys of a list of one scalar element kind: `PersistentSlice.Persist`
of an `n`-element list makes `n + 2` saves, the element tasks (one per index)
and then the length (`"l"`) and element-tag (`"t"`) writes, under pairwise
distinct store keys; the store key of element `i` of a list under the raw key
`k1` differs from the length key and from the element-tag key of every list
(raw key `k2` arbitrary), and from the store key of element `j` of a list of
the same kind under `k2` whenever `k1 ≠ k2` or `i ≠ j`. -/
theorem slice_keys_distinct (c : Kind) (hc : c ≠ .slice) (ps1 ps2 : List Persistent)
    (h1 : ∀ p ∈ ps1, p.kind = c) (h2 : ∀ p ∈ ps2, p.kind = c) (k1 k2 : Bytes) :
    (savedKeys ps1 k1).length = ps1.length + 2 ∧
    (savedKeys ps1 k1)[ps1.length]? = some (9 :: 108 :: 13 :: k1) ∧
    (savedKeys ps1 k1)[ps1.length + 1]? = some (14 :: 116 :: 13 :: k1) ∧
    (savedKeys ps1 k1).Nodup ∧
    ∀ i, i < ps1.length →
      (savedKeys ps1 k1)[i]? ≠ some (9 :: 108 :: 13 :: k2) ∧
      (savedKeys ps1 k1)[i]? ≠ some (14 :: 116 :: 13 :: k2) ∧
      ∀ j, j < ps2.length → (k1 ≠ k2 ∨ i ≠ j) →
        (savedKeys ps1 k1)[i]? ≠ (savedKeys ps2 k2)[j]? := by
  rw [savedKeys_scalar c hc ps1 h1 k1, savedKeys_scalar c hc ps2 h2 k2]
  have ht1 : elemPrefix ps1 < 48 := by
    cases ps1 with
    | nil => decide
    | cons p ps =>
      rw [elemPrefix_scalar c hc _ h1 (by simp)]
      have := Kind.tag_lt c
      omega
  obtain ⟨hm0, hm1⟩ := keys_getElem?_meta
    (fun i => storeKey c (elemKey (13 :: k1) (elemPrefix ps1) i)) ps1.length
    (9 :: 108 :: 13 :: k1) (14 :: 116 :: 13 :: k1)
  refine ⟨by simp, hm0, hm1, ?_, ?_⟩
  · rw [List.nodup_append]
    refine ⟨?_, by simp, ?_⟩
    · refine (List.nodup_range _).map ?_
      intro i j hij
      exact (storeKey_elemKey_injective c hc k1 k1 _ i j ht1 hij).2
    · intro x hx hy
      obtain ⟨i, -, rfl⟩ := List.mem_map.1 hx
      have := storeKey_elemKey_ne_meta c hc k1 k1 (elemPrefix ps1) i
      simp only [List.mem_cons, List.mem_singleton, List.not_mem_nil, or_false] at hy
      rcases hy with hy | hy
      · exact this.1 hy
      · exact this.2 hy
  · intro i hi
    rw [keys_getElem?_elem _ _ _ hi]
    have hne := storeKey_elemKey_ne_meta c hc k1 k2 (elemPrefix ps1) i
    refine ⟨fun h => hne.1 (Option.some.inj h), fun h => hne.2 (Option.some.inj h), ?_⟩
    intro j hj hij
    rw [keys_getElem?_elem _ _ _ hj]
    intro h
    have hp1 : elemPrefix ps1 = c.tag :=
      elemPrefix_scalar c hc ps1 h1 (by intro h0; subst h0; simp at hi)
    have hp2 : elemPrefix ps2 = c.tag :=
      elemPrefix_scalar c hc ps2 h2 (by intro h0; subst h0; simp at hj)
    rw [hp1, hp2] at h
    have ht : c.tag < 48 := by have := Kind.tag_lt c; omega
    obtain ⟨e1, e2⟩ := storeKey_elemKey_injective c hc k1 k2 _ i j ht (Option.some.inj h)
    rcases hij with hij | hij
    · exact hij e1
    · exact hij e2

/-- Instance of C8: the list `[-44, 33, 33]` of `TestSlice` under `"test"`,
against a second `Int64` list under the same key. -/
theorem slice_keys_distinct_witness :
    (savedKeys [.int64 (-44), .int64 33, .int64 33] testKey).Nodup ∧
    (savedKeys [.int64 (-44), .int64 33, .int64 33] testKey)[1]?
      ≠ (savedKeys [.int64 5, .int64 6, .int64 7] testKey)[2]? :=
  have h := slice_keys_distinct .int64 (by decide)
    [.int64 (-44), .int64 33, .int64 33] [.int64 5, .int64 6, .int64 7]
    (by intro p hp; simp at hp; rcases hp with rfl | rfl | rfl <;> rfl)
    (by intro p hp; simp at hp; rcases hp with rfl | rfl | rfl <;> rfl)
    testKey testKey
  ⟨h.2.2.2.1, (h.2.2.2.2 1 (by decide)).2.2 2 (by decide) (Or.inr (by decide))⟩

/-! ## Nil fields -/

theorem persistStruct_skip_nil (S : Storager σ) (id : Bytes) (pre post : List Field)
    (name : Bytes) (kind : Kind) (s : σ) :
    PersistStruct S id (pre ++ .persistable name kind none :: post) s
      = PersistStruct S id (pre ++ post) s := by
  induction pre generalizing s with
  | nil => simp [PersistStruct]
  | cons f pre ih =>
    cases f with
    | plain n v => simpa [PersistStruct] using ih s
    | persistable n c ref =>
      cases ref with
      | none => simpa [PersistStruct] using ih s
      | some p => simp [PersistStruct, ih]

theorem KeyUnder_self (r : Bytes) : KeyUnder r r :=
  ⟨[], [], by simp, by simp, by simp, Or.inl rfl⟩

theorem KeyUnder_cons (r : Bytes) (t : Nat) (ht : t ≠ 47) : KeyUnder r (t :: r) :=
  ⟨[t], [], by simp, by simpa using ht, by simp, Or.inl rfl⟩

theorem KeyUnder_meta (r : Bytes) (a b : Nat) (ha : a ≠ 47) (hb : b ≠ 47) :
    KeyUnder r (a :: b :: 13 :: r) :=
  ⟨[a, b, 13], [], by simp, by simp [ha, hb], by simp, Or.inl rfl⟩

theorem elemPrefix_lt (ps : List Persistent) : elemPrefix ps < 15 := by
  cases ps with
  | nil => decide
  | cons p ps =>
    cases p <;>
      simp [elemPrefix, PersistentUndefinedPrefix, PersistentBoolPrefix, PersistentInt8Prefix,
        PersistentInt16Prefix, PersistentInt32Prefix, PersistentInt64Prefix,
        PersistentUint8Prefix, PersistentUint16Prefix, PersistentUint32Prefix,
        PersistentUint64Prefix, PersistentFloat32Prefix, PersistentFloat64Prefix,
        PersistentStringPrefix, PersistentBytePrefix]

/-- Through the interface, a slice is persisted by `PersistentSlice.Persist`. -/
theorem Persistent_Persist_slice (S : Storager σ) (ps : List Persistent) (s : σ) (k : Bytes) :
    Persistent.Persist S (.slice ps) s k = PersistentSlice.Persist S ps s k := by
  simp only [Persistent.Persist, PersistentSlice.Persist]

theorem KeyUnder_elemKey (r K : Bytes) (t i : Nat) (ht : t < 15)
    (h : KeyUnder (elemKey (13 :: r) t i) K) : KeyUnder r K := by
  obtain ⟨pre, suf, hK, hpre, hsuf, -⟩ := h
  have hc : fmtC t = [t] := by unfold fmtC; rw [if_pos (by omega)]
  refine ⟨pre ++ [13], 58 :: t :: (fmtD i ++ suf), ?_, ?_, ?_, Or.inr rfl⟩
  · rw [hK]; simp [elemKey, hc]
  · intro b hb
    rcases List.mem_append.1 hb with hb | hb
    · exact hpre b hb
    · simp at hb; omega
  · intro b hb
    simp only [List.mem_cons, List.mem_append] at hb
    rcases hb with hb | hb | hb | hb
    · omega
    · omega
    · have := fmtDFuel_digits (i + 1) i b hb
      omega
    · exact hsuf b hb

mutual
/-- A `Persist` under the raw key `r` changes nothing outside the keys that lie
under `r`. -/
theorem persist_frame (S : Storager σ) (hS : S.ReadAfterWrite) :
    ∀ (p : Persistent) (s : σ) (r K : Bytes), ¬ KeyUnder r K →
      S.Load (p.Persist S s r).1 K = S.Load s K
  | .bool v, s, r, K, h => by
    have hK : K ≠ 1 :: r := fun e => h (e ▸ KeyUnder_cons r 1 (by decide))
    cases v <;>
      simpa [Persistent.Persist, PersistentBool.Persist, PersistentBoolPrefix] using
        load_save_other S hS _ _ _ _ hK
  | .int8 v, s, r, K, h => by
    have hK : K ≠ r := fun e => h (e ▸ KeyUnder_self r)
    simpa [Persistent.Persist, PersistentInt8.Persist] using load_save_other S hS _ _ _ _ hK
  | .int16 v, s, r, K, h => by
    have hK : K ≠ 3 :: r := fun e => h (e ▸ KeyUnder_cons r 3 (by decide))
    simpa [Persistent.Persist, PersistentInt16.Persist, PersistentInt16Prefix] using
      load_save_other S hS _ _ _ _ hK
  | .int32 v, s, r, K, h => by
    have hK : K ≠ 4 :: r := fun e => h (e ▸ KeyUnder_cons r 4 (by decide))
    simpa [Persistent.Persist, PersistentInt32.Persist, PersistentInt32Prefix] using
      load_save_other S hS _ _ _ _ hK
  | .int64 v, s, r, K, h => by
    have hK : K ≠ 5 :: r := fun e => h (e ▸ KeyUnder_cons r 5 (by decide))
    simpa [Persistent.Persist, PersistentInt64.Persist, PersistentInt64Prefix] using
      load_save_other S hS _ _ _ _ hK
  | .uint8 v, s, r, K, h => by
    have hK : K ≠ 6 :: r := fun e => h (e ▸ KeyUnder_cons r 6 (by decide))
    simpa [Persistent.Persist, PersistentUint8.Persist, PersistentUint8Prefix] using
      load_save_other S hS _ _ _ _ hK
  | .uint16 v, s, r, K, h => by
    have hK : K ≠ 7 :: r := fun e => h (e ▸ KeyUnder_cons r 7 (by decide))
    simpa [Persistent.Persist, PersistentUint16.Persist, PersistentUint16Prefix] using
      load_save_other S hS _ _ _ _ hK
  | .uint32 v, s, r, K, h => by
    have hK : K ≠ 8 :: r := fun e => h (e ▸ KeyUnder_cons r 8 (by decide))
    simpa [Persistent.Persist, PersistentUint32.Persist, PersistentUint32Prefix] using
      load_save_other S hS _ _ _ _ hK
  | .uint64 v, s, r, K, h => by
    have hK : K ≠ 9 :: r := fun e => h (e ▸ KeyUnder_cons r 9 (by decide))
    simpa [Persistent.Persist, PersistentUint64.Persist, PersistentUint64Prefix] using
      load_save_other S hS _ _ _ _ hK
  | .float32 v, s, r, K, h => by
    have hK : K ≠ 10 :: r := fun e => h (e ▸ KeyUnder_cons r 10 (by decide))
    simpa [Persistent.Persist, PersistentFloat32.Persist, PersistentFloat32Prefix] using
      load_save_other S hS _ _ _ _ hK
  | .float64 v, s, r, K, h => by
    have hK : K ≠ 11 :: r := fun e => h (e ▸ KeyUnder_cons r 11 (by decide))
    simpa [Persistent.Persist, PersistentFloat64.Persist, PersistentFloat64Prefix] using
      load_save_other S hS _ _ _ _ hK
  | .string v, s, r, K, h => by
    have hK : K ≠ 12 :: r := fun e => h (e ▸ KeyUnder_cons r 12 (by decide))
    simpa [Persistent.Persist, PersistentString.Persist, PersistentStringPrefix] using
      load_save_other S hS _ _ _ _ hK
  | .byte v, s, r, K, h => by
    have hK : K ≠ 14 :: r := fun e => h (e ▸ KeyUnder_cons r 14 (by decide))
    simpa [Persistent.Persist, PersistentByte.Persist, PersistentBytePrefix] using
      load_save_other S hS _ _ _ _ hK
  | .slice ps, s, r, K, h => by
    have hl : K ≠ 9 :: 108 :: 13 :: r := fun e => h (e ▸ KeyUnder_meta r 9 108 (by decide) (by decide))
    have ht : K ≠ 14 :: 116 :: 13 :: r :=
      fun e => h (e ▸ KeyUnder_meta r 14 116 (by decide) (by decide))
    rw [Persistent_Persist_slice, PersistentSlice_Persist_eq S hS ps s r]
    rw [load_save_other S hS _ _ _ _ ht, load_save_other S hS _ _ _ _ hl]
    exact tasks_frame S hS ps s (13 :: r) (elemPrefix ps) 0 K
      (fun i hi => h (KeyUnder_elemKey r K _ i (elemPrefix_lt ps) hi))
/-- The element tasks change nothing outside the keys under the element keys. -/
theorem tasks_frame (S : Storager σ) (hS : S.ReadAfterWrite) :
    ∀ (ps : List Persistent) (s : σ) (key : Bytes) (t idx : Nat) (K : Bytes),
      (∀ i, ¬ KeyUnder (elemKey key t i) K) →
      S.Load (PersistentSlice.Persist.tasks S ps s key t idx).1 K = S.Load s K
  | [], s, key, t, idx, K, _ => by simp [PersistentSlice.Persist.tasks]
  | p :: ps, s, key, t, idx, K, h => by
    simp only [PersistentSlice.Persist.tasks]
    rw [tasks_frame S hS ps _ key t (idx + 1) K h]
    exact persist_frame S hS p s _ K (h idx)
end

theorem KeyUnder_storeKey (c : Kind) (r : Bytes) : KeyUnder r (storeKey c r) := by
  cases c <;>
    first
    | exact KeyUnder_self r
    | exact KeyUnder_cons r _ (by decide)

theorem persist_log_scalar (p : Persistent) (hp : p.kind ≠ .slice) (log : List (Bytes × Bytes))
    (r K : Bytes) (h : K ∈ (p.Persist logStorager log r).1.map Prod.fst) :
    K ∈ log.map Prod.fst ∨ KeyUnder r K := by
  rw [scalar_persist_log p hp] at h
  rcases List.mem_append.1 h with h | h
  · exact Or.inl h
  · simp only [List.mem_singleton] at h
    exact Or.inr (h ▸ KeyUnder_storeKey _ r)

mutual
/-- Every key saved by a `Persist` under the raw key `r` lies under `r`. -/
theorem persist_log_under :
    ∀ (p : Persistent) (log : List (Bytes × Bytes)) (r K : Bytes),
      K ∈ (p.Persist logStorager log r).1.map Prod.fst → K ∈ log.map Prod.fst ∨ KeyUnder r K
  | .slice ps, log, r, K, h => by
    rw [Persistent_Persist_slice] at h
    simp only [PersistentSlice.Persist, PersistentSlice.Persist.finish, PersistentUint64.Persist,
      PersistentByte.Persist, PersistentSlicePrefix, PersistentUint64Prefix,
      PersistentBytePrefix] at h
    simp only [logStorager, List.map_append, List.map_cons, List.map_nil, List.mem_append,
      List.mem_cons, List.mem_singleton, List.not_mem_nil, or_false] at h
    rcases h with (h | h) | h
    · rcases tasks_log_under ps log (13 :: r) (elemPrefix ps) 0 K h with h | ⟨i, hi⟩
      · exact Or.inl h
      · exact Or.inr (KeyUnder_elemKey r K _ i (elemPrefix_lt ps) hi)
    · exact Or.inr (h ▸ KeyUnder_meta r 9 108 (by decide) (by decide))
    · exact Or.inr (h ▸ KeyUnder_meta r 14 116 (by decide) (by decide))
  | .bool v, log, r, K, h => persist_log_scalar (.bool v) (by simp [Persistent.kind]) log r K h
  | .int8 v, log, r, K, h => persist_log_scalar (.int8 v) (by simp [Persistent.kind]) log r K h
  | .int16 v, log, r, K, h => persist_log_scalar (.int16 v) (by simp [Persistent.kind]) log r K h
  | .int32 v, log, r, K, h => persist_log_scalar (.int32 v) (by simp [Persistent.kind]) log r K h
  | .int64 v, log, r, K, h => persist_log_scalar (.int64 v) (by simp [Persistent.kind]) log r K h
  | .uint8 v, log, r, K, h => persist_log_scalar (.uint8 v) (by simp [Persistent.kind]) log r K h
  | .uint16 v, log, r, K, h => persist_log_scalar (.uint16 v) (by simp [Persistent.kind]) log r K h
  | .uint32 v, log, r, K, h => persist_log_scalar (.uint32 v) (by simp [Persistent.kind]) log r K h
  | .uint64 v, log, r, K, h => persist_log_scalar (.uint64 v) (by simp [Persistent.kind]) log r K h
  | .float32 v, log, r, K, h => persist_log_scalar (.float32 v) (by simp [Persistent.kind]) log r K h
  | .float64 v, log, r, K, h => persist_log_scalar (.float64 v) (by simp [Persistent.kind]) log r K h
  | .string v, log, r, K, h => persist_log_scalar (.string v) (by simp [Persistent.kind]) log r K h
  | .byte v, log, r, K, h => persist_log_scalar (.byte v) (by simp [Persistent.kind]) log r K h
/-- Every key saved by the element tasks lies under an element key. -/
theorem tasks_log_under :
    ∀ (ps : List Persistent) (log : List (Bytes × Bytes)) (key : Bytes) (t idx : Nat) (K : Bytes),
      K ∈ (PersistentSlice.Persist.tasks logStorager ps log key t idx).1.map Prod.fst →
      K ∈ log.map Prod.fst ∨ ∃ i, KeyUnder (elemKey key t i) K
  | [], log, key, t, idx, K, h => by
    simp only [PersistentSlice.Persist.tasks] at h
    exact Or.inl h
  | p :: ps, log, key, t, idx, K, h => by
    simp only [PersistentSlice.Persist.tasks] at h
    rcases tasks_log_under ps _ key t (idx + 1) K h with h | h
    · rcases persist_log_under p log _ K h with h | h
      · exact Or.inl h
      · exact Or.inr ⟨idx, h⟩
    · exact Or.inr h
end

theorem takeWhile_append_head (p : Nat → Bool) (d suf : Bytes) (t : Nat)
    (hd : ∀ x ∈ d, p x = true) (hs : suf = [] ∨ suf.head? = some t) (ht : p t = false) :
    (d ++ suf).takeWhile p = d := by
  rcases hs with hs | hs
  · subst hs
    rw [List.append_nil]
    exact List.takeWhile_eq_self_iff.2 hd
  · cases suf with
    | nil => simp at hs
    | cons x rest =>
      simp only [List.head?_cons, Option.some.injEq] at hs
      subst hs
      exact takeWhile_append_stop p d rest x hd ht

theorem after_last_slash (X Y X2 Y2 : Bytes) (hY : ∀ b ∈ Y, b ≠ 47) (hY2 : ∀ b ∈ Y2, b ≠ 47)
    (h : X ++ 47 :: Y = X2 ++ 47 :: Y2) : Y = Y2 := by
  have hr := congrArg List.reverse h
  simp only [List.reverse_append, List.reverse_cons, List.append_assoc, List.singleton_append]
    at hr
  let p : Nat → Bool := fun b => decide (b ≠ 47)
  have h1 := takeWhile_append_stop p Y.reverse X.reverse 47
    (fun x hx => by simpa [p] using hY x (List.mem_reverse.1 hx)) (by simp [p])
  have h2 := takeWhile_append_stop p Y2.reverse X2.reverse 47
    (fun x hx => by simpa [p] using hY2 x (List.mem_reverse.1 hx)) (by simp [p])
  rw [hr, h2] at h1
  exact (List.reverse_injective h1).symm

/-- A store key lies under the key of at most one field of a record. -/
theorem KeyUnder_fieldKey_unique (id A B K : Bytes) (hA : isIdent A) (hB : isIdent B)
    (h1 : KeyUnder (fieldKey id A) K) (h2 : KeyUnder (fieldKey id B) K) : A = B := by
  obtain ⟨pre1, suf1, e1, -, hs1, hh1⟩ := h1
  obtain ⟨pre2, suf2, e2, -, hs2, hh2⟩ := h2
  have e : (pre1 ++ id) ++ 47 :: (A ++ suf1) = (pre2 ++ id) ++ 47 :: (B ++ suf2) := by
    have := e1.symm.trans e2
    simpa [fieldKey] using this
  have hsplit := after_last_slash _ _ _ _
    (fun b hb => by
      rcases List.mem_append.1 hb with hb | hb
      · exact (hA b hb).1
      · exact hs1 b hb)
    (fun b hb => by
      rcases List.mem_append.1 hb with hb | hb
      · exact (hB b hb).1
      · exact hs2 b hb) e
  let p : Nat → Bool := fun b => decide (b ≠ 58)
  have t1 := takeWhile_append_head p A suf1 58 (fun x hx => by simpa [p] using (hA x hx).2) hh1
    (by simp [p])
  have t2 := takeWhile_append_head p B suf2 58 (fun x hx => by simpa [p] using (hB x hx).2) hh2
    (by simp [p])
  rw [hsplit, t2] at t1
  exact t1.symm

/-- A `PersistStruct` changes nothing under the key of a field that it does
not persist. -/
theorem persistStruct_frame (S : Storager σ) (hS : S.ReadAfterWrite) (id B K : Bytes)
    (hB : isIdent B) (hK : KeyUnder (fieldKey id B) K) (fields : List Field) (s : σ)
    (h : ∀ f ∈ fields, isIdent f.name ∧ f.name ≠ B) :
    S.Load (PersistStruct S id fields s).1 K = S.Load s K := by
  induction fields generalizing s with
  | nil => rfl
  | cons f rest ih =>
    have hrest : ∀ g ∈ rest, isIdent g.name ∧ g.name ≠ B := fun g hg => h g (by simp [hg])
    cases f with
    | plain n v => simpa [PersistStruct] using ih s hrest
    | persistable n c ref =>
      cases ref with
      | none => simpa [PersistStruct] using ih s hrest
      | some p =>
        simp only [PersistStruct]
        by_cases hx : isExported n = true
        · rw [if_pos hx]
          show S.Load (PersistStruct S id rest _).1 K = S.Load s K
          rw [ih _ hrest]
          have hf := h (.persistable n c (some p)) (by simp)
          exact persist_frame S hS p s _ K
            (fun hn => hf.2 (KeyUnder_fieldKey_unique id n B K hf.1 hB hn hK))
        · rw [if_neg hx]

/-- C9. A nil persistable field in `PersistStruct`: for every record, id,
`Storager` and store state, the call on a record with a nil persistable field
has the same final store and the same sequence of error-handler arguments as
the call on the record without that field, so no `Save` is made and the
handler is not invoked for it. Over a store with read-after-write semantics,
the field names being distinct Go identifiers, every key that a `Persist` of
that field would have saved under, whatever value it held, loads after the call
what it loaded before. -/
theorem persistStruct_nil_field (S : Storager σ) (id : Bytes) (pre post : List Field)
    (name : Bytes) (kind : Kind) (s : σ) :
    PersistStruct S id (pre ++ .persistable name kind none :: post) s
      = PersistStruct S id (pre ++ post) s ∧
    (S.ReadAfterWrite → isIdent name → (∀ f ∈ pre ++ post, isIdent f.name ∧ f.name ≠ name) →
      ∀ (p : Persistent) (K : Bytes), K ∈ keysSavedBy p (fieldKey id name) →
        S.Load (PersistStruct S id (pre ++ .persistable name kind none :: post) s).1 K
          = S.Load s K) := by
  refine ⟨persistStruct_skip_nil S id pre post name kind s, ?_⟩
  intro hS hname hothers p K hK
  rw [persistStruct_skip_nil]
  have hu : KeyUnder (fieldKey id name) K := by
    rcases persist_log_under p [] (fieldKey id name) K hK with h | h
    · simp at h
    · exact h
  exact persistStruct_frame S hS id name K hname hu (pre ++ post) s hothers

/-- Instance of C9: under the id `"r"`, a record with the `Int64` field `A`
holding 5, the nil `Uint32` field `B` and the plain field `C`, persisted into
the empty test store. -/
theorem persistStruct_nil_field_witness :
    PersistStruct testStorager [114]
      [.persistable [65] .int64 (some (.int64 5)), .persistable [66] .uint32 none,
        .plain [67] 0] []
      = PersistStruct testStorager [114]
          [.persistable [65] .int64 (some (.int64 5)), .plain [67] 0] [] ∧
    testStorager.Load
      (PersistStruct testStorager [114]
        [.persistable [65] .int64 (some (.int64 5)), .persistable [66] .uint32 none,
          .plain [67] 0] []).1 [8, 114, 47, 66]
      = testStorager.Load [] [8, 114, 47, 66] :=
  have h := persistStruct_nil_field testStorager [114]
    [.persistable [65] .int64 (some (.int64 5))] [.plain [67] 0] [66] .uint32 []
  ⟨h.1, h.2 testStorager_readAfterWrite (by simp [isIdent])
    (by simp [isIdent, Field.name]) (.uint32 0) [8, 114, 47, 66] (by decide)⟩

/-! ## `RestoreStruct` on nil fields -/

theorem restore_nothing_stored (S : Storager σ) (s : σ) (e : Error)
    (hs : ∀ K, S.Load s K = .error e) (k : Bytes) (fuel : Nat) (c : Kind) :
    c.empty.Restore S (fuel + 1) s k = .done c.empty (some e) := by
  cases c <;>
    simp only [Kind.empty, Persistent.Restore, PersistentBool.Restore, PersistentInt8.Restore,
      PersistentInt16.Restore, PersistentInt32.Restore, PersistentInt64.Restore,
      PersistentUint8.Restore, PersistentUint16.Restore, PersistentUint32.Restore,
      PersistentUint64.Restore, PersistentFloat32.Restore, PersistentFloat64.Restore,
      PersistentString.Restore, PersistentByte.Restore, PersistentSlice.restoreBody, hs,
      Result.map]

/-- On a store in which every `Load` fails with `e`, `RestoreStruct` of a record
whose persistable fields are exported and nil returns, leaves every persistable field at the
zero value of its kind, and passes `e` to the error handler once per
persistable field. -/
theorem restoreStruct_nothing_stored (S : Storager σ) (s : σ) (e : Error)
    (hs : ∀ K, S.Load s K = .error e) (id : Bytes) (fuel : Nat) (fields : List Field)
    (hnil : ∀ name kind ref, Field.persistable name kind ref ∈ fields → ref = none)
    (hexp : ∀ name kind ref, Field.persistable name kind ref ∈ fields →
      isExported name = true) :
    RestoreStruct S (fuel + 1) id fields s
      = .returned (fields.map Field.allocate)
          ((fields.filter Field.isPersistable).map fun _ => some e) := by
  induction fields with
  | nil => rfl
  | cons f rest ih =>
    have ih2 := ih (fun name kind ref h => hnil name kind ref (by simp [h]))
      (fun name kind ref h => hexp name kind ref (by simp [h]))
    cases f with
    | plain n v => simp [RestoreStruct, ih2, Field.allocate, Field.isPersistable]
    | persistable n c ref =>
      have hr : ref = none := hnil n c ref (by simp)
      have hx : isExported n = true := hexp n c ref (by simp)
      subst hr
      simp [RestoreStruct, hx, ih2, Field.allocate, Field.isPersistable,
        restore_nothing_stored S s e hs]

/-- C10 fails on a record with the nil fields `L` (a list) and `N` (a string)
restored under the id `"r"` from the test store that `PersistStruct` filled
from a record whose `L` held the list of lists `[[1]]`: `RestoreStruct` panics
in the `Restore` of `L`, so it neither leaves `N` non-nil nor reports the
missing key of `N`. So it does when a `Bool` field finds an empty value. -/
theorem restoreStruct_crashes :
    RestoreStruct testStorager 1 [114]
      [.persistable [76] .slice none, .persistable [78] .string none]
      (PersistStruct testStorager [114]
        [.persistable [76] .slice (some (.slice [.slice [.int64 1]])),
         .persistable [78] .string none] []).1
      = .crash ∧
    RestoreStruct testStorager 1 [114]
      [.persistable [66] .bool none, .persistable [78] .string none]
      [([1, 114, 47, 66], [])]
      = .crash :=
  ⟨rfl, rfl⟩

/-! ## The walk over the fields -/

theorem persistStruct_eq_persistEach (S : Storager σ) (id : Bytes) (fields : List Field)
    (s : σ) :
    PersistStruct S id fields s
      = ⟨(persistEach S id ((visited fields).takeWhile fun c => isExported c.1) s).1,
          (persistEach S id ((visited fields).takeWhile fun c => isExported c.1) s).2,
          !(visited fields).all fun c => isExported c.1⟩ := by
  induction fields generalizing s with
  | nil => rfl
  | cons f rest ih =>
    cases f with
    | plain n v => simpa [PersistStruct, visited] using ih s
    | persistable n c ref =>
      cases ref with
      | none => simpa [PersistStruct, visited] using ih s
      | some p =>
        by_cases hx : isExported n = true
        · simp [PersistStruct, visited, hx, persistEach, ih]
        · simp [PersistStruct, visited, hx, persistEach]

theorem persistEach_length (S : Storager σ) (id : Bytes) (calls : List (Bytes × Persistent))
    (s : σ) : (persistEach S id calls s).2.length = calls.length := by
  induction calls generalizing s with
  | nil => rfl
  | cons c rest ih => simp [persistEach, ih]

theorem restoreStruct_of_returns (S : Storager σ) (fuel : Nat) (id : Bytes) (s : σ)
    (fields : List Field)
    (hexp : ∀ f ∈ fields, f.isPersistable = true → isExported f.name = true)
    (h : ∀ f ∈ fields, f.restoreReturns S fuel id s) :
    RestoreStruct S fuel id fields s
      = .returned (fields.map (Field.afterRestore S fuel id s))
          (fields.filterMap (Field.restoreResult S fuel id s)) := by
  induction fields with
  | nil => rfl
  | cons f rest ih =>
    have ih2 := ih (fun g hg => hexp g (by simp [hg])) (fun g hg => h g (by simp [hg]))
    have hf := h f (by simp)
    have hx := hexp f (by simp)
    cases f with
    | plain n v =>
      simp [RestoreStruct, ih2, Field.afterRestore, Field.restoreResult, Field.restoreCall]
    | persistable n c ref =>
      have hx2 : isExported n = true := hx rfl
      cases ref with
      | none =>
        obtain ⟨p, e, hpe⟩ := hf _ rfl
        simp [RestoreStruct, hx2, ih2, Field.afterRestore, Field.restoreResult,
          Field.restoreCall, hpe]
      | some q =>
        obtain ⟨p, e, hpe⟩ := hf _ rfl
        simp [RestoreStruct, hx2, ih2, Field.afterRestore, Field.restoreResult,
          Field.restoreCall, hpe]

theorem restoreStruct_returned (S : Storager σ) (fuel : Nat) (id : Bytes) (s : σ)
    (fields : List Field) (dt : List Field) (handled : List (Option Error))
    (h : RestoreStruct S fuel id fields s = .returned dt handled) :
    ∀ f ∈ fields, (f.isPersistable = true → isExported f.name = true) ∧
      f.restoreReturns S fuel id s := by
  induction fields generalizing dt handled with
  | nil => simp
  | cons f rest ih =>
    cases f with
    | plain n v =>
      simp only [RestoreStruct] at h
      cases hr : RestoreStruct S fuel id rest s with
      | returned dt2 handled2 =>
        intro g hg
        rcases List.mem_cons.1 hg with rfl | hg
        · exact ⟨by simp [Field.isPersistable], by simp [Field.restoreReturns, Field.restoreCall]⟩
        · exact ih dt2 handled2 hr g hg
      | crash => simp [hr] at h
      | fuelOut => simp [hr] at h
    | persistable n c ref =>
      simp only [RestoreStruct] at h
      by_cases hx : isExported n = true
      · rw [if_pos hx] at h
        cases hc : (match ref with | none => c.empty | some p => p).Restore S fuel s
            (fieldKey id n) with
        | crash => simp [hc] at h
        | fuelOut => simp [hc] at h
        | done p e =>
          cases hr : RestoreStruct S fuel id rest s with
          | returned dt2 handled2 =>
            intro g hg
            rcases List.mem_cons.1 hg with rfl | hg
            · refine ⟨fun _ => hx, ?_⟩
              intro r hr2
              cases ref with
              | none =>
                simp only [Field.restoreCall, Option.some.injEq] at hr2
                exact ⟨p, e, by rw [← hr2]; exact hc⟩
              | some q =>
                simp only [Field.restoreCall, Option.some.injEq] at hr2
                exact ⟨p, e, by rw [← hr2]; exact hc⟩
            · exact ih dt2 handled2 hr g hg
          | crash => simp [hc, hr] at h
          | fuelOut => simp [hc, hr] at h
      · rw [if_neg hx] at h
        simp at h

theorem restoreStruct_unexported (S : Storager σ) (fuel : Nat) (id : Bytes) (s : σ)
    (pre post : List Field) (name : Bytes) (kind : Kind) (ref : Option Persistent)
    (hx : isExported name = false)
    (hpre : ∀ f ∈ pre, (f.isPersistable = true → isExported f.name = true) ∧
      f.restoreReturns S fuel id s) :
    RestoreStruct S fuel id (pre ++ .persistable name kind ref :: post) s = .crash := by
  induction pre with
  | nil => simp [RestoreStruct, hx]
  | cons f pre ih =>
    have ih2 := ih (fun g hg => hpre g (by simp [hg]))
    obtain ⟨hfx, hfr⟩ := hpre f (by simp)
    cases f with
    | plain n v => simp [RestoreStruct, ih2]
    | persistable n c r =>
      have hx2 : isExported n = true := hfx rfl
      cases r with
      | none =>
        obtain ⟨p, e, hpe⟩ := hfr _ rfl
        simp [RestoreStruct, hx2, ih2, hpe]
      | some q =>
        obtain ⟨p, e, hpe⟩ := hfr _ rfl
        simp [RestoreStruct, hx2, ih2, hpe]

/-- C11 as stated fails on a record with an unexported persistable field:
under the id `"r"`, with the non-nil `String` field `a` ahead of the non-nil
`Uint32` field `B`, `PersistStruct` on the recording store panics in the call
for `a`, so that nothing is saved for `B` and the handler is never invoked; and
`RestoreStruct` of the record with both fields nil panics likewise. -/
theorem struct_walk_unexported_panics :
    PersistStruct logStorager [114]
      [.persistable [97] .string (some (.string [120])),
        .persistable [66] .uint32 (some (.uint32 7))] []
      = ⟨[], [], true⟩ ∧
    RestoreStruct testStorager 0 [114]
      [.persistable [97] .string none, .persistable [66] .uint32 none] []
      = .crash :=
  ⟨rfl, rfl⟩

/-- C11, amended. The walk of `PersistStruct` and of `RestoreStruct`.
`PersistStruct` makes the calls of the walk worded in the specification
(`persistEach`: every non-nil persistable field in declaration order is
persisted with the raw key `id ++ "/" ++ name` in the store left by the
earlier calls, whatever they returned, and the handler receives exactly the
results of these calls, one per call, in call order) up to the first non-nil
persistable field that is unexported, where it panics; with no such field it
returns after the whole walk. Plain and nil fields contribute no call and no
handler argument. `RestoreStruct`, when every persistable field is exported and
every field's `Restore` call returns, returns with each persistable field
pointing to the receiver of its call, made with the raw key
`id ++ "/" ++ name`, and with the handler having received exactly the results
of those calls, one per persistable field in declaration order, whatever errors
are among them; it returns in no other case, and it panics at the first
unexported persistable field when the calls of the fields before it return. -/
theorem struct_walk (S : Storager σ) (fuel : Nat) (id : Bytes) (fields : List Field) (s : σ) :
    PersistStruct S id fields s
      = ⟨(persistEach S id ((visited fields).takeWhile fun c => isExported c.1) s).1,
          (persistEach S id ((visited fields).takeWhile fun c => isExported c.1) s).2,
          !(visited fields).all fun c => isExported c.1⟩ ∧
    (∀ (calls : List (Bytes × Persistent)) (s0 : σ),
      (persistEach S id calls s0).2.length = calls.length) ∧
    ((∀ f ∈ fields, f.isPersistable = true → isExported f.name = true) →
      (∀ f ∈ fields, f.restoreReturns S fuel id s) →
      RestoreStruct S fuel id fields s
        = .returned (fields.map (Field.afterRestore S fuel id s))
            (fields.filterMap (Field.restoreResult S fuel id s))) ∧
    (∀ dt handled, RestoreStruct S fuel id fields s = .returned dt handled →
      ∀ f ∈ fields, (f.isPersistable = true → isExported f.name = true) ∧
        f.restoreReturns S fuel id s) ∧
    (∀ (pre post : List Field) (name : Bytes) (kind : Kind) (ref : Option Persistent),
      fields = pre ++ .persistable name kind ref :: post → isExported name = false →
      (∀ f ∈ pre, (f.isPersistable = true → isExported f.name = true) ∧
        f.restoreReturns S fuel id s) →
      RestoreStruct S fuel id fields s = .crash) :=
  ⟨persistStruct_eq_persistEach S id fields s, fun calls s0 => persistEach_length S id calls s0,
    fun hexp h => restoreStruct_of_returns S fuel id s fields hexp h,
    fun dt handled h => restoreStruct_returned S fuel id s fields dt handled h,
    fun pre post name kind ref hf hx hpre =>
      hf ▸ restoreStruct_unexported S fuel id s pre post name kind ref hx hpre⟩

/-- Instance of C11: under the id `"r"`, the record with the nil fields `A`
(a string), `B` (a `Uint32`) and `C` (a `Bool`) restored from a test store in
which only the key of `B` is present, with a short value: the handler receives
the store's error, then `io.ErrUnexpectedEOF`, then the store's error again. -/
theorem struct_walk_witness :
    RestoreStruct testStorager 0 [114]
      [.persistable [65] .string none, .persistable [66] .uint32 none,
        .persistable [67] .bool none] shortFieldDB
      = .returned
          [.persistable [65] .string (some (.string [])),
            .persistable [66] .uint32 (some (.uint32 0)),
            .persistable [67] .bool (some (.bool false))]
          [some (.storager "value is not stored"), some .ErrUnexpectedEOF,
            some (.storager "value is not stored")] :=
  (struct_walk testStorager 0 [114]
    [.persistable [65] .string none, .persistable [66] .uint32 none,
      .persistable [67] .bool none] shortFieldDB).2.2.1
    (by
      intro f hf
      simp only [List.mem_cons, List.mem_singleton, List.not_mem_nil, or_false] at hf
      rcases hf with rfl | rfl | rfl <;> intro _ <;> rfl)
    (by
      intro f hf
      simp only [List.mem_cons, List.mem_singleton, List.not_mem_nil, or_false] at hf
      rcases hf with rfl | rfl | rfl <;> intro r hr <;>
        simp only [Field.restoreCall, Option.some.injEq] at hr <;> subst hr
      · exact ⟨_, _, rfl⟩
      · exact ⟨_, _, rfl⟩
      · exact ⟨_, _, rfl⟩)

/-! ## Lengths of the stored values -/

/-- C12 as stated fails on a value longer than the width: from a store holding
the five bytes `7C FE FF FF 00` under the `Int32`-tagged key `"test"`,
`PersistentInt32.Restore` returns no error and decodes the first four bytes. -/
theorem int32_restore_accepts_longer :
    testStorager.Load longInt32DB (PersistentInt32Prefix :: testKey)
      = .ok [124, 254, 255, 255, 0] ∧
    PersistentInt32.Restore testStorager 0 longInt32DB testKey = .done (-388) none :=
  ⟨rfl, by decide⟩

theorem binaryRead_short (w : Nat) (dt : Bytes) (h : dt.length < w) :
    ∃ e, binaryRead w dt = .error e := by
  unfold binaryRead
  by_cases h0 : dt.length = 0
  · exact ⟨_, by rw [if_pos h0]⟩
  · exact ⟨_, by rw [if_neg h0, if_pos h]⟩

theorem binaryRead_long (w : Nat) (dt : Bytes) (hw : 0 < w) (h : w ≤ dt.length) :
    binaryRead w dt = .ok (getLE (dt.take w)) := by
  unfold binaryRead
  rw [if_neg (by omega), if_neg (by omega)]

/-- C12, amended. For every multi-byte numeric kind of width `w` (Int16, Int32,
Int64, Uint16, Uint32, Uint64, Float32, Float64), every raw key and every store
holding a value under the composed key: when the value is shorter than `w`,
`Restore` returns an error and leaves the receiver as it was; when it is at
least `w` bytes long, longer values included, `Restore` returns no error and
decodes its first `w` bytes (a `Float32` signalling NaN read from them is left
as the quiet NaN of the same sign and payload). -/
theorem restore_wrong_length (S : Storager σ) (s : σ) (k : Bytes) (fuel : Nat) (p : Persistent)
    (dt : Bytes) (hp : p.kind.isMultiByte = true) (h : S.Load s (p.kind.tag :: k) = .ok dt) :
    (dt.length < p.kind.width → ∃ e, p.Restore S fuel s k = .done p (some e)) ∧
    (p.kind.width ≤ dt.length →
      p.Restore S fuel s k = .done (p.kind.ofBits (getLE (dt.take p.kind.width))) none) := by
  cases p <;> simp only [Persistent.kind, Kind.isMultiByte, Kind.width] at hp <;>
    first
    | (simp at hp; done)
    | (simp only [Persistent.kind, Kind.tag] at h
       simp only [Persistent.kind, Kind.width, Kind.ofBits]
       constructor
       · intro hl
         obtain ⟨e, he⟩ := binaryRead_short _ dt hl
         exact ⟨e, by
           simp only [Persistent.Restore, PersistentInt16.Restore, PersistentInt32.Restore,
             PersistentInt64.Restore, PersistentUint16.Restore, PersistentUint32.Restore,
             PersistentUint64.Restore, PersistentFloat32.Restore, PersistentFloat64.Restore,
             h, he, Result.map]⟩
       · intro hl
         have he := binaryRead_long _ dt (by decide) hl
         simp only [Persistent.Restore, PersistentInt16.Restore, PersistentInt32.Restore,
           PersistentInt64.Restore, PersistentUint16.Restore, PersistentUint32.Restore,
           PersistentUint64.Restore, PersistentFloat32.Restore, PersistentFloat64.Restore,
           h, he, Result.map])

/-- Instance of C12: the five-byte value under the `Int32`-tagged key `"test"`
is accepted and read as -388. -/
theorem restore_wrong_length_witness :
    (Persistent.int32 0).Restore testStorager 0 longInt32DB testKey
      = .done (.int32 (-388)) none :=
  (restore_wrong_length testStorager longInt32DB testKey 0 (.int32 0) [124, 254, 255, 255, 0]
    rfl rfl).2 (by decide)

/-- C13. `PersistentByte.Restore` and the length of the loaded value: for every
raw key, receiver and store holding a value under the `Byte`-tagged key,
`Restore` returns an error exactly when the value's length is not 1, the error
being "is not a byte" with the receiver left as it was, and when the value is
one byte it returns no error and sets the receiver to that byte. -/
theorem byte_restore_length (S : Storager σ) (s : σ) (k : Bytes) (q : Nat) (dt : Bytes)
    (h : S.Load s (PersistentBytePrefix :: k) = .ok dt) :
    ((∃ v e, PersistentByte.Restore S q s k = .done v (some e)) ↔ dt.length ≠ 1) ∧
    (dt.length ≠ 1 →
      PersistentByte.Restore S q s k = .done q (some (.notAByte (PersistentBytePrefix :: k)))) ∧
    (∀ b, dt = [b] → PersistentByte.Restore S q s k = .done b none) := by
  by_cases hl : dt.length = 1
  · obtain ⟨b, rfl⟩ := List.length_eq_one.1 hl
    refine ⟨?_, fun hn => absurd hl hn, fun b2 hb => ?_⟩
    · simp [PersistentByte.Restore, h]
    · cases hb
      simp [PersistentByte.Restore, h]
  · refine ⟨?_, fun _ => ?_, fun b hb => ?_⟩
    · simp [PersistentByte.Restore, h, hl]
    · simp [PersistentByte.Restore, h, hl]
    · subst hb
      exact absurd rfl hl

/-- Instance of C13: the one-byte value `'a'` under the `Byte`-tagged key
`"test"` is restored into a zero receiver. -/
theorem byte_restore_length_witness :
    PersistentByte.Restore testStorager 0 oneByteDB testKey = .done 97 none :=
  (byte_restore_length testStorager oneByteDB testKey 0 [97] rfl).2.2 97 rfl

/-! ## The bytes of an integer -/

theorem putLE_getElem? (w u i : Nat) (h : i < w) :
    (putLE w u)[i]? = some (u / 256 ^ i % 256) := by
  induction w generalizing u i with
  | zero => omega
  | succ w ih =>
    cases i with
    | zero => simp [putLE]
    | succ i =>
      simp only [putLE, List.getElem?_cons_succ]
      rw [ih (u / 256) i (by omega), Nat.div_div_eq_div_mul, pow_succ']

theorem int_byte_eq (z : Int) (w i : Nat) :
    ((z % 2 ^ (8 * w)) / 2 ^ (8 * i) % 256).toNat = (z % 2 ^ (8 * w)).toNat / 256 ^ i % 256 := by
  have hnn : 0 ≤ z % 2 ^ (8 * w) := Int.emod_nonneg _ (by positivity)
  obtain ⟨u, hu⟩ := Int.eq_ofNat_of_zero_le hnn
  rw [hu]
  have h2 : (2 : Int) ^ (8 * i) = ((256 ^ i : Nat) : Int) := by
    rw [pow_mul]; norm_num
  rw [h2]
  norm_cast

/-- C14. The bytes of an integer: for every value `v` of an integer kind of
width `w` (Int8, Int16, Int32, Int64, Uint8, Uint16, Uint32, Uint64) and every
raw key, `Persist` makes one `Save`, whose value has exactly `w` bytes, the
`i`-th of which (`i < w`) is `((v mod 2^(8w)) div 2^(8i)) mod 256`. -/
theorem integer_encoding (p : Persistent) (k : Bytes) (hp : p.kind.isInteger = true) :
    ∃ key bytes, (p.Persist logStorager [] k).1 = [(key, bytes)] ∧
      bytes.length = p.kind.width ∧
      ∀ i, i < p.kind.width →
        bytes[i]? = some ((p.toInt % 2 ^ (8 * p.kind.width)) / 2 ^ (8 * i) % 256).toNat := by
  cases p <;> simp only [Persistent.kind, Kind.isInteger] at hp <;>
    first
    | (refine ⟨_, _, rfl, putLE_length _ _, fun i hi => ?_⟩
       simp only [Persistent.kind, Kind.width] at hi
       simp only [Persistent.kind, Kind.width, Persistent.toInt, int_byte_eq]
       exact putLE_getElem? _ _ i hi)
    | simp at hp

/-- Instance of C14: the four bytes of `Int32(-388)`. -/
theorem integer_encoding_witness :
    ∃ key bytes, ((Persistent.int32 (-388)).Persist logStorager [] testKey).1 = [(key, bytes)] ∧
      bytes.length = 4 ∧
      ∀ i, i < 4 → bytes[i]? = some (((-388 : Int) % 2 ^ (8 * 4)) / 2 ^ (8 * i) % 256).toNat :=
  integer_encoding (.int32 (-388)) testKey rfl

/-! ## Concrete runs -/

/-- C15 fails on the list `[[1]]` of lists of `Int64`: after a `Persist` under
`"test"` that returns no error, the byte stored under the `"t"` metadata key is
0 (Undefined), not the list tag 13, the type switch having no case for a slice
element. -/
theorem nested_slice_tag_undefined :
    (PersistentSlice.Persist testStorager [.slice [.int64 1]] [] testKey).2 = none ∧
    testStorager.Load (PersistentSlice.Persist testStorager [.slice [.int64 1]] [] testKey).1
      (PersistentBytePrefix :: 116 :: PersistentSlicePrefix :: testKey) = .ok [0] ∧
    PersistentByte.Restore testStorager 255
      (PersistentSlice.Persist testStorager [.slice [.int64 1]] [] testKey).1
      (116 :: PersistentSlicePrefix :: testKey) = .done PersistentUndefinedPrefix none ∧
    PersistentUndefinedPrefix ≠ PersistentSlicePrefix :=
  ⟨rfl, rfl, rfl, by decide⟩

/-- C16 as stated fails on the value: the one `Save` of `Int32(-388)` under
`"test"` has the value `7C FE FF FF`, not `44 FE FF FF`. -/
theorem int32_minus388_not_44 :
    (PersistentInt32.Persist logStorager (-388) [] testKey).1.map Prod.snd
      = [[0x7C, 0xFE, 0xFF, 0xFF]] ∧
    (PersistentInt32.Persist logStorager (-388) [] testKey).1.map Prod.snd
      ≠ [[0x44, 0xFE, 0xFF, 0xFF]] := by
  decide

/-- C16, amended. Persisting `Int32(-388)` under `"test"` makes exactly one
`Save`, whose key is the `Int32` tag byte followed by `"test"` and whose value
is the four bytes `7C FE FF FF`; into the empty test store it returns no error,
and a following `Restore` under `"test"` returns -388 with no error. -/
theorem int32_minus388 :
    (PersistentInt32.Persist logStorager (-388) [] testKey).1
      = [(PersistentInt32Prefix :: testKey, [0x7C, 0xFE, 0xFF, 0xFF])] ∧
    (PersistentInt32.Persist testStorager (-388) [] testKey).2 = none ∧
    PersistentInt32.Restore testStorager 0
      (PersistentInt32.Persist testStorager (-388) [] testKey).1 testKey
      = .done (-388) none := by
  decide

/-- C17 as stated fails on the suffixes: of the five keys saved by the `Persist`
of `[-44, 33, 33]` under `"test"`, the first three being those of the elements,
none ends in `":I0"`, `":I1"` or `":I2"`. -/
theorem testSlice_no_I_suffix :
    (savedKeys testSlice testKey).length = 5 ∧
    ¬ ([58, 73, 48] <:+ (savedKeys testSlice testKey).getD 0 []) ∧
    ¬ ([58, 73, 49] <:+ (savedKeys testSlice testKey).getD 1 []) ∧
    ¬ ([58, 73, 50] <:+ (savedKeys testSlice testKey).getD 2 []) ∧
    (savedKeys testSlice testKey).all (fun key =>
      !decide ([58, 73, 48] <:+ key) && !decide ([58, 73, 49] <:+ key)
        && !decide ([58, 73, 50] <:+ key)) = true := by
  decide

/-- C17, amended. Persisting `[Int64(-44), Int64(33), Int64(33)]` under
`"test"` writes exactly three element entries, ahead of the two metadata
entries; their store keys are the `Int64` tag, the list key (list tag, then
`"test"`), `':'`, the byte 5 (the `Int64` tag under the verb `%c`) and the
decimal index, so they end in `":\x050"`, `":\x051"` and `":\x052"`. -/
theorem testSlice_entries :
    (PersistentSlice.Persist logStorager testSlice [] testKey).1
      = [(PersistentInt64Prefix :: PersistentSlicePrefix :: testKey ++ [58, 5, 48],
            [212, 255, 255, 255, 255, 255, 255, 255]),
          (PersistentInt64Prefix :: PersistentSlicePrefix :: testKey ++ [58, 5, 49],
            [33, 0, 0, 0, 0, 0, 0, 0]),
          (PersistentInt64Prefix :: PersistentSlicePrefix :: testKey ++ [58, 5, 50],
            [33, 0, 0, 0, 0, 0, 0, 0]),
          (PersistentUint64Prefix :: 108 :: PersistentSlicePrefix :: testKey,
            [3, 0, 0, 0, 0, 0, 0, 0]),
          (PersistentBytePrefix :: 116 :: PersistentSlicePrefix :: testKey, [5])] := by
  decide

/-- A recorded positive length with a tag that the switch of `Restore` does
not know makes `PersistentSlice.Restore` panic. -/
theorem restore_unknown_tag_crashes (S : Storager σ) (s : σ) (k : Bytes) (fuel : Nat)
    (recv : List Persistent) (dl : Bytes) (t : Nat)
    (hl : S.Load s (PersistentUint64Prefix :: 108 :: PersistentSlicePrefix :: k) = .ok dl)
    (hlen : 8 ≤ dl.length) (hpos : 0 < getLE (dl.take 8))
    (ht : S.Load s (PersistentBytePrefix :: 116 :: PersistentSlicePrefix :: k) = .ok [t])
    (hnew : newElem t = none) :
    PersistentSlice.Restore S fuel recv s k = .crash := by
  have hb := binaryRead_long 8 dl (by decide) hlen
  obtain ⟨n, hn⟩ := Nat.exists_eq_succ_of_ne_zero (Nat.pos_iff_ne_zero.1 hpos)
  have hh : [t].headD 0 = t := rfl
  simp only [PersistentSlice.Restore, PersistentSlice.restoreBody, PersistentUint64.Restore,
    PersistentByte.Restore, hl, hb, ht, hh, hnew, hn, List.length_singleton, ne_eq,
    not_true_eq_false, if_false, List.range_succ_eq_map, List.map_cons, waitAll]

/-- C20 fails on a store whose metadata for the list `"test"` records the
length 1 with the element tag 0 (Undefined), or with the tag 200, above the
last defined tag: `PersistentSlice.Restore` leaves the slot nil and panics
calling `Restore` on it, where the claim has it return an error. -/
theorem restore_bad_tag_crashes :
    PersistentSlice.Restore testStorager 1 [] (oneElemDB 0) testKey = .crash ∧
    PersistentSlice.Restore testStorager 1 [] (oneElemDB 200) testKey = .crash :=
  ⟨rfl, rfl⟩

/-! ## Failing saves -/

/-- A scalar `Persist` is one `Save` of the payload under `storeKey`. -/
theorem scalar_persist_eq (S : Storager σ) (p : Persistent) (hp : p.kind ≠ .slice) (s : σ)
    (r : Bytes) : p.Persist S s r = S.Save s (storeKey p.kind r) p.payload := by
  cases p
  case slice ps => exact absurd rfl hp
  case bool v => cases v <;> rfl
  all_goals rfl

theorem replay_append (S : Storager σ) (s : σ) (a b : List (Bytes × Bytes)) :
    replay S s (a ++ b) = replay S (replay S s a) b := by
  simp [replay, List.foldl_append]

theorem Kind.tag_injective (c d : Kind) (h : c.tag = d.tag) : c = d := by
  cases c <;> cases d <;> first | rfl | (exfalso; revert h; decide)

theorem storeKey_of_ne_int8 (c : Kind) (h : c ≠ .int8) (r : Bytes) :
    storeKey c r = c.tag :: r := by
  cases c <;> first | rfl | exact absurd rfl h

theorem replicate13_cons (a : Nat) (X : Bytes) :
    List.replicate a 13 ++ 13 :: X = 13 :: (List.replicate a 13 ++ X) := by
  induction a with
  | zero => rfl
  | succ a ih => rw [List.replicate_succ, List.cons_append, ih, List.cons_append]

/-- A byte string followed by `':'` is not itself shifted by list tags. -/
theorem no_shift (k : Bytes) (e : Nat) (X Y : Bytes) (hX : X.head? = some 58)
    (h : k ++ X = List.replicate (e + 1) 13 ++ (k ++ Y)) : False := by
  induction k with
  | nil =>
    rw [List.nil_append, List.replicate_succ, List.cons_append] at h
    rw [h] at hX
    simp at hX
  | cons b k ih =>
    rw [List.replicate_succ] at h
    simp only [List.cons_append, List.cons.injEq] at h
    obtain ⟨hb, ht⟩ := h
    subst hb
    rw [replicate13_cons] at ht
    exact ih (by rw [ht, List.replicate_succ, List.cons_append])

theorem keyHead_unique (h1 h2 A B : Bytes) (hh1 : isKeyHead h1) (hh2 : isKeyHead h2)
    (h : h1 ++ 13 :: A = h2 ++ 13 :: B) : A = B := by
  rcases hh1 with rfl | ⟨c, rfl, hc⟩ | rfl | rfl <;>
    rcases hh2 with rfl | ⟨d, rfl, hd⟩ | rfl | rfl <;>
    simp at h <;> first | exact h | exact h.2 | (exfalso; omega)

theorem fmtD_ne_nil (n : Nat) : fmtD n ≠ [] := by
  unfold fmtD
  rw [fmtDFuel]
  split <;> simp

theorem fmtD_takeWhile (n : Nat) (Q : Bytes) (hQ : Q = [] ∨ Q.head? = some 58) :
    (fmtD n ++ Q).takeWhile (fun b => decide (48 ≤ b ∧ b ≤ 57)) = fmtD n := by
  apply takeWhile_append_head _ _ _ 58 _ hQ (by decide)
  intro x hx
  have := fmtDFuel_digits (n + 1) n x hx
  simpa using this

/-- A store key has the shape of a key saved under the key of at most one
element of a list. -/
theorem KeyShape_elemKey_unique (k K : Bytes) (t i j : Nat) (ht : t < 15)
    (h1 : KeyShape (elemKey (13 :: k) t i) K) (h2 : KeyShape (elemKey (13 :: k) t j) K) :
    i = j := by
  obtain ⟨hd1, a1, Q1, e1, hh1, hq1⟩ := h1
  obtain ⟨hd2, a2, Q2, e2, hh2, hq2⟩ := h2
  have hc : fmtC t = [t] := by unfold fmtC; rw [if_pos (by omega)]
  have f1 : K = hd1 ++ 13 :: (List.replicate a1 13 ++ (k ++ 58 :: t :: (fmtD i ++ Q1))) := by
    rw [e1, ← replicate13_cons]; simp [elemKey, hc]
  have f2 : K = hd2 ++ 13 :: (List.replicate a2 13 ++ (k ++ 58 :: t :: (fmtD j ++ Q2))) := by
    rw [e2, ← replicate13_cons]; simp [elemKey, hc]
  have hAB := keyHead_unique hd1 hd2 _ _ hh1 hh2 (f1.symm.trans f2)
  rcases Nat.lt_trichotomy a1 a2 with hlt | heq | hgt
  · exfalso
    obtain ⟨e, rfl⟩ : ∃ e, a2 = a1 + (e + 1) := ⟨a2 - a1 - 1, by omega⟩
    rw [List.replicate_add, List.append_assoc] at hAB
    exact no_shift k e (58 :: t :: (fmtD i ++ Q1)) _ rfl (List.append_cancel_left hAB)
  · subst heq
    have h3 := List.append_cancel_left (List.append_cancel_left hAB)
    simp only [List.cons.injEq, true_and] at h3
    have t1 := fmtD_takeWhile i Q1 hq1
    have t2 := fmtD_takeWhile j Q2 hq2
    rw [h3, t2] at t1
    exact (fmtD_injective j i t1).symm
  · exfalso
    obtain ⟨e, rfl⟩ : ∃ e, a1 = a2 + (e + 1) := ⟨a1 - a2 - 1, by omega⟩
    rw [List.replicate_add, List.append_assoc] at hAB
    exact no_shift k e (58 :: t :: (fmtD j ++ Q2)) _ rfl (List.append_cancel_left hAB).symm

theorem KeyShape_elemKey (r K : Bytes) (t i : Nat) (ht : t < 15)
    (h : KeyShape (elemKey (13 :: r) t i) K) : KeyShape r K := by
  obtain ⟨hd, a, Q, e, hh, -⟩ := h
  have hc : fmtC t = [t] := by unfold fmtC; rw [if_pos (by omega)]
  refine ⟨hd, a + 1, 58 :: t :: (fmtD i ++ Q), ?_, hh, Or.inr rfl⟩
  rw [e, List.replicate_succ, List.cons_append, ← replicate13_cons]
  simp [elemKey, hc]

theorem KeyShape_storeKey (c : Kind) (hc : c ≠ .slice) (r : Bytes) :
    KeyShape r (storeKey c r) := by
  by_cases h8 : c = .int8
  · subst h8
    exact ⟨[], 0, [], by simp [storeKey], Or.inl rfl, Or.inl rfl⟩
  · rw [storeKey_of_ne_int8 c h8]
    exact ⟨[c.tag], 0, [], by simp,
      Or.inr (Or.inl ⟨c.tag, rfl, fun h => hc (Kind.tag_injective c .slice h)⟩), Or.inl rfl⟩

theorem KeyShape_lenKey (r : Bytes) : KeyShape r (9 :: 108 :: 13 :: r) :=
  ⟨[9, 108], 1, [], by simp, Or.inr (Or.inr (Or.inl rfl)), Or.inl rfl⟩

theorem KeyShape_tagKey (r : Bytes) : KeyShape r (14 :: 116 :: 13 :: r) :=
  ⟨[14, 116], 1, [], by simp, Or.inr (Or.inr (Or.inr rfl)), Or.inl rfl⟩

theorem KeyShape_length (r K : Bytes) (h : KeyShape r K) : r.length ≤ K.length := by
  obtain ⟨hd, a, Q, e, -, -⟩ := h
  rw [e]
  simp only [List.length_append]
  omega

theorem elemKey_length (key : Bytes) (t i : Nat) (ht : t < 15) :
    key.length + 3 ≤ (elemKey key t i).length := by
  have hc : fmtC t = [t] := by unfold fmtC; rw [if_pos (by omega)]
  have := List.length_pos.2 (fmtD_ne_nil i)
  simp only [elemKey, hc, List.length_append, List.length_singleton]
  omega

theorem KeyShape_elemKey_ne_meta (r K : Bytes) (t i a b : Nat) (ht : t < 15)
    (h : KeyShape (elemKey (13 :: r) t i) K) : K ≠ a :: b :: 13 :: r := by
  intro e
  have h1 := KeyShape_length _ _ h
  have h2 := elemKey_length (13 :: r) t i ht
  rw [e] at h1
  simp only [List.length_cons] at h1 h2
  omega

theorem scalar_persist_calls (S : Storager σ) (p : Persistent) (hp : p.kind ≠ .slice)
    (st : σ) (log : List (Bytes × Bytes)) (r : Bytes) :
    ∃ calls, p.Persist (recording S) (st, log) r
        = (((p.Persist S st r).1, log ++ calls), (p.Persist S st r).2) ∧
      replay S st calls = (p.Persist S st r).1 ∧
      (calls.map Prod.fst).Nodup ∧ ∀ K ∈ calls.map Prod.fst, KeyShape r K := by
  refine ⟨[(storeKey p.kind r, p.payload)], ?_, ?_, by simp, ?_⟩
  · rw [scalar_persist_eq _ p hp, scalar_persist_eq _ p hp]; rfl
  · rw [scalar_persist_eq _ p hp]; rfl
  · intro K hK
    simp only [List.map_cons, List.map_nil, List.mem_singleton] at hK
    subst hK
    exact KeyShape_storeKey _ hp r

/-- The two metadata keys of a list are distinct from each other and from the
keys saved for its elements. -/
theorem meta_calls (r : Bytes) (t idx n : Nat) (ht : t < 15) (c1 : List (Bytes × Bytes))
    (v1 v2 : Bytes) (hn : (c1.map Prod.fst).Nodup)
    (hk : ∀ K ∈ c1.map Prod.fst,
      ∃ i, idx ≤ i ∧ i < idx + n ∧ KeyShape (elemKey (13 :: r) t i) K) :
    ((c1 ++ [(9 :: 108 :: 13 :: r, v1), (14 :: 116 :: 13 :: r, v2)]).map Prod.fst).Nodup ∧
    ∀ K ∈ (c1 ++ [(9 :: 108 :: 13 :: r, v1), (14 :: 116 :: 13 :: r, v2)]).map Prod.fst,
      KeyShape r K := by
  constructor
  · rw [List.map_append, List.nodup_append]
    refine ⟨hn, by simp, ?_⟩
    intro K hK1 hK2
    obtain ⟨i, -, -, hi⟩ := hk K hK1
    simp only [List.map_cons, List.map_nil, List.mem_cons, List.mem_singleton,
      List.not_mem_nil, or_false] at hK2
    rcases hK2 with hK2 | hK2
    · exact KeyShape_elemKey_ne_meta r K t i 9 108 ht hi hK2
    · exact KeyShape_elemKey_ne_meta r K t i 14 116 ht hi hK2
  · intro K hK
    simp only [List.map_append, List.map_cons, List.map_nil, List.mem_append, List.mem_cons,
      List.mem_singleton, List.not_mem_nil, or_false] at hK
    rcases hK with hK | hK | hK
    · obtain ⟨i, -, -, hi⟩ := hk K hK
      exact KeyShape_elemKey r K t i ht hi
    · exact hK ▸ KeyShape_lenKey r
    · exact hK ▸ KeyShape_tagKey r

theorem meta_calls_len (r : Bytes) (t idx n : Nat) (ht : t < 15) (c1 : List (Bytes × Bytes))
    (v1 : Bytes) (hn : (c1.map Prod.fst).Nodup)
    (hk : ∀ K ∈ c1.map Prod.fst,
      ∃ i, idx ≤ i ∧ i < idx + n ∧ KeyShape (elemKey (13 :: r) t i) K) :
    ((c1 ++ [(9 :: 108 :: 13 :: r, v1)]).map Prod.fst).Nodup ∧
    ∀ K ∈ (c1 ++ [(9 :: 108 :: 13 :: r, v1)]).map Prod.fst, KeyShape r K := by
  obtain ⟨h1, h2⟩ := meta_calls r t idx n ht c1 v1 [] hn hk
  have hs : ((c1 ++ [(9 :: 108 :: 13 :: r, v1)]).map Prod.fst).Sublist
      ((c1 ++ [(9 :: 108 :: 13 :: r, v1), (14 :: 116 :: 13 :: r, [])]).map Prod.fst) := by
    apply List.Sublist.map
    exact List.Sublist.append (List.Sublist.refl c1) (by simp)
  exact ⟨h1.sublist hs, fun K hK => h2 K (hs.subset hK)⟩

mutual
/-- The store that a `Persist` leaves is the store after the `Save` calls it
made, in order; their keys are pairwise distinct and have the shape of a key
under the raw key. -/
theorem persist_calls (S : Storager σ) :
    ∀ (p : Persistent) (st : σ) (log : List (Bytes × Bytes)) (r : Bytes),
      ∃ calls, p.Persist (recording S) (st, log) r
          = (((p.Persist S st r).1, log ++ calls), (p.Persist S st r).2) ∧
        replay S st calls = (p.Persist S st r).1 ∧
        (calls.map Prod.fst).Nodup ∧ ∀ K ∈ calls.map Prod.fst, KeyShape r K
  | .slice ps, st, log, r => by
    obtain ⟨c1, h1, h2, h3, h4⟩ :=
      tasks_calls S ps st log r (elemPrefix ps) 0 (elemPrefix_lt ps)
    rw [Persistent_Persist_slice, Persistent_Persist_slice]
    simp only [PersistentSlice.Persist, PersistentSlice.Persist.finish, PersistentUint64.Persist,
      PersistentByte.Persist, PersistentSlicePrefix, PersistentUint64Prefix,
      PersistentBytePrefix, h1]
    simp only [recording]
    generalize PersistentSlice.Persist.tasks S ps st (13 :: r) (elemPrefix ps) 0 = g at h2 ⊢
    obtain ⟨m1, m2⟩ := meta_calls r (elemPrefix ps) 0 ps.length (elemPrefix_lt ps) c1
      (putLE 8 (ps.length % 2 ^ 64)) [elemPrefix ps % 256] h3 h4
    obtain ⟨n1, n2⟩ := meta_calls_len r (elemPrefix ps) 0 ps.length (elemPrefix_lt ps) c1
      (putLE 8 (ps.length % 2 ^ 64)) h3 h4
    cases hl : (S.Save g.1 (9 :: 108 :: 13 :: r) (putLE 8 (ps.length % 2 ^ 64))).2 with
    | some e =>
      refine ⟨c1 ++ [(9 :: 108 :: 13 :: r, putLE 8 (ps.length % 2 ^ 64))], ?_, ?_, n1, n2⟩
      · simp
      · rw [replay_append, h2]; rfl
    | none =>
      cases ht : (S.Save (S.Save g.1 (9 :: 108 :: 13 :: r) (putLE 8 (ps.length % 2 ^ 64))).1
          (14 :: 116 :: 13 :: r) [elemPrefix ps % 256]).2 with
      | some e =>
        refine ⟨c1 ++ [(9 :: 108 :: 13 :: r, putLE 8 (ps.length % 2 ^ 64)),
          (14 :: 116 :: 13 :: r, [elemPrefix ps % 256])], ?_, ?_, m1, m2⟩
        · simp
        · rw [replay_append, h2]; rfl
      | none =>
        refine ⟨c1 ++ [(9 :: 108 :: 13 :: r, putLE 8 (ps.length % 2 ^ 64)),
          (14 :: 116 :: 13 :: r, [elemPrefix ps % 256])], ?_, ?_, m1, m2⟩
        · simp
        · rw [replay_append, h2]; rfl
  | .bool v, st, log, r => scalar_persist_calls S (.bool v) (by simp [Persistent.kind]) st log r
  | .int8 v, st, log, r => scalar_persist_calls S (.int8 v) (by simp [Persistent.kind]) st log r
  | .int16 v, st, log, r => scalar_persist_calls S (.int16 v) (by simp [Persistent.kind]) st log r
  | .int32 v, st, log, r => scalar_persist_calls S (.int32 v) (by simp [Persistent.kind]) st log r
  | .int64 v, st, log, r => scalar_persist_calls S (.int64 v) (by simp [Persistent.kind]) st log r
  | .uint8 v, st, log, r => scalar_persist_calls S (.uint8 v) (by simp [Persistent.kind]) st log r
  | .uint16 v, st, log, r =>
    scalar_persist_calls S (.uint16 v) (by simp [Persistent.kind]) st log r
  | .uint32 v, st, log, r =>
    scalar_persist_calls S (.uint32 v) (by simp [Persistent.kind]) st log r
  | .uint64 v, st, log, r =>
    scalar_persist_calls S (.uint64 v) (by simp [Persistent.kind]) st log r
  | .float32 v, st, log, r =>
    scalar_persist_calls S (.float32 v) (by simp [Persistent.kind]) st log r
  | .float64 v, st, log, r =>
    scalar_persist_calls S (.float64 v) (by simp [Persistent.kind]) st log r
  | .string v, st, log, r =>
    scalar_persist_calls S (.string v) (by simp [Persistent.kind]) st log r
  | .byte v, st, log, r => scalar_persist_calls S (.byte v) (by simp [Persistent.kind]) st log r
/-- The store that the element tasks leave is the store after the `Save` calls
they made, in order; their keys are pairwise distinct, each with the shape of a
key under the key of one of the elements. -/
theorem tasks_calls (S : Storager σ) :
    ∀ (ps : List Persistent) (st : σ) (log : List (Bytes × Bytes)) (k : Bytes) (t idx : Nat),
      t < 15 →
      ∃ calls, PersistentSlice.Persist.tasks (recording S) ps (st, log) (13 :: k) t idx
          = (((PersistentSlice.Persist.tasks S ps st (13 :: k) t idx).1, log ++ calls),
              (PersistentSlice.Persist.tasks S ps st (13 :: k) t idx).2) ∧
        replay S st calls = (PersistentSlice.Persist.tasks S ps st (13 :: k) t idx).1 ∧
        (calls.map Prod.fst).Nodup ∧
        ∀ K ∈ calls.map Prod.fst,
          ∃ i, idx ≤ i ∧ i < idx + ps.length ∧ KeyShape (elemKey (13 :: k) t i) K
  | [], st, log, k, t, idx, _ =>
    ⟨[], by simp [PersistentSlice.Persist.tasks], rfl, by simp, by simp⟩
  | p :: ps, st, log, k, t, idx, ht => by
    obtain ⟨c1, h1, h2, h3, h4⟩ := persist_calls S p st log (elemKey (13 :: k) t idx)
    obtain ⟨c2, h5, h6, h7, h8⟩ := tasks_calls S ps
      (p.Persist S st (elemKey (13 :: k) t idx)).1 (log ++ c1) k t (idx + 1) ht
    refine ⟨c1 ++ c2, ?_, ?_, ?_, ?_⟩
    · simp only [PersistentSlice.Persist.tasks, h1, h5, List.append_assoc]
    · simp only [PersistentSlice.Persist.tasks]
      rw [replay_append, h2, h6]
    · rw [List.map_append, List.nodup_append]
      refine ⟨h3, h7, ?_⟩
      intro K hK1 hK2
      obtain ⟨i, hi1, -, hi⟩ := h8 K hK2
      have := KeyShape_elemKey_unique k K t idx i ht (h4 K hK1) hi
      omega
    · intro K hK
      rw [List.map_append, List.mem_append] at hK
      rcases hK with hK | hK
      · exact ⟨idx, le_refl _, by simp, h4 K hK⟩
      · obtain ⟨i, hi1, hi2, hi⟩ := h8 K hK
        exact ⟨i, by omega, by simp only [List.length_cons]; omega, hi⟩
end

theorem replay_frame (S : Storager σ) (hS : S.SaveKeeps) (calls : List (Bytes × Bytes)) (s : σ)
    (K : Bytes) (h : K ∉ calls.map Prod.fst) : S.Load (replay S s calls) K = S.Load s K := by
  induction calls generalizing s with
  | nil => rfl
  | cons c cs ih =>
    simp only [List.map_cons, List.mem_cons, not_or] at h
    have : replay S s (c :: cs) = replay S (S.Save s c.1 c.2).1 cs := rfl
    rw [this, ih _ h.2]
    exact (hS s c.1 c.2).2 K h.1

/-- Over a store that keeps what it saved, an entry saved with success by one
of a sequence of `Save` calls under pairwise distinct keys is in the final
store. -/
theorem replay_keeps (S : Storager σ) (hS : S.SaveKeeps) (s : σ) (c1 c2 : List (Bytes × Bytes))
    (kv : Bytes × Bytes) (hn : ((c1 ++ kv :: c2).map Prod.fst).Nodup)
    (hok : (S.Save (replay S s c1) kv.1 kv.2).2 = none) :
    S.Load (replay S s (c1 ++ kv :: c2)) kv.1 = .ok kv.2 := by
  rw [replay_append]
  have : replay S (replay S s c1) (kv :: c2)
      = replay S (S.Save (replay S s c1) kv.1 kv.2).1 c2 := rfl
  rw [this, replay_frame S hS c2 _ kv.1]
  · exact (hS _ kv.1 kv.2).1 hok
  · rw [List.map_append, List.nodup_append] at hn
    have := hn.2.1
    simp only [List.map_cons, List.nodup_cons] at this
    exact this.1

theorem readAfterWrite_saveKeeps (S : Storager σ) (hS : S.ReadAfterWrite) : S.SaveKeeps := by
  intro s k v
  refine ⟨fun _ => ?_, fun k2 h => ?_⟩
  · rw [(hS s k v).2 k, if_pos rfl]
  · rw [(hS s k v).2 k2, if_neg h]

/-- The keys saved under a schedule are pairwise distinct and have the shape
of a key under the raw key: those of the tasks of the three parts, whose
indices differ, and the two metadata keys. -/
theorem sched_keys (r : Bytes) (t n1 n2 n3 : Nat) (ht : t < 15)
    (c1 c2 c3 : List (Bytes × Bytes)) (v1 v2 : Bytes)
    (hn1 : (c1.map Prod.fst).Nodup) (hn2 : (c2.map Prod.fst).Nodup)
    (hn3 : (c3.map Prod.fst).Nodup)
    (hk1 : ∀ K ∈ c1.map Prod.fst, ∃ i, 0 ≤ i ∧ i < 0 + n1 ∧ KeyShape (elemKey (13 :: r) t i) K)
    (hk2 : ∀ K ∈ c2.map Prod.fst,
      ∃ i, n1 ≤ i ∧ i < n1 + n2 ∧ KeyShape (elemKey (13 :: r) t i) K)
    (hk3 : ∀ K ∈ c3.map Prod.fst,
      ∃ i, n1 + n2 ≤ i ∧ i < n1 + n2 + n3 ∧ KeyShape (elemKey (13 :: r) t i) K) :
    ((c1 ++ (9 :: 108 :: 13 :: r, v1) :: (c2 ++ (14 :: 116 :: 13 :: r, v2) :: c3)).map
      Prod.fst).Nodup ∧
    ∀ K ∈ (c1 ++ (9 :: 108 :: 13 :: r, v1) :: (c2 ++ (14 :: 116 :: 13 :: r, v2) :: c3)).map
      Prod.fst, KeyShape r K := by
  have m1 : ∀ K ∈ c1.map Prod.fst, K ≠ 9 :: 108 :: 13 :: r ∧ K ≠ 14 :: 116 :: 13 :: r := by
    intro K hK
    obtain ⟨i, -, -, hi⟩ := hk1 K hK
    exact ⟨KeyShape_elemKey_ne_meta r K t i 9 108 ht hi,
      KeyShape_elemKey_ne_meta r K t i 14 116 ht hi⟩
  have m2 : ∀ K ∈ c2.map Prod.fst, K ≠ 9 :: 108 :: 13 :: r ∧ K ≠ 14 :: 116 :: 13 :: r := by
    intro K hK
    obtain ⟨i, -, -, hi⟩ := hk2 K hK
    exact ⟨KeyShape_elemKey_ne_meta r K t i 9 108 ht hi,
      KeyShape_elemKey_ne_meta r K t i 14 116 ht hi⟩
  have m3 : ∀ K ∈ c3.map Prod.fst, K ≠ 9 :: 108 :: 13 :: r ∧ K ≠ 14 :: 116 :: 13 :: r := by
    intro K hK
    obtain ⟨i, -, -, hi⟩ := hk3 K hK
    exact ⟨KeyShape_elemKey_ne_meta r K t i 9 108 ht hi,
      KeyShape_elemKey_ne_meta r K t i 14 116 ht hi⟩
  have d12 : ∀ K, K ∈ c1.map Prod.fst → K ∈ c2.map Prod.fst → False := by
    intro K h1 h2
    obtain ⟨i, -, hi2, hi⟩ := hk1 K h1
    obtain ⟨j, hj1, -, hj⟩ := hk2 K h2
    have := KeyShape_elemKey_unique r K t i j ht hi hj
    omega
  have d13 : ∀ K, K ∈ c1.map Prod.fst → K ∈ c3.map Prod.fst → False := by
    intro K h1 h2
    obtain ⟨i, -, hi2, hi⟩ := hk1 K h1
    obtain ⟨j, hj1, -, hj⟩ := hk3 K h2
    have := KeyShape_elemKey_unique r K t i j ht hi hj
    omega
  have d23 : ∀ K, K ∈ c2.map Prod.fst → K ∈ c3.map Prod.fst → False := by
    intro K h1 h2
    obtain ⟨i, -, hi2, hi⟩ := hk2 K h1
    obtain ⟨j, hj1, -, hj⟩ := hk3 K h2
    have := KeyShape_elemKey_unique r K t i j ht hi hj
    omega
  simp only [List.map_append, List.map_cons]
  constructor
  · rw [List.nodup_append]
    refine ⟨hn1, ?_, ?_⟩
    · rw [List.nodup_cons]
      refine ⟨?_, ?_⟩
      · simp only [List.mem_append, List.mem_cons]
        rintro (h | h | h)
        · exact (m2 _ h).1 rfl
        · simp at h
        · exact (m3 _ h).1 rfl
      · rw [List.nodup_append]
        refine ⟨hn2, ?_, ?_⟩
        · rw [List.nodup_cons]
          exact ⟨fun h => (m3 _ h).2 rfl, hn3⟩
        · intro K h2 h3
          rcases List.mem_cons.1 h3 with h3 | h3
          · exact (m2 K h2).2 h3
          · exact d23 K h2 h3
    · intro K h1 h
      simp only [List.mem_append, List.mem_cons] at h
      rcases h with h | h | h | h
      · exact (m1 K h1).1 h
      · exact d12 K h1 h
      · exact (m1 K h1).2 h
      · exact d13 K h1 h
  · intro K hK
    simp only [List.mem_append, List.mem_cons] at hK
    rcases hK with hK | hK | hK | hK | hK
    · obtain ⟨i, -, -, hi⟩ := hk1 K hK
      exact KeyShape_elemKey r K t i ht hi
    · exact hK ▸ KeyShape_lenKey r
    · obtain ⟨i, -, -, hi⟩ := hk2 K hK
      exact KeyShape_elemKey r K t i ht hi
    · exact hK ▸ KeyShape_tagKey r
    · obtain ⟨i, -, -, hi⟩ := hk3 K hK
      exact KeyShape_elemKey r K t i ht hi

theorem recording_Save (S : Storager σ) (st : σ × List (Bytes × Bytes)) (k v : Bytes) :
    (recording S).Save st k v
      = (((S.Save st.1 k v).1, st.2 ++ [(k, v)]), (S.Save st.1 k v).2) := rfl

mutual
/-- The store that a `Persist` under a schedule leaves is the store after the
`Save` calls it made, in order; their keys are pairwise distinct and have the
shape of a key under the raw key. -/
theorem sched_persist_calls (S : Storager σ) :
    ∀ (p : Scheduled) (st : σ) (log : List (Bytes × Bytes)) (r : Bytes),
      ∃ calls, p.Persist (recording S) (st, log) r
          = (((p.Persist S st r).1, log ++ calls), (p.Persist S st r).2) ∧
        replay S st calls = (p.Persist S st r).1 ∧
        (calls.map Prod.fst).Nodup ∧ ∀ K ∈ calls.map Prod.fst, KeyShape r K
  | .value p, st, log, r => by
    simpa only [Scheduled.Persist] using persist_calls S p st log r
  | .slice ps1 ps2 ps3, st, log, r => by
    have ht := elemPrefix_lt
      (Scheduled.toList ps1 ++ Scheduled.toList ps2 ++ Scheduled.toList ps3)
    simp only [Scheduled.Persist, PersistentUint64.Persist,
      PersistentByte.Persist, PersistentSlicePrefix, PersistentUint64Prefix,
      PersistentBytePrefix]
    generalize elemPrefix
      (Scheduled.toList ps1 ++ Scheduled.toList ps2 ++ Scheduled.toList ps3) = t at ht ⊢
    generalize putLE 8
      ((Scheduled.toList ps1 ++ Scheduled.toList ps2 ++ Scheduled.toList ps3).length % 2 ^ 64)
      = v1
    generalize [t % 256] = v2
    obtain ⟨c1, h1, h2, h3, h4⟩ := sched_tasks_calls S ps1 st log r t 0 ht
    simp only [h1, recording_Save]
    generalize Scheduled.tasks S ps1 st (13 :: r) t 0 = g1 at h2 ⊢
    cases hl : (S.Save g1.1 (9 :: 108 :: 13 :: r) v1).2 with
    | some e =>
      obtain ⟨n1, n2⟩ := meta_calls_len r t 0 ps1.length ht c1 v1 h3 h4
      refine ⟨c1 ++ [(9 :: 108 :: 13 :: r, v1)], by simp, ?_, n1, n2⟩
      rw [replay_append, h2]; rfl
    | none =>
      obtain ⟨c2, h5, h6, h7, h8⟩ := sched_tasks_calls S ps2
        (S.Save g1.1 (9 :: 108 :: 13 :: r) v1).1
        (log ++ c1 ++ [(9 :: 108 :: 13 :: r, v1)]) r t ps1.length ht
      simp only [h5, recording_Save]
      generalize Scheduled.tasks S ps2 (S.Save g1.1 (9 :: 108 :: 13 :: r) v1).1
        (13 :: r) t ps1.length = g2 at h6 ⊢
      cases hg : (S.Save g2.1 (14 :: 116 :: 13 :: r) v2).2 with
      | some e =>
        obtain ⟨n1, n2⟩ := sched_keys r t ps1.length ps2.length 0 ht c1 c2 [] v1 v2 h3 h7
          (by simp) h4 h8 (by simp)
        refine ⟨c1 ++ (9 :: 108 :: 13 :: r, v1) :: (c2 ++ (14 :: 116 :: 13 :: r, v2) :: []),
          by simp, ?_, n1, n2⟩
        rw [replay_append, h2]
        show replay S (S.Save g1.1 _ v1).1 (c2 ++ [(14 :: 116 :: 13 :: r, v2)]) = _
        rw [replay_append, h6]; rfl
      | none =>
        obtain ⟨c3, h9, h10, h11, h12⟩ := sched_tasks_calls S ps3
          (S.Save g2.1 (14 :: 116 :: 13 :: r) v2).1
          (log ++ c1 ++ [(9 :: 108 :: 13 :: r, v1)] ++ c2 ++ [(14 :: 116 :: 13 :: r, v2)]) r
          t (ps1.length + ps2.length) ht
        simp only [h9]
        obtain ⟨n1, n2⟩ := sched_keys r t ps1.length ps2.length ps3.length ht c1 c2 c3 v1 v2
          h3 h7 h11 h4 h8 h12
        refine ⟨c1 ++ (9 :: 108 :: 13 :: r, v1) :: (c2 ++ (14 :: 116 :: 13 :: r, v2) :: c3),
          by simp, ?_, n1, n2⟩
        rw [replay_append, h2]
        show replay S (S.Save g1.1 _ v1).1 (c2 ++ (14 :: 116 :: 13 :: r, v2) :: c3) = _
        rw [replay_append, h6]
        exact h10
/-- The store that the element tasks of one part of a schedule leave is the
store after the `Save` calls they made, in order; their keys are pairwise
distinct, each with the shape of a key under the key of one of the elements. -/
theorem sched_tasks_calls (S : Storager σ) :
    ∀ (ps : List Scheduled) (st : σ) (log : List (Bytes × Bytes)) (k : Bytes) (t idx : Nat),
      t < 15 →
      ∃ calls, Scheduled.tasks (recording S) ps (st, log) (13 :: k) t idx
          = (((Scheduled.tasks S ps st (13 :: k) t idx).1, log ++ calls),
              (Scheduled.tasks S ps st (13 :: k) t idx).2) ∧
        replay S st calls = (Scheduled.tasks S ps st (13 :: k) t idx).1 ∧
        (calls.map Prod.fst).Nodup ∧
        ∀ K ∈ calls.map Prod.fst,
          ∃ i, idx ≤ i ∧ i < idx + ps.length ∧ KeyShape (elemKey (13 :: k) t i) K
  | [], st, log, k, t, idx, _ =>
    ⟨[], by simp [Scheduled.tasks], rfl, by simp, by simp⟩
  | p :: ps, st, log, k, t, idx, ht => by
    obtain ⟨c1, h1, h2, h3, h4⟩ := sched_persist_calls S p st log (elemKey (13 :: k) t idx)
    obtain ⟨c2, h5, h6, h7, h8⟩ := sched_tasks_calls S ps
      (p.Persist S st (elemKey (13 :: k) t idx)).1 (log ++ c1) k t (idx + 1) ht
    refine ⟨c1 ++ c2, ?_, ?_, ?_, ?_⟩
    · simp only [Scheduled.tasks, h1, h5, List.append_assoc]
    · simp only [Scheduled.tasks]
      rw [replay_append, h2, h6]
    · rw [List.map_append, List.nodup_append]
      refine ⟨h3, h7, ?_⟩
      intro K hK1 hK2
      obtain ⟨i, hi1, -, hi⟩ := h8 K hK2
      have := KeyShape_elemKey_unique k K t idx i ht (h4 K hK1) hi
      omega
    · intro K hK
      rw [List.map_append, List.mem_append] at hK
      rcases hK with hK | hK
      · exact ⟨idx, le_refl _, by simp, h4 K hK⟩
      · obtain ⟨i, hi1, hi2, hi⟩ := h8 K hK
        exact ⟨i, by omega, by simp only [List.length_cons]; omega, hi⟩
end

theorem sched_tasks_err_iff (S : Storager σ) (ps : List Scheduled) (s : σ) (key : Bytes)
    (t idx : Nat) :
    (Scheduled.tasks S ps s key t idx).2 = none ↔
      ∀ e ∈ Scheduled.taskErrs S ps s key t idx, e = none := by
  induction ps generalizing s idx with
  | nil => simp [Scheduled.tasks, Scheduled.taskErrs]
  | cons p ps ih =>
    simp only [Scheduled.tasks, Scheduled.taskErrs, List.mem_cons, forall_eq_or_imp]
    rw [← ih]
    cases (p.Persist S s (elemKey key t idx)).2 <;> simp [firstErr]

theorem sched_taskErrs_length (S : Storager σ) (ps : List Scheduled) (s : σ) (key : Bytes)
    (t idx : Nat) : (Scheduled.taskErrs S ps s key t idx).length = ps.length := by
  induction ps generalizing s idx with
  | nil => rfl
  | cons p ps ih => simp [Scheduled.taskErrs, ih]

theorem toList_length (ps : List Scheduled) : (Scheduled.toList ps).length = ps.length := by
  induction ps with
  | nil => rfl
  | cons p ps ih => simp [Scheduled.toList, ih]

theorem toList_value (ps : List Persistent) :
    Scheduled.toList (ps.map Scheduled.value) = ps := by
  induction ps with
  | nil => rfl
  | cons p ps ih => simp [Scheduled.toList, Scheduled.toPersistent, ih]

theorem sched_tasks_value (S : Storager σ) (ps : List Persistent) (s : σ) (key : Bytes)
    (t idx : Nat) :
    Scheduled.tasks S (ps.map Scheduled.value) s key t idx
      = PersistentSlice.Persist.tasks S ps s key t idx := by
  induction ps generalizing s idx with
  | nil => rfl
  | cons p ps ih =>
    simp [Scheduled.tasks, Scheduled.Persist, PersistentSlice.Persist.tasks, ih]

/-- With every element task finished ahead of the metadata writes, the method
under a schedule is `PersistentSlice.Persist`. -/
theorem sched_all_first (S : Storager σ) (ps : List Persistent) (s : σ) (k : Bytes) :
    PersistentSlice.PersistSched S (ps.map Scheduled.value) [] [] s k
      = PersistentSlice.Persist S ps s k := by
  simp only [PersistentSlice.PersistSched, Scheduled.Persist, PersistentSlice.Persist,
    PersistentSlice.Persist.finish, Scheduled.tasks, Scheduled.toList, List.append_nil,
    toList_value, sched_tasks_value]
  cases (PersistentUint64.Persist S ps.length
      (PersistentSlice.Persist.tasks S ps s (PersistentSlicePrefix :: k) (elemPrefix ps) 0).1
      (108 :: PersistentSlicePrefix :: k)).2 with
  | some e => rfl
  | none =>
    cases (PersistentByte.Persist S (elemPrefix ps)
        (PersistentUint64.Persist S ps.length
          (PersistentSlice.Persist.tasks S ps s (PersistentSlicePrefix :: k) (elemPrefix ps) 0).1
          (108 :: PersistentSlicePrefix :: k)).1
        (116 :: PersistentSlicePrefix :: k)).2 with
    | some e => rfl
    | none =>
      cases (PersistentSlice.Persist.tasks S ps s (PersistentSlicePrefix :: k)
        (elemPrefix ps) 0).2 <;> rfl

theorem sched_err_iff (S : Storager σ) (ps1 ps2 ps3 : List Scheduled) (s : σ) (k : Bytes) :
    (PersistentSlice.PersistSched S ps1 ps2 ps3 s k).2 = none ↔
      (∀ e ∈ PersistentSlice.PersistSched.elemErrs S ps1 ps2 ps3 s k, e = none) ∧
      (PersistentSlice.PersistSched.lenWrite S ps1 ps2 ps3 s k).2 = none ∧
      (PersistentSlice.PersistSched.tagWrite S ps1 ps2 ps3 s k).2 = none := by
  simp only [PersistentSlice.PersistSched.elemErrs, List.mem_append, or_imp, forall_and,
    ← sched_tasks_err_iff]
  simp only [PersistentSlice.PersistSched, Scheduled.Persist,
    PersistentSlice.PersistSched.tagWrite, PersistentSlice.PersistSched.lenWrite,
    PersistentSlice.PersistSched.iPrefix, PersistentSlicePrefix]
  generalize elemPrefix
    (Scheduled.toList ps1 ++ Scheduled.toList ps2 ++ Scheduled.toList ps3) = t
  generalize (Scheduled.toList ps1 ++ Scheduled.toList ps2 ++ Scheduled.toList ps3).length = n
  generalize Scheduled.tasks S ps1 s (13 :: k) t 0 = g1
  cases hl : (PersistentUint64.Persist S n g1.1 (108 :: 13 :: k)).2 with
  | some e => simp
  | none =>
    generalize Scheduled.tasks S ps2 (PersistentUint64.Persist S n g1.1 (108 :: 13 :: k)).1
      (13 :: k) t ps1.length = g2
    cases ht : (PersistentByte.Persist S t g2.1 (116 :: 13 :: k)).2 with
    | some e => simp
    | none =>
      cases g1.2 <;> cases g2.2 <;> simp [firstErr]

theorem failingStorager_saveKeeps (bad : Bytes) : (failingStorager bad).SaveKeeps := by
  intro s k v
  by_cases h : k = bad
  · refine ⟨fun hn => ?_, fun k2 _ => ?_⟩
    · simp [failingStorager, h] at hn
    · simp [failingStorager, h]
  · obtain ⟨-, h2⟩ := testStorager_readAfterWrite s k v
    refine ⟨fun _ => ?_, fun k2 hk => ?_⟩
    · have := h2 k
      simpa [failingStorager, h, testStorager] using this
    · have := h2 k2
      simpa [failingStorager, h, testStorager, hk] using this

/-- C18. Errors of `PersistentSlice.Persist` over a store whose `Save` may
fail, for every list, raw key, `Storager`, store state and schedule of the
element tasks around the two metadata writes, in the list and in the lists
nested in it (`ps1` before the length write, `ps2` before the element-tag
write, `ps3` after it; with all the tasks first this is
`PersistentSlice.Persist`). There is one result per element; `Persist` returns
nil exactly when every element's `Persist` returned nil and the length write
and the element-tag write both returned nil, and an error otherwise. The store
it leaves, error or not, is the store after the `Save` calls made by then, in
order, and these calls have pairwise distinct keys: no entry is written twice,
so none is undone or replaced. Hence, over a store that keeps what it saved,
the entry of every `Save` that reported no error is loaded from the store that
`Persist` leaves. -/
theorem slice_persist_errors (S : Storager σ) (ps1 ps2 ps3 : List Scheduled) (s : σ)
    (k : Bytes) :
    (∀ ps : List Persistent, PersistentSlice.PersistSched S (ps.map Scheduled.value) [] [] s k
      = PersistentSlice.Persist S ps s k) ∧
    (PersistentSlice.PersistSched.elemErrs S ps1 ps2 ps3 s k).length
      = (Scheduled.toList ps1 ++ Scheduled.toList ps2 ++ Scheduled.toList ps3).length ∧
    ((PersistentSlice.PersistSched S ps1 ps2 ps3 s k).2 = none ↔
      (∀ e ∈ PersistentSlice.PersistSched.elemErrs S ps1 ps2 ps3 s k, e = none) ∧
      (PersistentSlice.PersistSched.lenWrite S ps1 ps2 ps3 s k).2 = none ∧
      (PersistentSlice.PersistSched.tagWrite S ps1 ps2 ps3 s k).2 = none) ∧
    replay S s (PersistentSlice.PersistSched.saves S ps1 ps2 ps3 s k)
      = (PersistentSlice.PersistSched S ps1 ps2 ps3 s k).1 ∧
    ((PersistentSlice.PersistSched.saves S ps1 ps2 ps3 s k).map Prod.fst).Nodup ∧
    (S.SaveKeeps → ∀ (c1 : List (Bytes × Bytes)) (kv : Bytes × Bytes) (c2 : List (Bytes × Bytes)),
      PersistentSlice.PersistSched.saves S ps1 ps2 ps3 s k = c1 ++ kv :: c2 →
      (S.Save (replay S s c1) kv.1 kv.2).2 = none →
      S.Load (PersistentSlice.PersistSched S ps1 ps2 ps3 s k).1 kv.1 = .ok kv.2) := by
  obtain ⟨calls, h1, h2, h3, -⟩ := sched_persist_calls S (.slice ps1 ps2 ps3) s [] k
  have hs : PersistentSlice.PersistSched.saves S ps1 ps2 ps3 s k = calls := by
    simp only [PersistentSlice.PersistSched.saves, PersistentSlice.PersistSched, h1,
      List.nil_append]
  rw [hs]
  refine ⟨fun ps => sched_all_first S ps s k, ?_, sched_err_iff S ps1 ps2 ps3 s k, h2, h3, ?_⟩
  · simp only [PersistentSlice.PersistSched.elemErrs, List.length_append,
      sched_taskErrs_length, toList_length]
  · intro hS c1 kv c2 hc hok
    subst hc
    show S.Load (Scheduled.Persist S (.slice ps1 ps2 ps3) s k).1 kv.1 = .ok kv.2
    rw [← h2]
    exact replay_keeps S hS s c1 c2 kv h3 hok

/-- Instance of C18: the list `[-44, 33, 33]` persisted under `"test"` into a
test store whose `Save` fails under the length key, when only the task of
element 0 has finished ahead of the length write: `Persist` returns that error
at once, and the entry of element 0 is in the store it leaves. -/
theorem slice_persist_errors_witness :
    PersistentSlice.PersistSched (failingStorager [9, 108, 13, 116, 101, 115, 116])
        [.value (.int64 (-44))] [.value (.int64 33)] [.value (.int64 33)] [] testKey
      = ([([5, 13, 116, 101, 115, 116, 58, 5, 48], [212, 255, 255, 255, 255, 255, 255, 255])],
        some (.storager "save failed")) ∧
    (failingStorager [9, 108, 13, 116, 101, 115, 116]).Load
        (PersistentSlice.PersistSched (failingStorager [9, 108, 13, 116, 101, 115, 116])
          [.value (.int64 (-44))] [.value (.int64 33)] [.value (.int64 33)] [] testKey).1
        [5, 13, 116, 101, 115, 116, 58, 5, 48]
      = .ok [212, 255, 255, 255, 255, 255, 255, 255] :=
  ⟨by decide,
    (slice_persist_errors (failingStorager [9, 108, 13, 116, 101, 115, 116])
      [.value (.int64 (-44))] [.value (.int64 33)] [.value (.int64 33)] [] testKey).2.2.2.2.2
      (failingStorager_saveKeeps _) []
      ([5, 13, 116, 101, 115, 116, 58, 5, 48], [212, 255, 255, 255, 255, 255, 255, 255])
      [([9, 108, 13, 116, 101, 115, 116], [3, 0, 0, 0, 0, 0, 0, 0])] (by decide) (by decide)⟩

/-! ## Lists of mixed kinds -/

theorem elemKey_head (k : Bytes) (t i : Nat) :
    elemKey (13 :: k) t i = 13 :: (k ++ [58] ++ fmtC t ++ fmtD i) := by
  simp [elemKey]

/-- A `Persist` under the raw key `r` changes nothing outside the keys that
have the shape of a key under `r`. -/
theorem persist_frame_shape (S : Storager σ) (hS : S.SaveKeeps) (p : Persistent) (s : σ)
    (r K : Bytes) (h : ¬ KeyShape r K) : S.Load (p.Persist S s r).1 K = S.Load s K := by
  obtain ⟨calls, -, h2, -, h4⟩ := persist_calls S p s [] r
  rw [← h2]
  exact replay_frame S hS calls s K (fun hK => h (h4 K hK))

theorem tasks_frame_shape (S : Storager σ) (hS : S.SaveKeeps) (ps : List Persistent) (s : σ)
    (k : Bytes) (t idx : Nat) (ht : t < 15) (K : Bytes)
    (h : ∀ i, idx ≤ i → i < idx + ps.length → ¬ KeyShape (elemKey (13 :: k) t i) K) :
    S.Load (PersistentSlice.Persist.tasks S ps s (13 :: k) t idx).1 K = S.Load s K := by
  obtain ⟨calls, -, h2, -, h4⟩ := tasks_calls S ps s [] k t idx ht
  rw [← h2]
  refine replay_frame S hS calls s K (fun hK => ?_)
  obtain ⟨i, h1, h3, hi⟩ := h4 K hK
  exact h i h1 h3 hi

theorem scalar_raw_none (S : Storager σ) (hS : S.ReadAfterWrite) (p : Persistent)
    (hp : p.kind ≠ .slice) (s : σ) (r : Bytes) : (p.Persist S s r).2 = none := by
  rw [scalar_persist_eq S p hp]
  exact save_err S hS _ _ _

mutual
/-- Over a read-after-write store every `Persist` returns nil. -/
theorem persist_raw_none (S : Storager σ) (hS : S.ReadAfterWrite) :
    ∀ (p : Persistent) (s : σ) (r : Bytes), (p.Persist S s r).2 = none
  | .slice ps, s, r => by
    rw [Persistent_Persist_slice, PersistentSlice_Persist_eq S hS]
    exact tasks_raw_none S hS ps s (13 :: r) (elemPrefix ps) 0
  | .bool v, s, r => scalar_raw_none S hS (.bool v) (by simp [Persistent.kind]) s r
  | .int8 v, s, r => scalar_raw_none S hS (.int8 v) (by simp [Persistent.kind]) s r
  | .int16 v, s, r => scalar_raw_none S hS (.int16 v) (by simp [Persistent.kind]) s r
  | .int32 v, s, r => scalar_raw_none S hS (.int32 v) (by simp [Persistent.kind]) s r
  | .int64 v, s, r => scalar_raw_none S hS (.int64 v) (by simp [Persistent.kind]) s r
  | .uint8 v, s, r => scalar_raw_none S hS (.uint8 v) (by simp [Persistent.kind]) s r
  | .uint16 v, s, r => scalar_raw_none S hS (.uint16 v) (by simp [Persistent.kind]) s r
  | .uint32 v, s, r => scalar_raw_none S hS (.uint32 v) (by simp [Persistent.kind]) s r
  | .uint64 v, s, r => scalar_raw_none S hS (.uint64 v) (by simp [Persistent.kind]) s r
  | .float32 v, s, r => scalar_raw_none S hS (.float32 v) (by simp [Persistent.kind]) s r
  | .float64 v, s, r => scalar_raw_none S hS (.float64 v) (by simp [Persistent.kind]) s r
  | .string v, s, r => scalar_raw_none S hS (.string v) (by simp [Persistent.kind]) s r
  | .byte v, s, r => scalar_raw_none S hS (.byte v) (by simp [Persistent.kind]) s r
/-- Over a read-after-write store the element tasks return no error. -/
theorem tasks_raw_none (S : Storager σ) (hS : S.ReadAfterWrite) :
    ∀ (ps : List Persistent) (s : σ) (key : Bytes) (t idx : Nat),
      (PersistentSlice.Persist.tasks S ps s key t idx).2 = none
  | [], s, key, t, idx => rfl
  | p :: ps, s, key, t, idx => by
    simp only [PersistentSlice.Persist.tasks, persist_raw_none S hS p s _,
      tasks_raw_none S hS ps _ key t (idx + 1), firstErr]
end

theorem restoreKey_shape (c0 : Kind) (hc0 : c0 ≠ .slice) (r : Bytes) :
    KeyShape r (c0.tag :: r) :=
  ⟨[c0.tag], 0, [], by simp,
    Or.inr (Or.inl ⟨c0.tag, rfl, fun h => hc0 (Kind.tag_injective c0 .slice h)⟩), Or.inl rfl⟩

/-- What the `Persist` of a value under the raw key `r` leaves under the key
that the `Restore` of a scalar of kind `c0` loads for `r`: the payload when the
value has the kind `c0` and this is not `Int8`, and what was there otherwise. -/
theorem elem_load (S : Storager σ) (hS : S.ReadAfterWrite) (c0 : Kind) (hc0 : c0 ≠ .slice)
    (p : Persistent) (s : σ) (r : Bytes) :
    S.Load (p.Persist S s r).1 (c0.tag :: r)
      = if p.kind = c0 ∧ c0 ≠ .int8 then .ok p.payload else S.Load s (c0.tag :: r) := by
  by_cases hp : p.kind = .slice
  · have hne : ¬ (p.kind = c0 ∧ c0 ≠ .int8) := fun h => hc0 (h.1 ▸ hp)
    rw [if_neg hne]
    obtain ⟨ps, rfl⟩ : ∃ ps, p = .slice ps := by
      cases p <;> simp [Persistent.kind] at hp
      exact ⟨_, rfl⟩
    rw [Persistent_Persist_slice, PersistentSlice_Persist_eq S hS ps s r]
    rw [load_save_other S hS _ _ _ _ (fun e => by simpa using congrArg List.length e),
      load_save_other S hS _ _ _ _ (fun e => by simpa using congrArg List.length e)]
    refine tasks_frame_shape S (readAfterWrite_saveKeeps S hS) ps s r _ 0 (elemPrefix_lt ps) _
      (fun i _ _ hi => ?_)
    have h1 := KeyShape_length _ _ hi
    have h2 := elemKey_length (13 :: r) (elemPrefix ps) i (elemPrefix_lt ps)
    simp only [List.length_cons] at h1 h2
    omega
  · rw [scalar_persist_eq S p hp, (hS s _ _).2]
    by_cases h : p.kind = c0 ∧ c0 ≠ .int8
    · rw [if_pos h, if_pos]
      rw [h.1, storeKey_of_ne_int8 c0 h.2]
    · rw [if_neg h, if_neg]
      intro e
      apply h
      by_cases h8 : p.kind = .int8
      · rw [h8] at e
        simp [storeKey] at e
      · rw [storeKey_of_ne_int8 _ h8] at e
        simp only [List.cons.injEq, and_true] at e
        have := Kind.tag_injective _ _ e
        exact ⟨this.symm, this ▸ h8⟩

/-- What the element tasks leave under the key that the restore of element
`idx + j` as a scalar of kind `c0` loads. -/
theorem tasks_load (S : Storager σ) (hS : S.ReadAfterWrite) (c0 : Kind) (hc0 : c0 ≠ .slice)
    (ps : List Persistent) (s : σ) (k : Bytes) (t idx : Nat) (ht : t < 15) (j : Nat)
    (hj : j < ps.length) :
    S.Load (PersistentSlice.Persist.tasks S ps s (13 :: k) t idx).1
        (c0.tag :: elemKey (13 :: k) t (idx + j))
      = if ps[j].kind = c0 ∧ c0 ≠ .int8 then .ok ps[j].payload
        else S.Load s (c0.tag :: elemKey (13 :: k) t (idx + j)) := by
  have hSK := readAfterWrite_saveKeeps S hS
  induction ps generalizing s idx j with
  | nil => simp at hj
  | cons p ps ih =>
    simp only [PersistentSlice.Persist.tasks]
    have hK := restoreKey_shape c0 hc0 (elemKey (13 :: k) t (idx + j))
    cases j with
    | zero =>
      rw [tasks_frame_shape S hSK ps _ k t (idx + 1) ht _ (fun i hi1 _ hi => by
        have := KeyShape_elemKey_unique k _ t (idx + 0) i ht hK hi
        omega)]
      simpa using elem_load S hS c0 hc0 p s (elemKey (13 :: k) t idx)
    | succ j =>
      have h := ih (p.Persist S s (elemKey (13 :: k) t idx)).1 (idx + 1) j (by simpa using hj)
      rw [show idx + 1 + j = idx + (j + 1) by omega] at h
      rw [h]
      simp only [List.getElem_cons_succ]
      rw [persist_frame_shape S hSK p s _ _ (fun hi => by
        have := KeyShape_elemKey_unique k _ t (idx + (j + 1)) idx ht hK hi
        omega)]
theorem restore_of_payload (S : Storager σ) (s : σ) (r : Bytes) (fuel : Nat) (q : Persistent)
    (hq : q.kind ≠ .slice) (h : S.Load s (q.kind.tag :: r) = .ok q.payload) :
    ∃ v, q.kind.empty.Restore S fuel s r = .done v none := by
  cases q
  case slice ps => exact absurd rfl hq
  case bool v =>
    cases v <;> simp only [Persistent.kind, Kind.tag, Persistent.payload, if_true,
        Bool.false_eq_true, if_false] at h <;>
      simp only [Persistent.kind, Kind.empty, Persistent.Restore, PersistentBool.Restore, h,
        Result.map] <;>
      exact ⟨_, rfl⟩
  case string v =>
    simp only [Persistent.kind, Kind.tag, Persistent.payload] at h
    simp only [Persistent.kind, Kind.empty, Persistent.Restore, PersistentString.Restore, h,
      Result.map]
    exact ⟨_, rfl⟩
  case byte v =>
    simp only [Persistent.kind, Kind.tag, Persistent.payload] at h
    simp only [Persistent.kind, Kind.empty, Persistent.Restore, PersistentByte.Restore, h,
      Result.map, List.length_singleton, ne_eq, not_true_eq_false, if_false]
    exact ⟨_, rfl⟩
  all_goals
    simp only [Persistent.kind, Kind.tag, Persistent.payload] at h
    simp only [Persistent.kind, Kind.empty, Persistent.Restore, PersistentInt8.Restore,
      PersistentInt16.Restore, PersistentInt32.Restore, PersistentInt64.Restore,
      PersistentUint8.Restore, PersistentUint16.Restore, PersistentUint32.Restore,
      PersistentUint64.Restore, PersistentFloat32.Restore, PersistentFloat64.Restore, h,
      binaryRead_putLE _ _ (by decide : 0 < 1), binaryRead_putLE _ _ (by decide : 0 < 2),
      binaryRead_putLE _ _ (by decide : 0 < 4), binaryRead_putLE _ _ (by decide : 0 < 8),
      Result.map]
    exact ⟨_, rfl⟩

theorem restore_of_error (S : Storager σ) (s : σ) (r : Bytes) (fuel : Nat) (c : Kind)
    (hc : c ≠ .slice) (e : Error) (h : S.Load s (c.tag :: r) = .error e) :
    c.empty.Restore S fuel s r = .done c.empty (some e) := by
  cases c <;>
    first
    | exact absurd rfl hc
    | (simp only [Kind.tag] at h
       simp only [Kind.empty, Persistent.Restore, PersistentBool.Restore, PersistentInt8.Restore,
         PersistentInt16.Restore, PersistentInt32.Restore, PersistentInt64.Restore,
         PersistentUint8.Restore, PersistentUint16.Restore, PersistentUint32.Restore,
         PersistentUint64.Restore, PersistentFloat32.Restore, PersistentFloat64.Restore,
         PersistentString.Restore, PersistentByte.Restore, h, Result.map])

theorem newElem_tag (c : Kind) : newElem c.tag = some c.empty := by
  cases c <;> rfl

theorem elemPrefix_cons_scalar (p : Persistent) (rest : List Persistent) (hp : p.kind ≠ .slice) :
    elemPrefix (p :: rest) = p.kind.tag := by
  cases p <;> first | rfl | exact absurd rfl hp

theorem waitAll_errors (e0 : Error) (l : List (Result Persistent))
    (h : ∀ r ∈ l, ∃ v, r = .done v none ∨ r = .done v (some e0)) :
    ∃ slc e, waitAll l = .done slc e ∧ (e = none ∨ e = some e0) ∧
      ((∃ r ∈ l, ∃ v, r = Result.done v (some e0)) → e = some e0) := by
  induction l with
  | nil => exact ⟨[], none, rfl, Or.inl rfl, fun ⟨r, hr, _⟩ => by simp at hr⟩
  | cons r l ih =>
    obtain ⟨slc, e, hw, he, hex⟩ := ih (fun x hx => h x (by simp [hx]))
    obtain ⟨v, hv | hv⟩ := h r (by simp)
    · subst hv
      refine ⟨v :: slc, e, by simp [waitAll, hw, firstErr], he, ?_⟩
      rintro ⟨x, hx, w, hxw⟩
      rcases List.mem_cons.1 hx with hx | hx
      · subst hx; cases hxw
      · exact hex ⟨x, hx, w, hxw⟩
    · subst hv
      exact ⟨v :: slc, some e0, by simp [waitAll, hw, firstErr], Or.inr rfl, fun _ => rfl⟩

/-- C19 as stated fails on the list `[Int64(1), String("a")]` under `"test"` in
the empty test store: `Persist` returns no error, but the following `Restore`
returns the store's error for element 1, which it looks for under the `Int64`
tag, and leaves the receiver as it was. -/
theorem mixed_slice_restore_not_silent :
    (PersistentSlice.Persist testStorager [.int64 1, .string [97]] [] testKey).2 = none ∧
    PersistentSlice.Restore testStorager 0 []
      (PersistentSlice.Persist testStorager [.int64 1, .string [97]] [] testKey).1 testKey
      = .done [] (some (.storager "value is not stored")) :=
  ⟨rfl, rfl⟩

/-- C19, amended. For every list whose first element is a scalar and in which
some element, a scalar or a list, has another kind than the first one, every
raw key, and a read-after-write store in which nothing is stored (every `Load`
fails with `e0`): `Persist` does not reject the list and returns no error; the
following `Restore` under the same key looks for every element under the first
element's kind, finds no entry for an element of another kind, and returns the
store's error `e0`, leaving the receiver as it was. -/
theorem mixed_slice_round_trip (S : Storager σ) (hS : S.ReadAfterWrite) (s : σ) (e0 : Error)
    (hempty : ∀ K, S.Load s K = .error e0) (p0 : Persistent) (rest : List Persistent)
    (hfirst : p0.kind ≠ .slice) (hmixed : ∃ p ∈ rest, p.kind ≠ p0.kind)
    (hlen : (p0 :: rest).length < 2 ^ 63) (recv : List Persistent) (k : Bytes) (fuel : Nat) :
    (PersistentSlice.Persist S (p0 :: rest) s k).2 = none ∧
      PersistentSlice.Restore S fuel recv (PersistentSlice.Persist S (p0 :: rest) s k).1 k
        = .done recv (some e0) := by
  have hpre : elemPrefix (p0 :: rest) = p0.kind.tag := elemPrefix_cons_scalar p0 rest hfirst
  have ht : p0.kind.tag < 15 := Kind.tag_lt p0.kind
  have h1 := tasks_raw_none S hS (p0 :: rest) s (13 :: k) p0.kind.tag 0
  have h3 := fun j hj => tasks_load S hS p0.kind hfirst (p0 :: rest) s k p0.kind.tag 0 ht j hj
  rw [PersistentSlice_Persist_eq S hS, hpre]
  refine ⟨h1, ?_⟩
  generalize hps : p0 :: rest = ps at *
  generalize PersistentSlice.Persist.tasks S ps s (13 :: k) p0.kind.tag 0 = g at h1 h3
  have hmod : p0.kind.tag % 256 = p0.kind.tag := by omega
  rw [hmod]
  have hlen64 : ps.length < 2 ^ 64 := by norm_num at hlen ⊢; omega
  have hLenLoad : S.Load (S.Save (S.Save g.1 (9 :: 108 :: 13 :: k)
      (putLE 8 (ps.length % 2 ^ 64))).1 (14 :: 116 :: 13 :: k) [p0.kind.tag]).1
      (9 :: 108 :: 13 :: k) = .ok (putLE 8 (ps.length % 2 ^ 64)) := by
    rw [load_save_other S hS _ _ _ _ (by simp), load_save_same S hS]
  have hTagLoad : S.Load (S.Save (S.Save g.1 (9 :: 108 :: 13 :: k)
      (putLE 8 (ps.length % 2 ^ 64))).1 (14 :: 116 :: 13 :: k) [p0.kind.tag]).1
      (14 :: 116 :: 13 :: k) = .ok [p0.kind.tag] := load_save_same S hS _ _ _
  have hElLoad : ∀ K : Bytes, S.Load (S.Save (S.Save g.1 (9 :: 108 :: 13 :: k)
      (putLE 8 (ps.length % 2 ^ 64))).1 (14 :: 116 :: 13 :: k) [p0.kind.tag]).1
      (p0.kind.tag :: 13 :: K) = S.Load g.1 (p0.kind.tag :: 13 :: K) := by
    intro K
    rw [load_save_other S hS _ _ _ _ (by simp), load_save_other S hS _ _ _ _ (by simp)]
  generalize (S.Save (S.Save g.1 (9 :: 108 :: 13 :: k)
      (putLE 8 (ps.length % 2 ^ 64))).1 (14 :: 116 :: 13 :: k) [p0.kind.tag]).1 = s3 at *
  have hL := PersistentUint64_Restore_of_load S s3 (108 :: 13 :: k) ps.length 0 hlen64 hLenLoad
  have hT := PersistentByte_Restore_of_load S s3 (116 :: 13 :: k) p0.kind.tag 0 hTagLoad
  have hclass : ∀ i (hi : i < ps.length),
      (ps[i].kind = p0.kind ∧ p0.kind ≠ .int8 →
        ∃ v, p0.kind.empty.Restore S fuel s3 (elemKey (13 :: k) p0.kind.tag i) = .done v none) ∧
      (¬ (ps[i].kind = p0.kind ∧ p0.kind ≠ .int8) →
        p0.kind.empty.Restore S fuel s3 (elemKey (13 :: k) p0.kind.tag i)
          = .done p0.kind.empty (some e0)) := by
    intro i hi
    have hload := h3 i hi
    rw [Nat.zero_add] at hload
    constructor
    · rintro ⟨hk, h8⟩
      rw [if_pos ⟨hk, h8⟩] at hload
      have hq := restore_of_payload S s3 (elemKey (13 :: k) p0.kind.tag i) fuel ps[i]
        (by rw [hk]; exact hfirst)
        (by rw [hk, elemKey_head, hElLoad, ← elemKey_head]; exact hload)
      rwa [hk] at hq
    · intro hne
      rw [if_neg hne] at hload
      apply restore_of_error S s3 _ fuel p0.kind hfirst e0
      rw [elemKey_head, hElLoad, ← elemKey_head, hload]
      exact hempty _
  simp only [PersistentSlice.Restore, PersistentSlice.restoreBody, PersistentSlicePrefix, hL, hT,
    newElem_tag]
  obtain ⟨slc, e, hw, -, hex⟩ := waitAll_errors e0
    ((List.range ps.length).map fun index =>
      p0.kind.empty.Restore S fuel s3 (elemKey (13 :: k) p0.kind.tag index))
    (by
      intro r hr
      obtain ⟨i, hi, rfl⟩ := List.mem_map.1 hr
      have hi2 : i < ps.length := List.mem_range.1 hi
      by_cases hc : ps[i].kind = p0.kind ∧ p0.kind ≠ .int8
      · obtain ⟨v, hv⟩ := (hclass i hi2).1 hc
        exact ⟨v, Or.inl hv⟩
      · exact ⟨_, Or.inr ((hclass i hi2).2 hc)⟩)
  have he : e = some e0 := by
    apply hex
    obtain ⟨p, hp, hpk⟩ := hmixed
    have hp2 : p ∈ ps := by rw [← hps]; simp [hp]
    obtain ⟨i, hi, hip⟩ := List.getElem_of_mem hp2
    refine ⟨_, List.mem_map.2 ⟨i, List.mem_range.2 hi, rfl⟩, _, (hclass i hi).2 ?_⟩
    rintro ⟨hk, -⟩
    rw [hip] at hk
    exact hpk hk
  rw [hw, he]

/-- Instance of C19: the list `[Int64(1), [Int64(2)]]`, whose second element is
a list, under `"test"` in the empty test store. -/
theorem mixed_slice_round_trip_witness :
    (PersistentSlice.Persist testStorager [.int64 1, .slice [.int64 2]] [] testKey).2 = none ∧
      PersistentSlice.Restore testStorager 0 [.bool true]
        (PersistentSlice.Persist testStorager [.int64 1, .slice [.int64 2]] [] testKey).1 testKey
        = .done [.bool true] (some (.storager "value is not stored")) :=
  mixed_slice_round_trip testStorager testStorager_readAfterWrite []
    (.storager "value is not stored") (fun _ => rfl) (.int64 1) [.slice [.int64 2]]
    (by simp [Persistent.kind])
    ⟨.slice [.int64 2], by simp, by simp [Persistent.kind]⟩ (by norm_num) [.bool true] testKey 0

/-! ## Totality of the scalar restores and atomicity of the list restore -/

/-- Every scalar `Restore` other than that of `Bool` returns, whatever the
store holds. -/
theorem scalar_restore_returns (S : Storager σ) (s : σ) (k : Bytes) (fuel : Nat) (p : Persistent)
    (hp : p.kind ≠ .slice) (hb : p.kind ≠ .bool) :
    ∃ v e, p.Restore S fuel s k = .done v e := by
  cases p
  case slice ps => exact absurd rfl hp
  case bool v => exact absurd rfl hb
  case string v =>
    simp only [Persistent.Restore, PersistentString.Restore]
    cases S.Load s (PersistentStringPrefix :: k) <;> exact ⟨_, _, rfl⟩
  case byte v =>
    simp only [Persistent.Restore, PersistentByte.Restore]
    cases hl : S.Load s (PersistentBytePrefix :: k) with
    | error e => exact ⟨_, _, rfl⟩
    | ok dt =>
      by_cases h1 : dt.length = 1
      · simp only [h1, ne_eq, not_true_eq_false, if_false]; exact ⟨_, _, rfl⟩
      · simp only [h1, ne_eq, not_false_eq_true, if_true]; exact ⟨_, _, rfl⟩
  all_goals
    simp only [Persistent.Restore, PersistentInt8.Restore, PersistentInt16.Restore,
      PersistentInt32.Restore, PersistentInt64.Restore, PersistentUint8.Restore,
      PersistentUint16.Restore, PersistentUint32.Restore, PersistentUint64.Restore,
      PersistentFloat32.Restore, PersistentFloat64.Restore]
    split
    · exact ⟨_, _, rfl⟩
    · split <;> exact ⟨_, _, rfl⟩

/-- The `Restore` of a `Bool` panics exactly when the store holds the empty
byte string under the composed key. -/
theorem bool_restore_crash_iff (S : Storager σ) (s : σ) (k : Bytes) (q : Bool) :
    PersistentBool.Restore S q s k = .crash ↔ S.Load s (PersistentBoolPrefix :: k) = .ok [] := by
  simp only [PersistentBool.Restore]
  cases hl : S.Load s (PersistentBoolPrefix :: k) with
  | error e => simp
  | ok dt => cases dt <;> simp

/-- C21 fails on a store holding the empty byte string under the `Bool`-tagged
key `"test"`: `Load` returns it with no error and `PersistentBool.Restore`
panics indexing `dt[0]`, where the claim has it return. -/
theorem bool_restore_empty_crashes :
    testStorager.Load emptyBoolDB (PersistentBoolPrefix :: testKey) = .ok [] ∧
    PersistentBool.Restore testStorager false emptyBoolDB testKey = .crash ∧
    (Persistent.bool false).Restore testStorager 0 emptyBoolDB testKey = .crash :=
  ⟨rfl, rfl, rfl⟩
theorem waitAll_none (l : List (Result Persistent)) (slc : List Persistent)
    (h : waitAll l = .done slc none) : l = slc.map fun p => Result.done p none := by
  induction l generalizing slc with
  | nil =>
    simp only [waitAll, Result.done.injEq, and_true] at h
    subst h; rfl
  | cons r l ih =>
    cases r with
    | crash => simp [waitAll] at h
    | fuelOut => simp [waitAll] at h
    | done p e =>
      cases hw : waitAll l with
      | crash => simp [waitAll, hw] at h
      | fuelOut => simp [waitAll, hw] at h
      | done slc2 e2 =>
        simp only [waitAll, hw, Result.done.injEq] at h
        obtain ⟨h1, h2⟩ := h
        cases e with
        | some x => simp [firstErr] at h2
        | none =>
          simp only [firstErr] at h2
          subst h2
          subst h1
          rw [ih slc2 hw]
          simp

/-- C22. A failed list `Restore` leaves the receiver as it was: for every
receiver, raw key, `Storager` and store state, if `PersistentSlice.Restore`
returns an error, whether from the metadata or from an element, the receiver
after the call is the receiver before it; and if it returns nil with a new
list, then the length and the element tag were restored with no error and
every element task, one per index below that length, returned its element of
the new list with a nil error. -/
theorem slice_restore_atomic (S : Storager σ) (fuel : Nat) (recv : List Persistent) (s : σ)
    (k : Bytes) :
    (∀ r e, PersistentSlice.Restore S fuel recv s k = .done r (some e) → r = recv) ∧
    (∀ r, PersistentSlice.Restore S fuel recv s k = .done r none →
      ∃ length pfx,
        PersistentUint64.Restore S 0 s (108 :: PersistentSlicePrefix :: k) = .done length none ∧
        PersistentByte.Restore S 0 s (116 :: PersistentSlicePrefix :: k) = .done pfx none ∧
        r.length = length ∧
        ((List.range length).map fun index =>
          match newElem pfx with
          | none => Result.crash
          | some slot =>
            Persistent.Restore S fuel slot s (elemKey (PersistentSlicePrefix :: k) pfx index))
          = r.map fun p => Result.done p none) := by
  simp only [PersistentSlice.Restore, PersistentSlice.restoreBody]
  cases hl : PersistentUint64.Restore S 0 s (108 :: PersistentSlicePrefix :: k) with
  | crash => simp
  | fuelOut => simp
  | done length el =>
    cases el with
    | some e1 => simp
    | none =>
      cases ht : PersistentByte.Restore S 0 s (116 :: PersistentSlicePrefix :: k) with
      | crash => simp
      | fuelOut => simp
      | done pfx et =>
        cases et with
        | some e2 => simp
        | none =>
          cases hw : waitAll ((List.range length).map fun index =>
              match newElem pfx with
              | none => Result.crash
              | some slot =>
                Persistent.Restore S fuel slot s
                  (elemKey (PersistentSlicePrefix :: k) pfx index)) with
          | crash => simp [hw]
          | fuelOut => simp [hw]
          | done slc eg =>
            cases eg with
            | some e3 => simp [hw]
            | none =>
              have hm := waitAll_none _ slc hw
              simp only [hw]
              refine ⟨by simp, ?_⟩
              intro r hr
              simp only [Result.done.injEq, and_true] at hr
              subst hr
              have hlen := congrArg List.length hm
              simp only [List.length_map, List.length_range] at hlen
              exact ⟨length, pfx, rfl, rfl, hlen.symm, hm⟩

/-- Instance of C22: a receiver holding one string, restored under `"test"` from
a test store that records two `Int64` elements and holds only element 0: the
`Restore` returns the store's error for element 1 and the receiver is as it
was. -/
theorem slice_restore_atomic_witness :
    PersistentSlice.Restore testStorager 0 [.string [97]] missingElemDB testKey
      = .done [.string [97]] (some (.storager "value is not stored")) ∧
    [Persistent.string [97]] = [.string [97]] :=
  ⟨rfl, (slice_restore_atomic testStorager 0 [.string [97]] missingElemDB testKey).1
    [.string [97]] (.storager "value is not stored") rfl⟩

end persistent
